import Mathlib

/-!
The d2gui layout engine: placement and pointer dispatch

A shallow embedding of `d2core/d2gui/layout.go` (with the event records of
`d2core/d2input/input_events.go`) and theorems about it.

Conventions of the embedding.

* Go `int` is the 64-bit signed integer.  Its values are modelled by `Int`; every
  `+`, `+=` and `-` of the source that can leave the 64-bit range is followed by
  `wrap`, the two's complement reduction into that range.  `MaxInt` and the
  halving `a/2 - b/2` of two 64-bit values cannot leave the range and are not
  reduced.  Go's `/` on `int` truncates toward zero and is modelled by
  `Int.tdiv`.
* A `*Layout` is a value; the loops of the source that mutate entries in place
  become functions returning the updated entry list.  Every `Add...` method of
  the source allocates a fresh widget, so no widget is shared by two entries and
  value semantics loses nothing.
* A child widget is seen only through the `widget` interface.  Its observable
  state (what the interface getters return) is a record; a nested `Layout` child
  is seen through `Layout.toWidget`.
* Calls of a child's pointer handlers are recorded in a call log (entry index
  and handler); their effect inside the child is outside this file.
-/

namespace d2gui

/-! ## Machine integers -/

/-- The least value of Go's 64-bit `int`. -/
def MinInt64 : Int := -9223372036854775808

/-- The greatest value of Go's 64-bit `int`. -/
def MaxInt64 : Int := 9223372036854775807

/-- The two's complement reduction of an integer into the range of Go's 64-bit
`int`: what an overflowing `+` or `-` leaves. -/
def wrap (x : Int) : Int :=
  (x + 9223372036854775808) % 18446744073709551616 - 9223372036854775808

/-- The integer is a value of Go's 64-bit `int`. -/
def inRange (x : Int) : Prop := MinInt64 ≤ x ∧ x ≤ MaxInt64

instance (x : Int) : Decidable (inRange x) := by
  unfold inRange
  exact inferInstance

/-! ## Collaborators that are not part of the two source files -/

/-- Modelled from the spec: `d2common.MaxInt` is not among the source files; the
spec describes it as the maximum of two integers. -/
def MaxInt (a b : Int) : Int := max a b

/-- Modelled from the spec: `d2common.Rectangle` is not among the source files;
it is the record the hit test builds from a screen position and an extent. -/
structure Rectangle where
  Left : Int
  Top : Int
  Width : Int
  Height : Int
deriving DecidableEq, Repr

/-- Modelled from the spec: `Rectangle.IsInRect` is not among the source files;
the spec describes the hit test as containment of the pointer coordinate in the
rectangle, taken here half-open: the left and top edges are inside, the right
and bottom edges are not. -/
def Rectangle.IsInRect (r : Rectangle) (x y : Int) : Bool :=
  decide (r.Left ≤ x) && decide (x < r.Left + r.Width) &&
    decide (r.Top ≤ y) && decide (y < r.Top + r.Height)

/-- Modelled from the spec: `widgetBase` is not among the source files.  It holds
what the `widget` interface getters return for every widget: the position, the
visibility and expanding flags, the screen position written by `SetScreenPos`
and the offset written by `setOffset`. -/
structure widgetBase where
  getPosition : Int × Int
  isVisible : Bool
  isExpanding : Bool
  ScreenPos : Int × Int
  offset : Int × Int
deriving DecidableEq, Repr

/-- Modelled from the spec: the `widget` interface is not among the source files.
A widget is its `widgetBase` together with the natural size its `getSize`
reports. -/
structure widget extends widgetBase where
  getSize : Int × Int
deriving DecidableEq, Repr

/-- Modelled from the spec: `SetScreenPos` stores the screen position that
`ScreenPos` returns. -/
def widget.SetScreenPos (w : widget) (x y : Int) : widget :=
  { w with ScreenPos := (x, y) }

/-- Modelled from the spec: `setOffset` stores the running offset of the
enclosing layout. -/
def widget.setOffset (w : widget) (x y : Int) : widget :=
  { w with offset := (x, y) }

/-! ## Event records (`d2input/input_events.go`) -/

/-- The mouse buttons: the index set of `layoutEntry.mouseDown`, a `[3]bool`. -/
inductive MouseButton where
  | left
  | middle
  | right
deriving DecidableEq, Repr

structure HandlerEvent where
  keyMod : Int
  buttonMod : Int
  x : Int
  y : Int
deriving DecidableEq, Repr

def HandlerEvent.X (e : HandlerEvent) : Int := e.x

def HandlerEvent.Y (e : HandlerEvent) : Int := e.y

structure MouseEvent extends HandlerEvent where
  mouseButton : MouseButton
deriving DecidableEq, Repr

def MouseEvent.X (e : MouseEvent) : Int := e.toHandlerEvent.x

def MouseEvent.Y (e : MouseEvent) : Int := e.toHandlerEvent.y

def MouseEvent.Button (e : MouseEvent) : MouseButton := e.mouseButton

structure MouseMoveEvent extends HandlerEvent where
deriving DecidableEq, Repr

def MouseMoveEvent.X (e : MouseMoveEvent) : Int := e.toHandlerEvent.x

def MouseMoveEvent.Y (e : MouseMoveEvent) : Int := e.toHandlerEvent.y

/-! ## Data model (`d2gui/layout.go`) -/

/-- The `[3]bool` press flags of an entry, one per mouse button. -/
structure PressFlags where
  left : Bool
  middle : Bool
  right : Bool
deriving DecidableEq, Repr

def PressFlags.get (p : PressFlags) : MouseButton → Bool
  | .left => p.left
  | .middle => p.middle
  | .right => p.right

def PressFlags.set (p : PressFlags) (b : MouseButton) (v : Bool) : PressFlags :=
  match b with
  | .left => { p with left := v }
  | .middle => { p with middle := v }
  | .right => { p with right := v }

structure layoutEntry where
  widget : d2gui.widget
  x : Int
  y : Int
  width : Int
  height : Int
  mouseOver : Bool
  mouseDown : PressFlags
deriving DecidableEq, Repr

inductive VerticalAlign where
  | VerticalAlignTop
  | VerticalAlignMiddle
  | VerticalAlignBottom
deriving DecidableEq, Repr

inductive HorizontalAlign where
  | HorizontalAlignLeft
  | HorizontalAlignCenter
  | HorizontalAlignRight
deriving DecidableEq, Repr

inductive PositionType where
  | PositionTypeAbsolute
  | PositionTypeVertical
  | PositionTypeHorizontal
deriving DecidableEq, Repr

open VerticalAlign HorizontalAlign PositionType

structure Layout extends widgetBase where
  width : Int
  height : Int
  verticalAlign : VerticalAlign
  horizontalAlign : HorizontalAlign
  positionType : PositionType
  entries : List layoutEntry
deriving DecidableEq, Repr

/-- The entry `&layoutEntry{widget: w}` that every `Add...` method appends. -/
def newEntry (w : widget) : layoutEntry :=
  { widget := w, x := 0, y := 0, width := 0, height := 0,
    mouseOver := false, mouseDown := ⟨false, false, false⟩ }

def createLayout (positionType : PositionType) : Layout :=
  { getPosition := (0, 0), isVisible := true, isExpanding := false,
    ScreenPos := (0, 0), offset := (0, 0),
    width := 0, height := 0,
    verticalAlign := VerticalAlignTop, horizontalAlign := HorizontalAlignLeft,
    positionType := positionType, entries := [] }

def Layout.SetSize (l : Layout) (width height : Int) : Layout :=
  { l with width := width, height := height }

def Layout.SetVerticalAlign (l : Layout) (verticalAlign : VerticalAlign) : Layout :=
  { l with verticalAlign := verticalAlign }

def Layout.SetHorizontalAlign (l : Layout) (horizontalAlign : HorizontalAlign) : Layout :=
  { l with horizontalAlign := horizontalAlign }

def Layout.Clear (l : Layout) : Layout :=
  { l with entries := [] }

/-! ## Size negotiation -/

/-- One iteration of the loop of `getContentSize`: the accumulator is
`(width, height)`. -/
def contentStep (positionType : PositionType) (acc : Int × Int) (entry : layoutEntry) :
    Int × Int :=
  match positionType with
  | PositionTypeVertical =>
    (MaxInt acc.1 entry.widget.getSize.1, wrap (acc.2 + entry.widget.getSize.2))
  | PositionTypeHorizontal =>
    (wrap (acc.1 + entry.widget.getSize.1), MaxInt acc.2 entry.widget.getSize.2)
  | PositionTypeAbsolute =>
    (MaxInt acc.1 (wrap (entry.widget.getPosition.1 + entry.widget.getSize.1)),
      MaxInt acc.2 (wrap (entry.widget.getPosition.2 + entry.widget.getSize.2)))

def Layout.getContentSize (l : Layout) : Int × Int :=
  l.entries.foldl (contentStep l.positionType) (0, 0)

def Layout.getSize (l : Layout) : Int × Int :=
  (MaxInt l.getContentSize.1 l.width, MaxInt l.getContentSize.2 l.height)

/-- A `Layout` seen as a child widget: its `getSize` is the computed one. -/
def Layout.toWidget (l : Layout) : widget :=
  { l.towidgetBase with getSize := l.getSize }

/-! ## Placement -/

/-- The first loop of `AdjustEntryPlacement`: the number of visible expanding
entries. -/
def expanderCount (entries : List layoutEntry) : Int :=
  entries.foldl
    (fun n entry => if entry.widget.isVisible && entry.widget.isExpanding then n + 1 else n) 0

/-- The block of `AdjustEntryPlacement` that computes
`(expanderWidth, expanderHeight)` from `width, height := l.getSize()`. -/
def Layout.expanderSize (l : Layout) : Int × Int :=
  if expanderCount l.entries > 0 then
    match l.positionType with
    | PositionTypeVertical =>
      (MaxInt 0 0,
        MaxInt 0 ((wrap (l.getSize.2 - l.getContentSize.2)).tdiv (expanderCount l.entries)))
    | PositionTypeHorizontal =>
      (MaxInt 0 ((wrap (l.getSize.1 - l.getContentSize.1)).tdiv (expanderCount l.entries)),
        MaxInt 0 0)
    | PositionTypeAbsolute => (MaxInt 0 0, MaxInt 0 0)
  else (0, 0)

/-- The size the placement loop gives a visible entry: the expander size for an
expanding widget, the natural size otherwise. -/
def placedSize (expander : Int × Int) (entry : layoutEntry) : Int × Int :=
  if entry.widget.isExpanding then expander else entry.widget.getSize

/-- The body of the placement loop for one visible entry, with the running
offsets `(offsetX, offsetY)` on entry; returns the placed entry and the offsets
after it.  `size` is `l.getSize()` and `expander` is
`(expanderWidth, expanderHeight)`. -/
def Layout.placeEntry (l : Layout) (size expander : Int × Int) (offsetX offsetY : Int)
    (entry : layoutEntry) : layoutEntry × Int × Int :=
  let ew := (placedSize expander entry).1
  let eh := (placedSize expander entry).2
  match l.positionType with
  | PositionTypeVertical =>
    let x :=
      match l.horizontalAlign with
      | HorizontalAlignLeft => 0
      | HorizontalAlignCenter => size.1.tdiv 2 - ew.tdiv 2
      | HorizontalAlignRight => wrap (size.1 - ew)
    ({ entry with
        width := ew, height := eh, x := x, y := offsetY,
        widget := (entry.widget.SetScreenPos (wrap (x + l.ScreenPos.1))
          (wrap (offsetY + l.ScreenPos.2))).setOffset offsetX (wrap (offsetY + eh)) },
      offsetX, wrap (offsetY + eh))
  | PositionTypeHorizontal =>
    let y :=
      match l.verticalAlign with
      | VerticalAlignTop => 0
      | VerticalAlignMiddle => size.2.tdiv 2 - eh.tdiv 2
      | VerticalAlignBottom => wrap (size.2 - eh)
    ({ entry with
        width := ew, height := eh, x := offsetX, y := y,
        widget := (entry.widget.SetScreenPos (wrap (offsetX + l.ScreenPos.1))
          (wrap (y + l.ScreenPos.2))).setOffset (wrap (offsetX + ew)) offsetY },
      wrap (offsetX + ew), offsetY)
  | PositionTypeAbsolute =>
    ({ entry with
        width := ew, height := eh,
        x := entry.widget.getPosition.1, y := entry.widget.getPosition.2,
        widget := (entry.widget.SetScreenPos (wrap (entry.widget.getPosition.1 + l.ScreenPos.1))
          (wrap (entry.widget.getPosition.2 + l.ScreenPos.2))).setOffset offsetX offsetY },
      offsetX, offsetY)

/-- The placement loop of `AdjustEntryPlacement` over the entries, threading the
running offsets; invisible entries are passed over untouched. -/
def Layout.placeEntries (l : Layout) (size expander : Int × Int) :
    Int → Int → List layoutEntry → List layoutEntry
  | _, _, [] => []
  | offsetX, offsetY, entry :: rest =>
    if entry.widget.isVisible then
      (l.placeEntry size expander offsetX offsetY entry).1 ::
        l.placeEntries size expander (l.placeEntry size expander offsetX offsetY entry).2.1
          (l.placeEntry size expander offsetX offsetY entry).2.2 rest
    else
      entry :: l.placeEntries size expander offsetX offsetY rest

def Layout.AdjustEntryPlacement (l : Layout) : Layout :=
  { l with entries := l.placeEntries l.getSize l.expanderSize 0 0 l.entries }

/-! ## Pointer dispatch -/

/-- The handlers of the `widget` interface that the layout invokes on a child. -/
inductive Handler where
  | onMouseMove
  | onMouseEnter
  | onMouseOver
  | onMouseLeave
  | onMouseButtonDown
  | onMouseButtonUp
  | onMouseButtonClick
deriving DecidableEq, Repr

/-- One invocation of a child handler: the index of the entry in `l.entries` and
the handler invoked on its widget. -/
structure Call where
  entry : Nat
  handler : Handler
deriving DecidableEq, Repr

/-- What a pointer handler of the layout leaves behind: the layout with its
updated entries, the child handler calls in the order they were made, and the
returned "handled" flag. -/
structure Dispatched where
  layout : Layout
  calls : List Call
  handled : Bool
deriving DecidableEq, Repr

def layoutEntry.IsIn (entry : layoutEntry) (event : HandlerEvent) : Bool :=
  Rectangle.IsInRect
    { Left := entry.widget.ScreenPos.1, Top := entry.widget.ScreenPos.2,
      Width := entry.width, Height := entry.height }
    event.X event.Y

/-- The loop body of `onMouseButtonDown` for one entry: the updated entry and the
handlers invoked on its widget, in order. -/
def layoutEntry.buttonDown (event : MouseEvent) (entry : layoutEntry) :
    layoutEntry × List Handler :=
  if entry.IsIn event.toHandlerEvent then
    ({ entry with mouseDown := entry.mouseDown.set event.Button true },
      [Handler.onMouseButtonDown])
  else (entry, [])

/-- The loop body of `onMouseButtonUp` for one entry. -/
def layoutEntry.buttonUp (event : MouseEvent) (entry : layoutEntry) :
    layoutEntry × List Handler :=
  ({ entry with mouseDown := entry.mouseDown.set event.Button false },
    if entry.IsIn event.toHandlerEvent then
      if entry.mouseDown.get event.Button then
        [Handler.onMouseButtonClick, Handler.onMouseButtonUp]
      else []
    else [])

/-- The loop body of `onMouseMove` for one entry. -/
def layoutEntry.mouseMove (event : MouseMoveEvent) (entry : layoutEntry) :
    layoutEntry × List Handler :=
  if entry.IsIn event.toHandlerEvent then
    ({ entry with mouseOver := true },
      if entry.mouseOver then [Handler.onMouseMove, Handler.onMouseOver]
      else [Handler.onMouseMove, Handler.onMouseEnter])
  else if entry.mouseOver then
    ({ entry with mouseOver := false }, [Handler.onMouseLeave])
  else (entry, [])

/-- The `for _, entry := range l.entries` loop of the three pointer handlers:
runs the loop body on each entry in insertion order, starting at index `i`, and
collects the updated entries and the calls made. -/
def dispatchEntries (body : layoutEntry → layoutEntry × List Handler) :
    Nat → List layoutEntry → List layoutEntry × List Call
  | _, [] => ([], [])
  | i, entry :: rest =>
    ((body entry).1 :: (dispatchEntries body (i + 1) rest).1,
      (body entry).2.map (Call.mk i) ++ (dispatchEntries body (i + 1) rest).2)

def Layout.onMouseButtonDown (l : Layout) (event : MouseEvent) : Dispatched :=
  { layout := { l with entries := (dispatchEntries (layoutEntry.buttonDown event) 0 l.entries).1 },
    calls := (dispatchEntries (layoutEntry.buttonDown event) 0 l.entries).2,
    handled := false }

def Layout.onMouseButtonUp (l : Layout) (event : MouseEvent) : Dispatched :=
  { layout := { l with entries := (dispatchEntries (layoutEntry.buttonUp event) 0 l.entries).1 },
    calls := (dispatchEntries (layoutEntry.buttonUp event) 0 l.entries).2,
    handled := false }

def Layout.onMouseMove (l : Layout) (event : MouseMoveEvent) : Dispatched :=
  { layout := { l with entries := (dispatchEntries (layoutEntry.mouseMove event) 0 l.entries).1 },
    calls := (dispatchEntries (layoutEntry.mouseMove event) 0 l.entries).2,
    handled := false }

/-- The append `l.entries = append(l.entries, &layoutEntry{widget: w})` shared by
every `Add...` method. -/
def Layout.addEntry (l : Layout) (w : widget) : Layout :=
  { l with entries := l.entries ++ [newEntry w] }

/-! ## Concrete widgets and layouts used in scenarios -/

/-- Modelled from the spec: the widget constructors are not among the source
files.  A visible, non-expanding widget of natural size `w` x `h` (a label,
button or sprite as the layout sees it). -/
def fixedWidget (w h : Int) : widget :=
  { getPosition := (0, 0), isVisible := true, isExpanding := false,
    ScreenPos := (0, 0), offset := (0, 0), getSize := (w, h) }

/-- Modelled from the spec: `createSpacerDynamic` is not among the source files.
A dynamic spacer is visible, expanding and of natural size 0 x 0. -/
def dynamicSpacer : widget :=
  { getPosition := (0, 0), isVisible := true, isExpanding := true,
    ScreenPos := (0, 0), offset := (0, 0), getSize := (0, 0) }

/-- Modelled from the spec: `SetVisible` of `widgetBase` is not among the source
files; it stores the flag that `isVisible` returns. -/
def widget.SetVisible (w : widget) (visible : Bool) : widget :=
  { w with isVisible := visible }

/-- Modelled from the spec: `SetExpanding` of `widgetBase` is not among the source
files; it stores the flag that `isExpanding` returns. -/
def widget.SetExpanding (w : widget) (expanding : Bool) : widget :=
  { w with isExpanding := expanding }

/-- A Vertical layout with `SetSize(0, 100)` whose only child is a visible
expanding widget of natural size 0 x 30. -/
def tallExpander : Layout :=
  ((createLayout PositionTypeVertical).SetSize 0 100).addEntry
    ((fixedWidget 0 30).SetExpanding true)

/-- A Vertical layout with `SetSize(100, 100)` holding a 100x20 widget, a dynamic
spacer and a second 100x20 widget. -/
def labelSpacerLabel : Layout :=
  ((((createLayout PositionTypeVertical).SetSize 100 100).addEntry (fixedWidget 100 20)).addEntry
    dynamicSpacer).addEntry (fixedWidget 100 20)

/-- A Vertical, Center-aligned layout with `SetSize(4, 0)` whose only child is a
visible 1x1 widget. -/
def offCenter : Layout :=
  (((createLayout PositionTypeVertical).SetSize 4 0).SetHorizontalAlign
    HorizontalAlignCenter).addEntry (fixedWidget 1 1)

/-- A Vertical, Center-aligned layout with `SetSize(10, 0)` whose only child is a
visible 4x1 widget. -/
def centered : Layout :=
  (((createLayout PositionTypeVertical).SetSize 10 0).SetHorizontalAlign
    HorizontalAlignCenter).addEntry (fixedWidget 4 1)

/-- The entry of `centered` as the placement loop leaves it. -/
def centeredPlaced : layoutEntry :=
  (centered.placeEntry centered.getSize centered.expanderSize 0 0
    (newEntry (fixedWidget 4 1))).1

/-- What the size negotiation and the placement loop read of an entry: the
natural size, position, visibility and expanding flag of its widget. -/
def layoutKey (e : layoutEntry) : (Int × Int) × (Int × Int) × Bool × Bool :=
  (e.widget.getSize, e.widget.getPosition, e.widget.isVisible, e.widget.isExpanding)

/-- The third entry of `labelSpacerLabel` as the placement loop leaves it. -/
def secondLabelPlaced : layoutEntry :=
  (labelSpacerLabel.placeEntry (100, 100) (0, 60) 0 80 (newEntry (fixedWidget 100 20))).1

/-- The layout obtained by removing all invisible children from the entry list. -/
def Layout.removeInvisible (l : Layout) : Layout :=
  { l with entries := l.entries.filter fun e => e.widget.isVisible }

/-- The rectangle of an entry: `(x, y, width, height)`. -/
def layoutEntry.rect (e : layoutEntry) : Int × Int × Int × Int :=
  (e.x, e.y, e.width, e.height)

/-- A Vertical, Center-aligned layout with `SetSize(100, 100)` holding a hidden
200x30 widget, a dynamic spacer and a visible 50x20 widget. -/
def hiddenWide : Layout :=
  (((((createLayout PositionTypeVertical).SetSize 100 100).SetHorizontalAlign
    HorizontalAlignCenter).addEntry ((fixedWidget 200 30).SetVisible false)).addEntry
    dynamicSpacer).addEntry (fixedWidget 50 20)

/-- The layout `hiddenWide` with a hidden child of natural size 0x0 instead. -/
def hiddenEmpty : Layout :=
  (((((createLayout PositionTypeVertical).SetSize 100 100).SetHorizontalAlign
    HorizontalAlignCenter).addEntry ((fixedWidget 0 0).SetVisible false)).addEntry
    dynamicSpacer).addEntry (fixedWidget 50 20)

/-- Hiding the widget of the entry at index `i`: what a caller does with
`SetVisible(false)` on the widget an `Add...` method returned. -/
def hideChild : Nat → List layoutEntry → List layoutEntry
  | _, [] => []
  | 0, e :: rest => { e with widget := e.widget.SetVisible false } :: rest
  | i + 1, e :: rest => e :: hideChild i rest

def Layout.hideChild (l : Layout) (i : Nat) : Layout :=
  { l with entries := d2gui.hideChild i l.entries }

/-- A Vertical layout with one visible 50x50 child, freshly added and never
placed. -/
def freshChild : Layout :=
  (createLayout PositionTypeVertical).addEntry (fixedWidget 50 50)

/-- The layout `freshChild` after a placement, then hiding the child, then a
second placement. -/
def shownThenHidden : Layout :=
  (freshChild.AdjustEntryPlacement.hideChild 0).AdjustEntryPlacement

/-- A Vertical layout whose only child is a 50x50 widget hidden before any
placement. -/
def neverShown : Layout :=
  (createLayout PositionTypeVertical).addEntry ((fixedWidget 50 50).SetVisible false)

/-- A button event of the left button at `(10, 10)`. -/
def leftAt10 : MouseEvent :=
  { keyMod := 0, buttonMod := 0, x := 10, y := 10, mouseButton := MouseButton.left }

/-- A move event at `(10, 10)`. -/
def moveTo10 : MouseMoveEvent :=
  { keyMod := 0, buttonMod := 0, x := 10, y := 10 }

/-- An entry with its hover and press flags replaced: the only fields the
pointer handlers write. -/
def layoutEntry.withFlags (e : layoutEntry) (over : Bool) (down : PressFlags) : layoutEntry :=
  { e with mouseOver := over, mouseDown := down }

/-- The entry of `shownThenHidden`: hidden, with the 50x50 rectangle of the
placement made while it was visible. -/
def hiddenPlaced : layoutEntry :=
  { widget := { getPosition := (0, 0), isVisible := false, isExpanding := false,
                ScreenPos := (0, 0), offset := (0, 50), getSize := (50, 50) },
    x := 0, y := 0, width := 50, height := 50,
    mouseOver := false, mouseDown := ⟨false, false, false⟩ }

/-- The handlers invoked on the widget of the entry at index `i`, in the order of
the call log. -/
def callsOn (i : Nat) (calls : List Call) : List Handler :=
  (calls.filter fun c => decide (c.entry = i)).map Call.handler

/-- A run of `onMouseMove` over a sequence of move events, each on the layout the
previous one left: the final layout and all child handler calls in order. -/
def onMouseMoves : List MouseMoveEvent → Layout → Layout × List Call
  | [], l => (l, [])
  | ev :: rest, l =>
    ((onMouseMoves rest (l.onMouseMove ev).layout).1,
      (l.onMouseMove ev).calls ++ (onMouseMoves rest (l.onMouseMove ev).layout).2)

/-- The run of the `onMouseMove` loop body on one entry over a sequence of move
events: the final entry and the handlers invoked on its widget in order. -/
def mouseMoves : List MouseMoveEvent → layoutEntry → layoutEntry × List Handler
  | [], e => (e, [])
  | ev :: rest, e =>
    ((mouseMoves rest (e.mouseMove ev).1).1,
      (e.mouseMove ev).2 ++ (mouseMoves rest (e.mouseMove ev).1).2)

/-- The enter and leave handlers. -/
def isEnterOrLeave (h : Handler) : Bool :=
  h == Handler.onMouseEnter || h == Handler.onMouseLeave

/-- A list of enter and leave calls alternates: starting from the hover state
`hovered`, the next call is a leave if hovered and an enter if not. -/
def alternating : Bool → List Handler → Bool
  | _, [] => true
  | false, h :: rest => h == Handler.onMouseEnter && alternating true rest
  | true, h :: rest => h == Handler.onMouseLeave && alternating false rest

/-- Whether the last move of a sequence was inside the entry; `false` for the
empty sequence. -/
def lastInside (e : layoutEntry) (evs : List MouseMoveEvent) : Bool :=
  match evs.getLast? with
  | none => false
  | some ev => e.IsIn ev.toHandlerEvent

/-- The layout `freshChild` after a placement: its 50x50 child occupies the
rectangle from (0, 0) to (50, 50). -/
def placedChild : Layout := freshChild.AdjustEntryPlacement

/-- The entry of `placedChild`. -/
def placedChildEntry : layoutEntry :=
  (freshChild.placeEntry freshChild.getSize freshChild.expanderSize 0 0
    (newEntry (fixedWidget 50 50))).1

/-- A move event at `(70, 70)`. -/
def moveTo70 : MouseMoveEvent :=
  { keyMod := 0, buttonMod := 0, x := 70, y := 70 }

/-- A move event at `(20, 20)`. -/
def moveTo20 : MouseMoveEvent :=
  { keyMod := 0, buttonMod := 0, x := 20, y := 20 }

/-- A Vertical layout with two visible 50x50 children, placed: the first child
occupies (0, 0)-(50, 50), the second (0, 50)-(50, 100). -/
def twoStacked : Layout :=
  (((createLayout PositionTypeVertical).addEntry (fixedWidget 50 50)).addEntry
    (fixedWidget 50 50)).AdjustEntryPlacement

/-- A button event of the left button at `(10, 60)`. -/
def leftAt60 : MouseEvent :=
  { keyMod := 0, buttonMod := 0, x := 10, y := 60, mouseButton := MouseButton.left }

/-- The first entry of `twoStacked` as placed, pressed or not. -/
def firstStacked (pressed : Bool) : layoutEntry :=
  { widget := { getPosition := (0, 0), isVisible := true, isExpanding := false,
                ScreenPos := (0, 0), offset := (0, 50), getSize := (50, 50) },
    x := 0, y := 0, width := 50, height := 50,
    mouseOver := false, mouseDown := ⟨pressed, false, false⟩ }

/-- The second entry of `twoStacked` as placed, pressed or not. -/
def secondStacked (pressed : Bool) : layoutEntry :=
  { widget := { getPosition := (0, 0), isVisible := true, isExpanding := false,
                ScreenPos := (0, 50), offset := (0, 100), getSize := (50, 50) },
    x := 0, y := 50, width := 50, height := 50,
    mouseOver := false, mouseDown := ⟨pressed, false, false⟩ }

/-- The layout `twoStacked` after a button-down of the left button over its second
child: the press flag of the second child is set. -/
def secondPressed : Layout := (twoStacked.onMouseButtonDown leftAt60).layout

/-- An Absolute-mode layout at screen position (0, 0) holding two visible 50x50
children, both at position (0, 0), after a placement. -/
def overlapping : Layout :=
  (((createLayout PositionTypeAbsolute).addEntry (fixedWidget 50 50)).addEntry
    (fixedWidget 50 50)).AdjustEntryPlacement

/-- Modelled from the spec: `createSpacerStatic` is not among the source files.  A
static spacer is a visible, non-expanding widget of the natural size it was
created with; `AddSpacerStatic` appends it. -/
def Layout.AddSpacerStatic (l : Layout) (width height : Int) : Layout :=
  l.addEntry (fixedWidget width height)

/-- Modelled from the spec: `AddSpacerDynamic` appends a dynamic spacer. -/
def Layout.AddSpacerDynamic (l : Layout) : Layout :=
  l.addEntry dynamicSpacer

/-- A Vertical layout whose only child is a static spacer of natural size
-5 x 10. -/
def narrowSpacer : Layout :=
  (createLayout PositionTypeVertical).AddSpacerStatic (-5) 10

/-- A Vertical layout with three static spacers of sizes 30x10, 50x20, 40x5. -/
def threeSpacers : Layout :=
  (((createLayout PositionTypeVertical).AddSpacerStatic 30 10).AddSpacerStatic 50
    20).AddSpacerStatic 40 5

/-- The layout `threeSpacers` with its spacers added in another order. -/
def threeSpacersShuffled : Layout :=
  (((createLayout PositionTypeVertical).AddSpacerStatic 40 5).AddSpacerStatic 30
    10).AddSpacerStatic 50 20

/-! ## Adding widgets, rendering and advancing -/

/-- What an `Add...` method that constructs a widget returns, together with the
layout it leaves: the new widget (`nil` on failure) and the error (`nil` on
success). -/
structure Added (ε : Type) where
  layout : Layout
  widget : Option widget
  err : Option ε

/-- `AddSprite`.  Modelled from the spec: `createSprite` is not among the source
files; it is a parameter that either fails with an error or yields the new
widget. -/
def Layout.AddSprite {ε : Type} (l : Layout) (createSprite : String → String → Except ε widget)
    (imagePath palettePath : String) : Added ε :=
  match createSprite imagePath palettePath with
  | .error err => { layout := l, widget := none, err := some err }
  | .ok sprite =>
    { layout := { l with entries := l.entries ++ [newEntry sprite] },
      widget := some sprite, err := none }

/-- `AddAnimatedSprite`.  Modelled from the spec: `createAnimatedSprite` and the
type of the animation direction are not among the source files; they are
parameters. -/
def Layout.AddAnimatedSprite {ε δ : Type} (l : Layout)
    (createAnimatedSprite : String → String → δ → Except ε widget)
    (imagePath palettePath : String) (direction : δ) : Added ε :=
  match createAnimatedSprite imagePath palettePath direction with
  | .error err => { layout := l, widget := none, err := some err }
  | .ok sprite =>
    { layout := { l with entries := l.entries ++ [newEntry sprite] },
      widget := some sprite, err := none }

/-- `AddLabel`.  Modelled from the spec: `createLabel`, the renderer it receives
and the type of the font style are not among the source files; the constructor,
already applied to the layout's renderer, is a parameter. -/
def Layout.AddLabel {ε σ : Type} (l : Layout) (createLabel : String → σ → Except ε widget)
    (text : String) (fontStyle : σ) : Added ε :=
  match createLabel text fontStyle with
  | .error err => { layout := l, widget := none, err := some err }
  | .ok label =>
    { layout := { l with entries := l.entries ++ [newEntry label] },
      widget := some label, err := none }

/-- `AddButton`.  Modelled from the spec: `createButton`, the renderer it receives
and the type of the button style are not among the source files; the
constructor, already applied to the layout's renderer, is a parameter. -/
def Layout.AddButton {ε σ : Type} (l : Layout) (createButton : String → σ → Except ε widget)
    (text : String) (buttonStyle : σ) : Added ε :=
  match createButton text buttonStyle with
  | .error err => { layout := l, widget := none, err := some err }
  | .ok button =>
    { layout := { l with entries := l.entries ++ [newEntry button] },
      widget := some button, err := none }

/-- The loop of `advance`, from index `i` on.  Modelled from the spec: the
`advance` of a child widget is not among the source files; `advance i w` is the
error the child at index `i` returns, `none` for `nil`.  The result is the list
of the children advanced, in order, and the error returned. -/
def advanceEntries {ε : Type} (advance : Nat → widget → Option ε) :
    Nat → List layoutEntry → List Nat × Option ε
  | _, [] => ([], none)
  | i, entry :: rest =>
    match advance i entry.widget with
    | some err => ([i], some err)
    | none =>
      (i :: (advanceEntries advance (i + 1) rest).1, (advanceEntries advance (i + 1) rest).2)

/-- `advance`: the elapsed time is handed to every child; `τ` is its type. -/
def Layout.advance {ε τ : Type} (l : Layout) (advance : τ → Nat → widget → Option ε)
    (elapsed : τ) : List Nat × Option ε :=
  advanceEntries (advance elapsed) 0 l.entries

/-- What `render` does to the target surface and to the children. -/
inductive SurfaceOp where
  | PushTranslation (x y : Int)
  | render (child : Nat)
  | Pop
deriving DecidableEq, Repr

/-- The loop of `render` with `renderEntry` inlined, from index `i` on.  Modelled
from the spec: the `render` of a child widget is not among the source files;
`render i w` is the error the child at index `i` returns, `none` for `nil`.  The
deferred `Pop` runs whether the child fails or not. -/
def renderEntries {ε : Type} (render : Nat → widget → Option ε) :
    Nat → List layoutEntry → List SurfaceOp × Option ε
  | _, [] => ([], none)
  | i, entry :: rest =>
    if entry.widget.isVisible then
      match render i entry.widget with
      | some err =>
        ([SurfaceOp.PushTranslation entry.x entry.y, SurfaceOp.render i, SurfaceOp.Pop],
          some err)
      | none =>
        ([SurfaceOp.PushTranslation entry.x entry.y, SurfaceOp.render i, SurfaceOp.Pop] ++
            (renderEntries render (i + 1) rest).1,
          (renderEntries render (i + 1) rest).2)
    else renderEntries render (i + 1) rest

/-- What `render` leaves behind: the placed layout, the surface operations in
order, and the error returned. -/
structure Rendered (ε : Type) where
  layout : Layout
  ops : List SurfaceOp
  err : Option ε

def Layout.render {ε : Type} (l : Layout) (render : Nat → widget → Option ε) : Rendered ε :=
  { layout := l.AdjustEntryPlacement,
    ops := (renderEntries render 0 l.AdjustEntryPlacement.entries).1,
    err := (renderEntries render 0 l.AdjustEntryPlacement.entries).2 }

/-- The children rendered, in order, among the operations on the surface. -/
def renderedChildren : List SurfaceOp → List Nat
  | [] => []
  | SurfaceOp.render i :: rest => i :: renderedChildren rest
  | _ :: rest => renderedChildren rest

/-- The indices of the visible entries of a list, counted from `i`, in order. -/
def visibleIndices : Nat → List layoutEntry → List Nat
  | _, [] => []
  | i, entry :: rest =>
    if entry.widget.isVisible then i :: visibleIndices (i + 1) rest
    else visibleIndices (i + 1) rest

/-- The atomicity of an `Add...` method with constructor outcome `outcome`: on an
error the error is returned, no widget is returned and the layout is the one
before; on success the widget is returned without error and exactly one entry
wrapping it, with zero rectangle and cleared flags, is appended to the entries,
which keep their places. -/
def addedAtomically {ε : Type} (l : Layout) (outcome : Except ε widget) (r : Added ε) : Prop :=
  match outcome with
  | .error err => r.err = some err ∧ r.widget = none ∧ r.layout = l
  | .ok w =>
    r.err = none ∧ r.widget = some w ∧
    r.layout = { l with entries := l.entries ++
      [{ widget := w, x := 0, y := 0, width := 0, height := 0, mouseOver := false,
         mouseDown := { left := false, middle := false, right := false } }] } ∧
    r.layout.entries.length = l.entries.length + 1 ∧
    ∀ (i : Nat) (e : layoutEntry), l.entries[i]? = some e → r.layout.entries[i]? = some e

/-- A Vertical layout holding a visible 10x10 widget, a hidden 10x10 widget and a
second visible 10x10 widget. -/
def visibleHiddenVisible : Layout :=
  (((createLayout PositionTypeVertical).addEntry (fixedWidget 10 10)).addEntry
    ((fixedWidget 10 10).SetVisible false)).addEntry (fixedWidget 10 10)

/-- Child outcomes in which exactly the child at index `k` fails, with error code
7. -/
def failsAt (k : Nat) (i : Nat) (_w : widget) : Option Nat :=
  if i = k then some 7 else none

/-- Sum of the heights the placement loop gives the visible entries of a list,
for the expander size `expander`. -/
def placedHeights (expander : Int × Int) (es : List layoutEntry) : Int :=
  ((es.filter fun e => e.widget.isVisible).map fun e => (placedSize expander e).2).sum

/-- Sum of the widths the placement loop gives the visible entries of a list, for
the expander size `expander`. -/
def placedWidths (expander : Int × Int) (es : List layoutEntry) : Int :=
  ((es.filter fun e => e.widget.isVisible).map fun e => (placedSize expander e).1).sum

/-- A Horizontal, Middle-aligned layout with `SetSize(100, 30)` holding a visible
40x20 widget, a dynamic spacer and a visible 30x10 widget. -/
def toolbar : Layout :=
  (((((createLayout PositionTypeHorizontal).SetSize 100 30).SetVerticalAlign
    VerticalAlignMiddle).addEntry (fixedWidget 40 20)).addEntry dynamicSpacer).addEntry
    (fixedWidget 30 10)

/-! ## Specification-side definitions -/

/-- The greatest element of a list of integers, `0` for the empty list: the
"max over the children" of the specification. -/
def specMax : List Int → Int
  | [] => 0
  | [a] => a
  | a :: b :: rest => max a (specMax (b :: rest))

/-- The content size as the specification words it: per mode, sums and maxima of
the children's natural sizes (and far corners in Absolute mode). -/
def specContentSize (l : Layout) : Int × Int :=
  match l.positionType with
  | PositionTypeVertical =>
    (specMax (l.entries.map fun e => e.widget.getSize.1),
      (l.entries.map fun e => e.widget.getSize.2).sum)
  | PositionTypeHorizontal =>
    ((l.entries.map fun e => e.widget.getSize.1).sum,
      specMax (l.entries.map fun e => e.widget.getSize.2))
  | PositionTypeAbsolute =>
    (specMax (l.entries.map fun e => e.widget.getPosition.1 + e.widget.getSize.1),
      specMax (l.entries.map fun e => e.widget.getPosition.2 + e.widget.getSize.2))

/-- The visible expanding children: the ones the first loop of
`AdjustEntryPlacement` counts. -/
def visibleExpanders (l : Layout) : List layoutEntry :=
  l.entries.filter fun e => e.widget.isVisible && e.widget.isExpanding

/-- The non-expanding children, visible or not. -/
def nonExpanding (l : Layout) : List layoutEntry :=
  l.entries.filter fun e => !e.widget.isExpanding

/-- Total natural width of a list of entries. -/
def naturalWidths (es : List layoutEntry) : Int :=
  (es.map fun e => e.widget.getSize.1).sum

/-- Total natural height of a list of entries. -/
def naturalHeights (es : List layoutEntry) : Int :=
  (es.map fun e => e.widget.getSize.2).sum

/-- Sum of the placed heights of the visible entries of a list. -/
def visibleHeights (es : List layoutEntry) : Int :=
  ((es.filter fun e => e.widget.isVisible).map fun e => e.height).sum

/-- Sum of the placed widths of the visible entries of a list. -/
def visibleWidths (es : List layoutEntry) : Int :=
  ((es.filter fun e => e.widget.isVisible).map fun e => e.width).sum

/-! ## Layouts at the edge of the 64-bit range, and range conditions -/

/-- The sums that `getContentSize` forms stay within the 64-bit `int`: the total
of the natural heights in Vertical mode, of the natural widths in Horizontal
mode, and every far corner `x + width`, `y + height` in Absolute mode. -/
def contentFits (l : Layout) : Prop :=
  match l.positionType with
  | PositionTypeVertical => naturalHeights l.entries ≤ MaxInt64
  | PositionTypeHorizontal => naturalWidths l.entries ≤ MaxInt64
  | PositionTypeAbsolute =>
    ∀ e ∈ l.entries, e.widget.getPosition.1 + e.widget.getSize.1 ≤ MaxInt64 ∧
      e.widget.getPosition.2 + e.widget.getSize.2 ≤ MaxInt64

/-- A Horizontal layout holding two static spacers of natural sizes
`MaxInt64` x 1 and 1 x 1. -/
def hugeRow : Layout :=
  ((createLayout PositionTypeHorizontal).AddSpacerStatic MaxInt64 1).AddSpacerStatic 1 1

/-- The layout `hugeRow` followed by a dynamic spacer. -/
def hugeRowSpacer : Layout := hugeRow.AddSpacerDynamic

/-- A Vertical layout holding two static spacers of natural sizes
1 x `MaxInt64` each and a dynamic spacer. -/
def hugeColumn : Layout :=
  (((createLayout PositionTypeVertical).AddSpacerStatic 1 MaxInt64).AddSpacerStatic 1
    MaxInt64).AddSpacerDynamic

/-- A Vertical layout holding three static spacers of natural heights `MaxInt64`,
1 and 1. -/
def hugeStack : Layout :=
  (((createLayout PositionTypeVertical).AddSpacerStatic 1 MaxInt64).AddSpacerStatic 1
    1).AddSpacerStatic 1 1

/-! ## Lemmas on `specMax` -/

theorem specMax_cons_of_nonneg (a : Int) (xs : List Int) (ha : 0 ≤ a)
    (hxs : ∀ x ∈ xs, 0 ≤ x) :
    specMax (a :: xs) = max a (specMax xs) ∧ 0 ≤ specMax xs := by
  induction xs generalizing a with
  | nil => simp [specMax, ha]
  | cons b rest ih =>
    have hb : 0 ≤ b := hxs b (List.mem_cons_self _ _)
    have hrest : ∀ x ∈ rest, 0 ≤ x := fun x hx => hxs x (List.mem_cons_of_mem _ hx)
    obtain ⟨h1, _⟩ := ih b hb hrest
    refine ⟨by simp [specMax], ?_⟩
    rw [h1]
    exact le_trans hb (le_max_left _ _)

theorem le_specMax (xs : List Int) : ∀ x ∈ xs, x ≤ specMax xs := by
  induction xs with
  | nil => simp
  | cons a rest ih =>
    cases rest with
    | nil => simp [specMax]
    | cons b rest2 =>
      intro x hx
      simp only [specMax]
      rcases List.mem_cons.1 hx with h | h
      · subst h; exact le_max_left _ _
      · exact le_trans (ih x h) (le_max_right _ _)

theorem specMax_mem (xs : List Int) (hne : xs ≠ []) : specMax xs ∈ xs := by
  induction xs with
  | nil => exact absurd rfl hne
  | cons a rest ih =>
    cases rest with
    | nil => simp [specMax]
    | cons b rest2 =>
      simp only [specMax]
      rcases max_cases a (specMax (b :: rest2)) with h | h
      · rw [h.1]; exact List.mem_cons_self _ _
      · rw [h.1]; exact List.mem_cons_of_mem _ (ih (by simp))

/-! ## Lemmas on `wrap` -/

theorem wrap_of_inRange (x : Int) (h : inRange x) : wrap x = x := by
  unfold inRange MinInt64 MaxInt64 at h
  unfold wrap
  omega

theorem wrap_inRange (x : Int) : inRange (wrap x) := by
  unfold inRange MinInt64 MaxInt64 wrap
  omega

theorem wrap_wrap_add (a b : Int) : wrap (wrap a + b) = wrap (a + b) := by
  unfold wrap
  omega

theorem wrap_zero : wrap 0 = 0 := by decide

theorem inRange_zero : inRange 0 := by decide

theorem inRange_of_nonneg_le (x : Int) (h0 : 0 ≤ x) (h1 : x ≤ MaxInt64) : inRange x := by
  unfold inRange MinInt64
  unfold MaxInt64 at h1 ⊢
  omega

/-- A running sum that is reduced after every addition is the reduction of the
plain sum. -/
theorem foldl_wrap_add (xs : List Int) (a : Int) :
    xs.foldl (fun s x => wrap (s + x)) (wrap a) = wrap (a + xs.sum) := by
  induction xs generalizing a with
  | nil => simp
  | cons x rest ih =>
    rw [List.foldl_cons, wrap_wrap_add, ih, List.sum_cons, add_assoc]

/-! ## Lemmas on the content-size loop -/

theorem foldl_contentStep_vertical_snd (es : List layoutEntry) (acc : Int × Int)
    (hr : inRange acc.2) :
    (es.foldl (contentStep PositionTypeVertical) acc).2 =
      wrap (acc.2 + (es.map fun e => e.widget.getSize.2).sum) := by
  induction es generalizing acc with
  | nil => simp [wrap_of_inRange _ hr]
  | cons e rest ih =>
    rw [List.foldl_cons, ih _ (by exact wrap_inRange _)]
    simp only [contentStep, List.map_cons, List.sum_cons]
    rw [wrap_wrap_add, add_assoc]

theorem foldl_contentStep_horizontal_fst (es : List layoutEntry) (acc : Int × Int)
    (hr : inRange acc.1) :
    (es.foldl (contentStep PositionTypeHorizontal) acc).1 =
      wrap (acc.1 + (es.map fun e => e.widget.getSize.1).sum) := by
  induction es generalizing acc with
  | nil => simp [wrap_of_inRange _ hr]
  | cons e rest ih =>
    rw [List.foldl_cons, ih _ (by exact wrap_inRange _)]
    simp only [contentStep, List.map_cons, List.sum_cons]
    rw [wrap_wrap_add, add_assoc]

theorem foldl_contentStep_vertical_fst_nonneg (es : List layoutEntry) (acc : Int × Int)
    (hacc : 0 ≤ acc.1) (hnn : ∀ e ∈ es, 0 ≤ e.widget.getSize.1) :
    (es.foldl (contentStep PositionTypeVertical) acc).1 =
      max acc.1 (specMax (es.map fun e => e.widget.getSize.1)) := by
  induction es generalizing acc with
  | nil => simp [specMax, hacc]
  | cons e rest ih =>
    have hrest : ∀ e ∈ rest, 0 ≤ e.widget.getSize.1 :=
      fun x hx => hnn x (List.mem_cons_of_mem _ hx)
    have hmap : ∀ x ∈ rest.map (fun e => e.widget.getSize.1), 0 ≤ x := by
      intro x hx
      obtain ⟨e0, he0, rfl⟩ := List.mem_map.1 hx
      exact hrest e0 he0
    have he := hnn e (List.mem_cons_self _ _)
    rw [List.foldl_cons, ih _ (by simp [contentStep, MaxInt, hacc]) hrest]
    simp only [List.map_cons]
    rw [(specMax_cons_of_nonneg _ _ he hmap).1]
    simp [contentStep, MaxInt, max_assoc]

theorem foldl_contentStep_horizontal_snd_nonneg (es : List layoutEntry) (acc : Int × Int)
    (hacc : 0 ≤ acc.2) (hnn : ∀ e ∈ es, 0 ≤ e.widget.getSize.2) :
    (es.foldl (contentStep PositionTypeHorizontal) acc).2 =
      max acc.2 (specMax (es.map fun e => e.widget.getSize.2)) := by
  induction es generalizing acc with
  | nil => simp [specMax, hacc]
  | cons e rest ih =>
    have hrest : ∀ e ∈ rest, 0 ≤ e.widget.getSize.2 :=
      fun x hx => hnn x (List.mem_cons_of_mem _ hx)
    have hmap : ∀ x ∈ rest.map (fun e => e.widget.getSize.2), 0 ≤ x := by
      intro x hx
      obtain ⟨e0, he0, rfl⟩ := List.mem_map.1 hx
      exact hrest e0 he0
    have he := hnn e (List.mem_cons_self _ _)
    rw [List.foldl_cons, ih _ (by simp [contentStep, MaxInt, hacc]) hrest]
    simp only [List.map_cons]
    rw [(specMax_cons_of_nonneg _ _ he hmap).1]
    simp [contentStep, MaxInt, max_assoc]

theorem foldl_contentStep_absolute (es : List layoutEntry) (acc : Int × Int)
    (hacc : 0 ≤ acc.1 ∧ 0 ≤ acc.2)
    (hnn : ∀ e ∈ es, 0 ≤ e.widget.getPosition.1 + e.widget.getSize.1 ∧
      0 ≤ e.widget.getPosition.2 + e.widget.getSize.2)
    (hfit : ∀ e ∈ es, e.widget.getPosition.1 + e.widget.getSize.1 ≤ MaxInt64 ∧
      e.widget.getPosition.2 + e.widget.getSize.2 ≤ MaxInt64) :
    es.foldl (contentStep PositionTypeAbsolute) acc =
      (max acc.1 (specMax (es.map fun e => e.widget.getPosition.1 + e.widget.getSize.1)),
        max acc.2 (specMax (es.map fun e => e.widget.getPosition.2 + e.widget.getSize.2))) := by
  induction es generalizing acc with
  | nil => simp [specMax, hacc.1, hacc.2]
  | cons e rest ih =>
    have hrest : ∀ e ∈ rest, 0 ≤ e.widget.getPosition.1 + e.widget.getSize.1 ∧
        0 ≤ e.widget.getPosition.2 + e.widget.getSize.2 :=
      fun x hx => hnn x (List.mem_cons_of_mem _ hx)
    have hmap1 : ∀ x ∈ rest.map (fun e => e.widget.getPosition.1 + e.widget.getSize.1),
        0 ≤ x := by
      intro x hx
      obtain ⟨e0, he0, rfl⟩ := List.mem_map.1 hx
      exact (hrest e0 he0).1
    have hmap2 : ∀ x ∈ rest.map (fun e => e.widget.getPosition.2 + e.widget.getSize.2),
        0 ≤ x := by
      intro x hx
      obtain ⟨e0, he0, rfl⟩ := List.mem_map.1 hx
      exact (hrest e0 he0).2
    have he := hnn e (List.mem_cons_self _ _)
    have hf := hfit e (List.mem_cons_self _ _)
    have hstep : contentStep PositionTypeAbsolute acc e =
        (max acc.1 (e.widget.getPosition.1 + e.widget.getSize.1),
          max acc.2 (e.widget.getPosition.2 + e.widget.getSize.2)) := by
      simp only [contentStep, MaxInt]
      rw [wrap_of_inRange _ (inRange_of_nonneg_le _ he.1 hf.1),
        wrap_of_inRange _ (inRange_of_nonneg_le _ he.2 hf.2)]
    rw [List.foldl_cons, hstep,
      ih _ (by simp [hacc.1, hacc.2]) hrest (fun x hx => hfit x (List.mem_cons_of_mem _ hx))]
    simp only [List.map_cons]
    rw [(specMax_cons_of_nonneg _ _ he.1 hmap1).1, (specMax_cons_of_nonneg _ _ he.2 hmap2).1]
    simp [max_assoc]

theorem foldl_contentStep_vertical_fst_ge (es : List layoutEntry) (acc : Int × Int) :
    acc.1 ≤ (es.foldl (contentStep PositionTypeVertical) acc).1 := by
  induction es generalizing acc with
  | nil => simp
  | cons e rest ih =>
    rw [List.foldl_cons]
    exact le_trans (by simp [contentStep, MaxInt]) (ih _)

theorem foldl_contentStep_horizontal_snd_ge (es : List layoutEntry) (acc : Int × Int) :
    acc.2 ≤ (es.foldl (contentStep PositionTypeHorizontal) acc).2 := by
  induction es generalizing acc with
  | nil => simp
  | cons e rest ih =>
    rw [List.foldl_cons]
    exact le_trans (by simp [contentStep, MaxInt]) (ih _)

theorem getContentSize_le_getSize (l : Layout) :
    l.getContentSize.1 ≤ l.getSize.1 ∧ l.getContentSize.2 ≤ l.getSize.2 := by
  simp [Layout.getSize, MaxInt]

/-! ## Lemmas on the placement loop -/

theorem foldl_expanderCount (es : List layoutEntry) (n : Int) :
    es.foldl
      (fun n entry => if entry.widget.isVisible && entry.widget.isExpanding then n + 1 else n) n =
      n + ((es.filter fun e => e.widget.isVisible && e.widget.isExpanding).length : Int) := by
  induction es generalizing n with
  | nil => simp
  | cons e rest ih =>
    rw [List.foldl_cons, ih]
    by_cases h : (e.widget.isVisible && e.widget.isExpanding) = true
    · simp [h, List.filter_cons, add_assoc, add_comm]
    · simp [h, List.filter_cons]

theorem expanderCount_eq_length (l : Layout) :
    expanderCount l.entries = ((visibleExpanders l).length : Int) := by
  unfold expanderCount visibleExpanders
  rw [foldl_expanderCount, zero_add]

theorem placeEntry_widget_isVisible (l : Layout) (size expander : Int × Int) (ox oy : Int)
    (e : layoutEntry) :
    (l.placeEntry size expander ox oy e).1.widget.isVisible = e.widget.isVisible := by
  unfold Layout.placeEntry
  split <;> rfl

theorem placeEntry_widget_isExpanding (l : Layout) (size expander : Int × Int) (ox oy : Int)
    (e : layoutEntry) :
    (l.placeEntry size expander ox oy e).1.widget.isExpanding = e.widget.isExpanding := by
  unfold Layout.placeEntry
  split <;> rfl

theorem placeEntry_widget_getSize (l : Layout) (size expander : Int × Int) (ox oy : Int)
    (e : layoutEntry) :
    (l.placeEntry size expander ox oy e).1.widget.getSize = e.widget.getSize := by
  unfold Layout.placeEntry
  split <;> rfl

theorem placeEntry_widget_getPosition (l : Layout) (size expander : Int × Int) (ox oy : Int)
    (e : layoutEntry) :
    (l.placeEntry size expander ox oy e).1.widget.getPosition = e.widget.getPosition := by
  unfold Layout.placeEntry
  split <;> rfl

theorem placeEntry_width (l : Layout) (size expander : Int × Int) (ox oy : Int)
    (e : layoutEntry) :
    (l.placeEntry size expander ox oy e).1.width = (placedSize expander e).1 := by
  unfold Layout.placeEntry
  split <;> rfl

theorem placeEntry_height (l : Layout) (size expander : Int × Int) (ox oy : Int)
    (e : layoutEntry) :
    (l.placeEntry size expander ox oy e).1.height = (placedSize expander e).2 := by
  unfold Layout.placeEntry
  split <;> rfl

theorem placedSize_placeEntry (l : Layout) (size expander x : Int × Int) (ox oy : Int)
    (e : layoutEntry) :
    placedSize x (l.placeEntry size expander ox oy e).1 = placedSize x e := by
  simp [placedSize, placeEntry_widget_isExpanding, placeEntry_widget_getSize]

/-- Every visible entry that leaves the placement loop carries the size the loop
assigns: the expander size if it is expanding, its natural size otherwise. -/
theorem placeEntries_visible_size (l : Layout) (size expander : Int × Int)
    (es : List layoutEntry) (ox oy : Int) (p : layoutEntry)
    (hp : p ∈ l.placeEntries size expander ox oy es) (hv : p.widget.isVisible = true) :
    p.width = (placedSize expander p).1 ∧ p.height = (placedSize expander p).2 := by
  induction es generalizing ox oy with
  | nil => simp [Layout.placeEntries] at hp
  | cons e rest ih =>
    unfold Layout.placeEntries at hp
    by_cases hev : e.widget.isVisible = true
    · rw [if_pos hev] at hp
      rcases List.mem_cons.1 hp with h | h
      · subst h
        rw [placedSize_placeEntry, placeEntry_width, placeEntry_height]
        exact ⟨rfl, rfl⟩
      · exact ih _ _ h
    · rw [if_neg hev] at hp
      rcases List.mem_cons.1 hp with h | h
      · subst h; exact absurd hv hev
      · exact ih _ _ h

theorem getContentSize_snd_vertical (l : Layout)
    (hpt : l.positionType = PositionTypeVertical) :
    l.getContentSize.2 = wrap (naturalHeights l.entries) := by
  unfold Layout.getContentSize naturalHeights
  rw [hpt, foldl_contentStep_vertical_snd _ _ inRange_zero]
  simp

theorem getContentSize_fst_horizontal (l : Layout)
    (hpt : l.positionType = PositionTypeHorizontal) :
    l.getContentSize.1 = wrap (naturalWidths l.entries) := by
  unfold Layout.getContentSize naturalWidths
  rw [hpt, foldl_contentStep_horizontal_fst _ _ inRange_zero]
  simp

/-- The quotient the expanders receive when neither the content sum nor the
leftover leaves the 64-bit range. -/
theorem clamp_tdiv_eq (W C k : Int) (hge : C ≤ W) (hfit : W - C ≤ MaxInt64) (hk : 0 < k) :
    MaxInt 0 ((wrap (W - C)).tdiv k) = max 0 (Int.fdiv (W - C) k) ∧
      MaxInt 0 ((wrap (W - C)).tdiv k) = (W - C).tdiv k ∧ 0 ≤ (W - C).tdiv k := by
  have hr : wrap (W - C) = W - C :=
    wrap_of_inRange _ (inRange_of_nonneg_le _ (by omega) hfit)
  have hq : 0 ≤ (W - C).tdiv k := by
    rw [Int.tdiv_eq_ediv (by omega) (by omega)]
    exact Int.ediv_nonneg (by omega) (by omega)
  rw [hr]
  refine ⟨?_, ?_, hq⟩
  · unfold MaxInt
    rw [Int.tdiv_eq_ediv (by omega) (by omega), Int.fdiv_eq_ediv _ (by omega)]
  · unfold MaxInt
    exact max_eq_right hq

theorem expanderSize_vertical (l : Layout) (hpt : l.positionType = PositionTypeVertical)
    (hk : 1 ≤ (visibleExpanders l).length) (hC : inRange (naturalHeights l.entries))
    (hfit : l.getSize.2 - naturalHeights l.entries ≤ MaxInt64) :
    l.expanderSize.2 =
      max 0 (Int.fdiv (l.getSize.2 - naturalHeights l.entries) (visibleExpanders l).length) := by
  have hc : l.getContentSize.2 = naturalHeights l.entries := by
    rw [getContentSize_snd_vertical l hpt, wrap_of_inRange _ hC]
  have hge := (getContentSize_le_getSize l).2
  have hcnt : (0 : Int) < ((visibleExpanders l).length : Int) := by exact_mod_cast hk
  unfold Layout.expanderSize
  rw [expanderCount_eq_length, if_pos hcnt, hpt]
  simp only
  rw [hc]
  exact (clamp_tdiv_eq _ _ _ (by omega) hfit hcnt).1

theorem expanderSize_horizontal (l : Layout) (hpt : l.positionType = PositionTypeHorizontal)
    (hk : 1 ≤ (visibleExpanders l).length) (hC : inRange (naturalWidths l.entries))
    (hfit : l.getSize.1 - naturalWidths l.entries ≤ MaxInt64) :
    l.expanderSize.1 =
      max 0 (Int.fdiv (l.getSize.1 - naturalWidths l.entries) (visibleExpanders l).length) := by
  have hc : l.getContentSize.1 = naturalWidths l.entries := by
    rw [getContentSize_fst_horizontal l hpt, wrap_of_inRange _ hC]
  have hge := (getContentSize_le_getSize l).1
  have hcnt : (0 : Int) < ((visibleExpanders l).length : Int) := by exact_mod_cast hk
  unfold Layout.expanderSize
  rw [expanderCount_eq_length, if_pos hcnt, hpt]
  simp only
  rw [hc]
  exact (clamp_tdiv_eq _ _ _ (by omega) hfit hcnt).1

/-- When every expanding child has natural size 0 under `f`, the total of `f` over
all children is the total over the non-expanding ones. -/
theorem sum_eq_sum_nonExpanding (es : List layoutEntry) (f : layoutEntry → Int)
    (h0 : ∀ e ∈ es, e.widget.isExpanding = true → f e = 0) :
    (es.map f).sum = ((es.filter fun e => !e.widget.isExpanding).map f).sum := by
  induction es with
  | nil => simp
  | cons e rest ih =>
    have hrest := ih (fun x hx => h0 x (List.mem_cons_of_mem _ hx))
    by_cases hx : e.widget.isExpanding = true
    · simp [List.filter_cons, hx, h0 e (List.mem_cons_self _ _) hx, hrest]
    · simp [List.filter_cons, hx, hrest]

/-! ## Size negotiation: the theorems -/

theorem sum_nonneg_of_forall (es : List layoutEntry) (f : layoutEntry → Int)
    (h : ∀ e ∈ es, 0 ≤ f e) : 0 ≤ (es.map f).sum := by
  apply List.sum_nonneg
  intro x hx
  obtain ⟨e, he, rfl⟩ := List.mem_map.1 hx
  exact h e he

/-- C2, as stated, fails: the sums of `getContentSize` are 64-bit.  The children
of the Horizontal layout `hugeRow` have the non-negative natural widths
`MaxInt64` and 1; the content width is `MinInt64`, not their sum. -/
theorem getContentSize_sum_counterexample :
    (hugeRow.entries.map fun e => (e.widget.getPosition, e.widget.getSize)) =
      [((0, 0), (9223372036854775807, 1)), ((0, 0), (1, 1))] ∧
    hugeRow.getContentSize = (-9223372036854775808, 1) ∧
    specContentSize hugeRow = (9223372036854775808, 1) ∧
    ¬ ∀ l : Layout,
      (∀ e ∈ l.entries, 0 ≤ e.widget.getSize.1 ∧ 0 ≤ e.widget.getSize.2 ∧
        0 ≤ e.widget.getPosition.1 ∧ 0 ≤ e.widget.getPosition.2) →
      l.getContentSize = specContentSize l := by
  refine ⟨by decide, by decide, by decide, fun h => ?_⟩
  have h1 := h hugeRow (by decide)
  revert h1
  decide

/-- C2, amended: for a layout whose children report non-negative sizes and
positions and whose content sums stay within the 64-bit `int` (`contentFits`),
`getContentSize` is, per mode, the sums and maxima the specification names
(`specContentSize`), and `(0, 0)` when the layout has no children. -/
theorem getContentSize_eq_specContentSize (l : Layout)
    (hnn : ∀ e ∈ l.entries, 0 ≤ e.widget.getSize.1 ∧ 0 ≤ e.widget.getSize.2 ∧
      0 ≤ e.widget.getPosition.1 ∧ 0 ≤ e.widget.getPosition.2)
    (hfit : contentFits l) :
    l.getContentSize = specContentSize l ∧ (l.entries = [] → l.getContentSize = (0, 0)) := by
  constructor
  · unfold contentFits at hfit
    unfold specContentSize
    cases hpt : l.positionType with
    | PositionTypeAbsolute =>
      rw [hpt] at hfit
      unfold Layout.getContentSize
      rw [hpt]
      simp only
      rw [foldl_contentStep_absolute _ _ (by simp)
        (fun e he => ⟨add_nonneg (hnn e he).2.2.1 (hnn e he).1,
          add_nonneg (hnn e he).2.2.2 (hnn e he).2.1⟩) hfit]
      have h1 := specMax_cons_of_nonneg 0
        (l.entries.map fun e => e.widget.getPosition.1 + e.widget.getSize.1) le_rfl (by
          intro x hx
          obtain ⟨e0, he0, rfl⟩ := List.mem_map.1 hx
          exact add_nonneg (hnn e0 he0).2.2.1 (hnn e0 he0).1)
      have h2 := specMax_cons_of_nonneg 0
        (l.entries.map fun e => e.widget.getPosition.2 + e.widget.getSize.2) le_rfl (by
          intro x hx
          obtain ⟨e0, he0, rfl⟩ := List.mem_map.1 hx
          exact add_nonneg (hnn e0 he0).2.2.2 (hnn e0 he0).2.1)
      simp [max_eq_right h1.2, max_eq_right h2.2]
    | PositionTypeVertical =>
      rw [hpt] at hfit
      simp only at hfit ⊢
      have h1 := specMax_cons_of_nonneg 0 (l.entries.map fun e => e.widget.getSize.1) le_rfl (by
          intro x hx
          obtain ⟨e0, he0, rfl⟩ := List.mem_map.1 hx
          exact (hnn e0 he0).1)
      have hs : 0 ≤ naturalHeights l.entries :=
        sum_nonneg_of_forall _ _ (fun e he => (hnn e he).2.1)
      have ha := foldl_contentStep_vertical_fst_nonneg l.entries (0, 0) le_rfl
        (fun e he => (hnn e he).1)
      refine Prod.ext ?_ ?_
      · unfold Layout.getContentSize
        rw [hpt, ha]
        simp [max_eq_right h1.2]
      · rw [getContentSize_snd_vertical l hpt,
          wrap_of_inRange _ (inRange_of_nonneg_le _ hs hfit)]
        rfl
    | PositionTypeHorizontal =>
      rw [hpt] at hfit
      simp only at hfit ⊢
      have h1 := specMax_cons_of_nonneg 0 (l.entries.map fun e => e.widget.getSize.2) le_rfl (by
          intro x hx
          obtain ⟨e0, he0, rfl⟩ := List.mem_map.1 hx
          exact (hnn e0 he0).2.1)
      have hs : 0 ≤ naturalWidths l.entries :=
        sum_nonneg_of_forall _ _ (fun e he => (hnn e he).1)
      have ha := foldl_contentStep_horizontal_snd_nonneg l.entries (0, 0) le_rfl
        (fun e he => (hnn e he).2.1)
      refine Prod.ext ?_ ?_
      · rw [getContentSize_fst_horizontal l hpt,
          wrap_of_inRange _ (inRange_of_nonneg_le _ hs hfit)]
        rfl
      · unfold Layout.getContentSize
        rw [hpt, ha]
        simp [max_eq_right h1.2]
  · intro hnil
    simp [Layout.getContentSize, hnil]

/-- Witness of the amended C2 on the label / spacer / label layout: its children
are non-negative, the total of their heights is 40, and its content size is the
specified one, `(100, 40)`. -/
theorem getContentSize_eq_specContentSize_witness :
    (∀ e ∈ labelSpacerLabel.entries, 0 ≤ e.widget.getSize.1 ∧ 0 ≤ e.widget.getSize.2 ∧
      0 ≤ e.widget.getPosition.1 ∧ 0 ≤ e.widget.getPosition.2) ∧
    naturalHeights labelSpacerLabel.entries ≤ MaxInt64 ∧
    specContentSize labelSpacerLabel = (100, 40) ∧
    (labelSpacerLabel.getContentSize = specContentSize labelSpacerLabel ∧
      (labelSpacerLabel.entries = [] → labelSpacerLabel.getContentSize = (0, 0))) :=
  ⟨by decide, by decide, by decide,
    getContentSize_eq_specContentSize labelSpacerLabel (by decide)
      (show naturalHeights labelSpacerLabel.entries ≤ MaxInt64 by decide)⟩

/-- C3: `getSize` is the componentwise maximum of `getContentSize` and the fixed
size set with `SetSize`: it is at least the fixed size and at least the content
size in each dimension, and equals one of the two in each dimension; `SetSize`
itself leaves the content size alone. -/
theorem getSize_eq_max_content_fixed (l : Layout) (fw fh : Int) :
    (l.SetSize fw fh).getContentSize = l.getContentSize ∧
    (l.SetSize fw fh).getSize = (max l.getContentSize.1 fw, max l.getContentSize.2 fh) ∧
    fw ≤ (l.SetSize fw fh).getSize.1 ∧ fh ≤ (l.SetSize fw fh).getSize.2 ∧
    l.getContentSize.1 ≤ (l.SetSize fw fh).getSize.1 ∧
    l.getContentSize.2 ≤ (l.SetSize fw fh).getSize.2 ∧
    ((l.SetSize fw fh).getSize.1 = l.getContentSize.1 ∨ (l.SetSize fw fh).getSize.1 = fw) ∧
    ((l.SetSize fw fh).getSize.2 = l.getContentSize.2 ∨ (l.SetSize fw fh).getSize.2 = fh) := by
  have hc : (l.SetSize fw fh).getContentSize = l.getContentSize := rfl
  have hs : (l.SetSize fw fh).getSize = (max l.getContentSize.1 fw, max l.getContentSize.2 fh) := rfl
  refine ⟨hc, hs, ?_, ?_, ?_, ?_, ?_, ?_⟩ <;> rw [hs] <;> simp only
  · exact le_max_right _ _
  · exact le_max_right _ _
  · exact le_max_left _ _
  · exact le_max_left _ _
  · rcases max_cases l.getContentSize.1 fw with h | h <;> simp [h.1]
  · rcases max_cases l.getContentSize.2 fh with h | h <;> simp [h.1]

/-! ## Expander share -/

/-- C1, as stated, fails: with `C` the natural size of the non-expanding children
only, the claim gives the single visible expander of `tallExpander` (fixed height
100, the expander's own natural height 30) the height 100, while
`AdjustEntryPlacement` gives it 70.  It also fails where the 64-bit content sum
overflows: in `hugeColumn` (heights `MaxInt64`, `MaxInt64` and a dynamic spacer)
the spacer is placed with height 2, while the claim gives it 0. -/
theorem expander_share_nonExpanding_counterexample :
    (tallExpander.AdjustEntryPlacement.entries.map fun p => p.height) = [70] ∧
    max 0 (Int.fdiv (tallExpander.getSize.2 - naturalHeights (nonExpanding tallExpander))
      (visibleExpanders tallExpander).length) = 100 ∧
    (hugeColumn.AdjustEntryPlacement.entries.map fun p => p.height) =
      [9223372036854775807, 9223372036854775807, 2] ∧
    max 0 (Int.fdiv (hugeColumn.getSize.2 - naturalHeights (nonExpanding hugeColumn))
      (visibleExpanders hugeColumn).length) = 0 ∧
    ¬ ∀ l : Layout, 1 ≤ (visibleExpanders l).length →
      l.positionType = PositionTypeVertical →
      ∀ p ∈ l.AdjustEntryPlacement.entries,
        p.widget.isVisible = true → p.widget.isExpanding = true →
        p.height = max 0 (Int.fdiv (l.getSize.2 - naturalHeights (nonExpanding l))
          (visibleExpanders l).length) := by
  refine ⟨by decide, by decide, by decide, by decide, fun h => ?_⟩
  have h1 := h tallExpander (by decide) (by decide)
  revert h1
  decide

/-- C1, amended: with `k >= 1` visible expanding children, in a layout whose
total natural size `C` of all children on the growth axis (height in Vertical
mode, width in Horizontal mode) is a 64-bit value and whose leftover `W - C` does
not exceed `MaxInt64`, `AdjustEntryPlacement` gives each visible expanding child,
along the growth axis, the size `max 0 (floor ((W - C) / k))`, where `W` is
`getSize` on that axis; with `k = 1` this is `max 0 (W - C)`; and `C` is the
total of the non-expanding children whenever every expanding child has natural
size 0 on that axis. -/
theorem expander_share (l : Layout) (hk : 1 ≤ (visibleExpanders l).length) :
    (l.positionType = PositionTypeVertical →
      (inRange (naturalHeights l.entries) →
        l.getSize.2 - naturalHeights l.entries ≤ MaxInt64 →
        ∀ p ∈ l.AdjustEntryPlacement.entries,
          p.widget.isVisible = true → p.widget.isExpanding = true →
          p.height = max 0 (Int.fdiv (l.getSize.2 - naturalHeights l.entries)
              (visibleExpanders l).length) ∧
          ((visibleExpanders l).length = 1 →
            p.height = max 0 (l.getSize.2 - naturalHeights l.entries))) ∧
      ((∀ e ∈ l.entries, e.widget.isExpanding = true → e.widget.getSize.2 = 0) →
        naturalHeights l.entries = naturalHeights (nonExpanding l))) ∧
    (l.positionType = PositionTypeHorizontal →
      (inRange (naturalWidths l.entries) →
        l.getSize.1 - naturalWidths l.entries ≤ MaxInt64 →
        ∀ p ∈ l.AdjustEntryPlacement.entries,
          p.widget.isVisible = true → p.widget.isExpanding = true →
          p.width = max 0 (Int.fdiv (l.getSize.1 - naturalWidths l.entries)
              (visibleExpanders l).length) ∧
          ((visibleExpanders l).length = 1 →
            p.width = max 0 (l.getSize.1 - naturalWidths l.entries))) ∧
      ((∀ e ∈ l.entries, e.widget.isExpanding = true → e.widget.getSize.1 = 0) →
        naturalWidths l.entries = naturalWidths (nonExpanding l))) := by
  refine ⟨fun hpt => ⟨fun hC hfit p hp hv hx => ?_, fun h0 => ?_⟩,
    fun hpt => ⟨fun hC hfit p hp hv hx => ?_, fun h0 => ?_⟩⟩
  · have hsz := (placeEntries_visible_size l _ _ _ _ _ p hp hv).2
    rw [placedSize, if_pos hx, expanderSize_vertical l hpt hk hC hfit] at hsz
    refine ⟨hsz, fun h1 => ?_⟩
    rw [hsz, h1]
    simp [Int.fdiv_eq_ediv]
  · exact sum_eq_sum_nonExpanding _ _ h0
  · have hsz := (placeEntries_visible_size l _ _ _ _ _ p hp hv).1
    rw [placedSize, if_pos hx, expanderSize_horizontal l hpt hk hC hfit] at hsz
    refine ⟨hsz, fun h1 => ?_⟩
    rw [hsz, h1]
    simp [Int.fdiv_eq_ediv]
  · exact sum_eq_sum_nonExpanding _ _ h0

/-- Witness of the amended C1 on the label / spacer / label layout: the total
height 40 and the leftover 60 are 64-bit values, and the one visible expander
receives the height `max 0 (100 - 40) = 60`; its only expanding child has natural
height 0, so 40 is also the total of the non-expanding children. -/
theorem expander_share_witness :
    1 ≤ (visibleExpanders labelSpacerLabel).length ∧
    labelSpacerLabel.positionType = PositionTypeVertical ∧
    inRange (naturalHeights labelSpacerLabel.entries) ∧
    labelSpacerLabel.getSize.2 - naturalHeights labelSpacerLabel.entries ≤ MaxInt64 ∧
    max 0 (Int.fdiv (labelSpacerLabel.getSize.2 - naturalHeights labelSpacerLabel.entries)
      (visibleExpanders labelSpacerLabel).length) = 60 ∧
    (∀ e ∈ labelSpacerLabel.entries, e.widget.isExpanding = true → e.widget.getSize.2 = 0) ∧
    (∀ p ∈ labelSpacerLabel.AdjustEntryPlacement.entries,
      p.widget.isVisible = true → p.widget.isExpanding = true →
      p.height = max 0 (Int.fdiv
          (labelSpacerLabel.getSize.2 - naturalHeights labelSpacerLabel.entries)
          (visibleExpanders labelSpacerLabel).length) ∧
      ((visibleExpanders labelSpacerLabel).length = 1 →
        p.height = max 0 (labelSpacerLabel.getSize.2 - naturalHeights labelSpacerLabel.entries))) ∧
    naturalHeights labelSpacerLabel.entries = naturalHeights (nonExpanding labelSpacerLabel) :=
  ⟨by decide, by decide, by decide, by decide, by decide, by decide,
    ((expander_share labelSpacerLabel (by decide)).1 (by decide)).1 (by decide) (by decide),
    ((expander_share labelSpacerLabel (by decide)).1 (by decide)).2 (by decide)⟩

/-! ## The label / spacer / label scenario -/

theorem placeEntry_vertical (l : Layout) (hpt : l.positionType = PositionTypeVertical)
    (size expander : Int × Int) (ox oy : Int) (e : layoutEntry) :
    (l.placeEntry size expander ox oy e).2 = (ox, wrap (oy + (placedSize expander e).2)) ∧
      (l.placeEntry size expander ox oy e).1.y = oy := by
  unfold Layout.placeEntry
  rw [hpt]
  exact ⟨rfl, rfl⟩

theorem placeEntry_horizontal (l : Layout) (hpt : l.positionType = PositionTypeHorizontal)
    (size expander : Int × Int) (ox oy : Int) (e : layoutEntry) :
    (l.placeEntry size expander ox oy e).2 = (wrap (ox + (placedSize expander e).1), oy) ∧
      (l.placeEntry size expander ox oy e).1.x = ox := by
  unfold Layout.placeEntry
  rw [hpt]
  exact ⟨rfl, rfl⟩

/-- C4: a Vertical layout with fixed size 100 x 100 holding a visible non-expanding
100x20 widget, a visible dynamic spacer (expanding, natural size 0x0) and a second
visible non-expanding 100x20 widget: after `AdjustEntryPlacement` the spacer's
entry has height 60 and the three entries have y = 0, 20 and 80.  Alignment, the
layout's screen position and the remaining widget state are arbitrary. -/
theorem label_spacer_label_scenario (l : Layout) (e1 e2 e3 : layoutEntry)
    (hpt : l.positionType = PositionTypeVertical) (hw : l.width = 100) (hh : l.height = 100)
    (hes : l.entries = [e1, e2, e3])
    (h1 : e1.widget.isVisible = true ∧ e1.widget.isExpanding = false ∧
      e1.widget.getSize = (100, 20))
    (h2 : e2.widget.isVisible = true ∧ e2.widget.isExpanding = true ∧
      e2.widget.getSize = (0, 0))
    (h3 : e3.widget.isVisible = true ∧ e3.widget.isExpanding = false ∧
      e3.widget.getSize = (100, 20)) :
    ∃ p1 p2 p3, l.AdjustEntryPlacement.entries = [p1, p2, p3] ∧
      p2.height = 60 ∧ p1.y = 0 ∧ p2.y = 20 ∧ p3.y = 80 := by
  obtain ⟨v1, x1, s1⟩ := h1
  obtain ⟨v2, x2, s2⟩ := h2
  obtain ⟨v3, x3, s3⟩ := h3
  have hc : l.getContentSize = (100, 40) := by
    simp [Layout.getContentSize, hes, hpt, contentStep, s1, s2, s3, MaxInt, wrap]
  have hs : l.getSize = (100, 100) := by
    simp [Layout.getSize, hc, hw, hh, MaxInt]
  have hn : expanderCount l.entries = 1 := by
    simp [expanderCount, hes, v1, v2, v3, x1, x2, x3]
  have hx : l.expanderSize = (0, 60) := by
    unfold Layout.expanderSize
    rw [hn, hs, hc, hpt]
    decide
  have p1 : placedSize (0, 60) e1 = (100, 20) := by simp [placedSize, x1, s1]
  have p2 : placedSize (0, 60) e2 = (0, 60) := by simp [placedSize, x2]
  have hent : l.AdjustEntryPlacement.entries =
      [(l.placeEntry (100, 100) (0, 60) 0 0 e1).1, (l.placeEntry (100, 100) (0, 60) 0 20 e2).1,
        (l.placeEntry (100, 100) (0, 60) 0 80 e3).1] := by
    simp [Layout.AdjustEntryPlacement, hes, hs, hx, Layout.placeEntries, v1, v2, v3,
      (placeEntry_vertical l hpt _ _ _ _ _).1, p1, p2, wrap]
  refine ⟨_, _, _, hent, ?_, ?_, ?_, ?_⟩
  · rw [placeEntry_height, p2]
  · exact (placeEntry_vertical l hpt _ _ _ _ _).2
  · exact (placeEntry_vertical l hpt _ _ _ _ _).2
  · exact (placeEntry_vertical l hpt _ _ _ _ _).2

/-- Witness of C4 on the layout built with `createLayout`, `SetSize(100, 100)` and
three appends. -/
theorem label_spacer_label_scenario_witness :
    labelSpacerLabel.positionType = PositionTypeVertical ∧
    labelSpacerLabel.width = 100 ∧ labelSpacerLabel.height = 100 ∧
    ∃ p1 p2 p3, labelSpacerLabel.AdjustEntryPlacement.entries = [p1, p2, p3] ∧
      p2.height = 60 ∧ p1.y = 0 ∧ p2.y = 20 ∧ p3.y = 80 :=
  ⟨by decide, by decide, by decide,
  label_spacer_label_scenario labelSpacerLabel (newEntry (fixedWidget 100 20))
    (newEntry dynamicSpacer) (newEntry (fixedWidget 100 20)) (by decide) (by decide) (by decide)
    (by decide) (by decide) (by decide) (by decide)⟩

/-! ## Cross-axis alignment and running offsets -/

/-- A visible entry that leaves the placement loop is the placement, at some
running offsets, of a visible entry that went in. -/
theorem placeEntries_visible_mem (l : Layout) (size expander : Int × Int)
    (es : List layoutEntry) (ox oy : Int) (p : layoutEntry)
    (hp : p ∈ l.placeEntries size expander ox oy es) (hv : p.widget.isVisible = true) :
    ∃ e ∈ es, ∃ ox1 oy1, p = (l.placeEntry size expander ox1 oy1 e).1 := by
  induction es generalizing ox oy with
  | nil => simp [Layout.placeEntries] at hp
  | cons e rest ih =>
    unfold Layout.placeEntries at hp
    by_cases hev : e.widget.isVisible = true
    · rw [if_pos hev] at hp
      rcases List.mem_cons.1 hp with h | h
      · exact ⟨e, List.mem_cons_self _ _, ox, oy, h⟩
      · obtain ⟨e0, he0, r⟩ := ih _ _ h
        exact ⟨e0, List.mem_cons_of_mem _ he0, r⟩
    · rw [if_neg hev] at hp
      rcases List.mem_cons.1 hp with h | h
      · subst h; exact absurd hv hev
      · obtain ⟨e0, he0, r⟩ := ih _ _ h
        exact ⟨e0, List.mem_cons_of_mem _ he0, r⟩

theorem placeEntry_center_x (l : Layout) (hpt : l.positionType = PositionTypeVertical)
    (hal : l.horizontalAlign = HorizontalAlignCenter)
    (size expander : Int × Int) (ox oy : Int) (e : layoutEntry) :
    (l.placeEntry size expander ox oy e).1.x =
      size.1.tdiv 2 - (l.placeEntry size expander ox oy e).1.width.tdiv 2 := by
  unfold Layout.placeEntry
  rw [hpt, hal]

theorem placeEntry_middle_y (l : Layout) (hpt : l.positionType = PositionTypeHorizontal)
    (hal : l.verticalAlign = VerticalAlignMiddle)
    (size expander : Int × Int) (ox oy : Int) (e : layoutEntry) :
    (l.placeEntry size expander ox oy e).1.y =
      size.2.tdiv 2 - (l.placeEntry size expander ox oy e).1.height.tdiv 2 := by
  unfold Layout.placeEntry
  rw [hpt, hal]

/-- Halving two non-negative extents separately agrees with halving their
difference when the difference is even. -/
theorem tdiv_two_sub (a b : Int) (ha : 0 ≤ a) (hb : 0 ≤ b) (hev : 2 ∣ (a - b)) :
    a.tdiv 2 - b.tdiv 2 = (a - b).tdiv 2 := by
  rw [Int.tdiv_eq_ediv ha (by decide), Int.tdiv_eq_ediv hb (by decide),
    Int.tdiv_eq_ediv_of_dvd hev]
  omega

theorem getSize_fst_nonneg_vertical (l : Layout) (hpt : l.positionType = PositionTypeVertical) :
    0 ≤ l.getSize.1 := by
  have h := foldl_contentStep_vertical_fst_ge l.entries (0, 0)
  have h2 := (getContentSize_le_getSize l).1
  unfold Layout.getContentSize at h2
  rw [hpt] at h2
  exact le_trans h h2

theorem getSize_snd_nonneg_horizontal (l : Layout)
    (hpt : l.positionType = PositionTypeHorizontal) : 0 ≤ l.getSize.2 := by
  have h := foldl_contentStep_horizontal_snd_ge l.entries (0, 0)
  have h2 := (getContentSize_le_getSize l).2
  unfold Layout.getContentSize at h2
  rw [hpt] at h2
  exact le_trans h h2

/-- C5, as stated, fails: in `offCenter` (Vertical, Center, effective width 4) the
visible 1x1 child is placed at x = 4/2 - 1/2 = 2, while (4 - 1) / 2 = 1. -/
theorem center_alignment_counterexample :
    offCenter.getSize.1 = 4 ∧
    (offCenter.AdjustEntryPlacement.entries.map fun p => (p.x, p.width)) = [(2, 1)] ∧
    Int.tdiv (4 - 1) 2 = 1 ∧
    ¬ ∀ l : Layout, l.positionType = PositionTypeVertical →
      l.horizontalAlign = HorizontalAlignCenter →
      ∀ p ∈ l.AdjustEntryPlacement.entries, p.widget.isVisible = true →
        p.x = (l.getSize.1 - p.width).tdiv 2 := by
  refine ⟨by decide, by decide, by decide, fun h => ?_⟩
  have h1 := h offCenter (by decide) (by decide)
  revert h1
  decide

/-- C5, amended: with Center alignment in Vertical mode (Middle alignment in
Horizontal mode), `AdjustEntryPlacement` sets every visible entry's cross-axis
coordinate to `crossExtent / 2 - childCrossExtent / 2`, each extent halved
separately by truncating integer division; this equals
`(crossExtent - childCrossExtent) / 2` whenever the entry's placed extent is
non-negative and the difference of the two extents is even. -/
theorem center_alignment (l : Layout) :
    (l.positionType = PositionTypeVertical → l.horizontalAlign = HorizontalAlignCenter →
      ∀ p ∈ l.AdjustEntryPlacement.entries, p.widget.isVisible = true →
        p.x = l.getSize.1.tdiv 2 - p.width.tdiv 2 ∧
        (0 ≤ p.width → 2 ∣ (l.getSize.1 - p.width) →
          p.x = (l.getSize.1 - p.width).tdiv 2)) ∧
    (l.positionType = PositionTypeHorizontal → l.verticalAlign = VerticalAlignMiddle →
      ∀ p ∈ l.AdjustEntryPlacement.entries, p.widget.isVisible = true →
        p.y = l.getSize.2.tdiv 2 - p.height.tdiv 2 ∧
        (0 ≤ p.height → 2 ∣ (l.getSize.2 - p.height) →
          p.y = (l.getSize.2 - p.height).tdiv 2)) := by
  refine ⟨fun hpt hal p hp hv => ?_, fun hpt hal p hp hv => ?_⟩
  · obtain ⟨e, _, ox, oy, rfl⟩ := placeEntries_visible_mem l _ _ _ _ _ p hp hv
    have hx := placeEntry_center_x l hpt hal l.getSize l.expanderSize ox oy e
    refine ⟨hx, fun hw hev => ?_⟩
    rw [hx]
    exact tdiv_two_sub _ _ (getSize_fst_nonneg_vertical l hpt) hw hev
  · obtain ⟨e, _, ox, oy, rfl⟩ := placeEntries_visible_mem l _ _ _ _ _ p hp hv
    have hy := placeEntry_middle_y l hpt hal l.getSize l.expanderSize ox oy e
    refine ⟨hy, fun hh hev => ?_⟩
    rw [hy]
    exact tdiv_two_sub _ _ (getSize_snd_nonneg_horizontal l hpt) hh hev

/-- Witness of the amended C5 on `centered` (Vertical, Center, effective width
10): its visible 4x1 child has a non-negative width and an even difference to
the layout width, and sits at x = 10/2 - 4/2 = (10 - 4)/2 = 3. -/
theorem center_alignment_witness :
    centered.positionType = PositionTypeVertical ∧
    centered.horizontalAlign = HorizontalAlignCenter ∧
    centeredPlaced ∈ centered.AdjustEntryPlacement.entries ∧
    centeredPlaced.widget.isVisible = true ∧
    0 ≤ centeredPlaced.width ∧ 2 ∣ (centered.getSize.1 - centeredPlaced.width) ∧
    centeredPlaced.x = 3 ∧
    centeredPlaced.x = centered.getSize.1.tdiv 2 - centeredPlaced.width.tdiv 2 ∧
    centeredPlaced.x = (centered.getSize.1 - centeredPlaced.width).tdiv 2 :=
  ⟨by decide, by decide, by decide, by decide, by decide, by decide, by decide,
    ((center_alignment centered).1 (by decide) (by decide) centeredPlaced (by decide)
      (by decide)).1,
    ((center_alignment centered).1 (by decide) (by decide) centeredPlaced (by decide)
      (by decide)).2 (by decide) (by decide)⟩

/-! ## Running offsets -/

/-- The visibility flags of the entries are untouched by the placement loop. -/
theorem placeEntries_map_isVisible (l : Layout) (size expander : Int × Int)
    (es : List layoutEntry) (ox oy : Int) :
    (l.placeEntries size expander ox oy es).map (fun e => e.widget.isVisible) =
      es.map fun e => e.widget.isVisible := by
  induction es generalizing ox oy with
  | nil => simp [Layout.placeEntries]
  | cons e rest ih =>
    unfold Layout.placeEntries
    by_cases hev : e.widget.isVisible = true
    · rw [if_pos hev]
      simp [placeEntry_widget_isVisible, ih]
    · rw [if_neg hev]
      simp [ih]

theorem placeEntries_vertical_y (l : Layout) (hpt : l.positionType = PositionTypeVertical)
    (size expander : Int × Int) (es : List layoutEntry) (ox oy : Int) (hoy : inRange oy)
    (i : Nat) (p : layoutEntry) (hp : (l.placeEntries size expander ox oy es)[i]? = some p)
    (hv : p.widget.isVisible = true) :
    p.y = wrap (oy + visibleHeights ((l.placeEntries size expander ox oy es).take i)) := by
  induction es generalizing ox oy i with
  | nil => simp [Layout.placeEntries] at hp
  | cons e rest ih =>
    unfold Layout.placeEntries at hp ⊢
    by_cases hev : e.widget.isVisible = true
    · rw [if_pos hev] at hp ⊢
      cases i with
      | zero =>
        simp only [List.getElem?_cons_zero, Option.some.injEq] at hp
        subst hp
        simp [visibleHeights, (placeEntry_vertical l hpt _ _ _ _ _).2,
          wrap_of_inRange oy hoy]
      | succ j =>
        simp only [List.getElem?_cons_succ] at hp
        rw [(placeEntry_vertical l hpt _ _ _ _ _).1] at hp ⊢
        have h := ih _ _ (wrap_inRange _) j hp
        rw [h, wrap_wrap_add]
        simp [visibleHeights, List.filter_cons, placeEntry_widget_isVisible, hev,
          placeEntry_height, add_assoc]
    · rw [if_neg hev] at hp ⊢
      cases i with
      | zero =>
        simp only [List.getElem?_cons_zero, Option.some.injEq] at hp
        subst hp
        exact absurd hv hev
      | succ j =>
        simp only [List.getElem?_cons_succ] at hp
        have h := ih _ _ hoy j hp
        rw [h]
        simp [visibleHeights, List.filter_cons, hev]

theorem placeEntries_horizontal_x (l : Layout) (hpt : l.positionType = PositionTypeHorizontal)
    (size expander : Int × Int) (es : List layoutEntry) (ox oy : Int) (hox : inRange ox)
    (i : Nat) (p : layoutEntry) (hp : (l.placeEntries size expander ox oy es)[i]? = some p)
    (hv : p.widget.isVisible = true) :
    p.x = wrap (ox + visibleWidths ((l.placeEntries size expander ox oy es).take i)) := by
  induction es generalizing ox oy i with
  | nil => simp [Layout.placeEntries] at hp
  | cons e rest ih =>
    unfold Layout.placeEntries at hp ⊢
    by_cases hev : e.widget.isVisible = true
    · rw [if_pos hev] at hp ⊢
      cases i with
      | zero =>
        simp only [List.getElem?_cons_zero, Option.some.injEq] at hp
        subst hp
        simp [visibleWidths, (placeEntry_horizontal l hpt _ _ _ _ _).2,
          wrap_of_inRange ox hox]
      | succ j =>
        simp only [List.getElem?_cons_succ] at hp
        rw [(placeEntry_horizontal l hpt _ _ _ _ _).1] at hp ⊢
        have h := ih _ _ (wrap_inRange _) j hp
        rw [h, wrap_wrap_add]
        simp [visibleWidths, List.filter_cons, placeEntry_widget_isVisible, hev,
          placeEntry_width, add_assoc]
    · rw [if_neg hev] at hp ⊢
      cases i with
      | zero =>
        simp only [List.getElem?_cons_zero, Option.some.injEq] at hp
        subst hp
        exact absurd hv hev
      | succ j =>
        simp only [List.getElem?_cons_succ] at hp
        have h := ih _ _ hox j hp
        rw [h]
        simp [visibleWidths, List.filter_cons, hev]

/-- C6, as stated, fails: the running offset is a 64-bit `int`.  The Vertical
layout `hugeStack` holds three visible static spacers of heights `MaxInt64`, 1
and 1; they are placed at y = 0, `MaxInt64` and `MinInt64`, while the heights
placed before the third add up to `MaxInt64 + 1`. -/
theorem running_offset_counterexample :
    hugeStack.positionType = PositionTypeVertical ∧
    (hugeStack.AdjustEntryPlacement.entries.map fun e => (e.widget.isVisible, e.height, e.y)) =
      [(true, 9223372036854775807, 0), (true, 1, 9223372036854775807),
        (true, 1, -9223372036854775808)] ∧
    visibleHeights (hugeStack.AdjustEntryPlacement.entries.take 2) = 9223372036854775808 ∧
    ¬ ∀ l : Layout, l.positionType = PositionTypeVertical →
      ∀ (i : Nat) (p : layoutEntry), l.AdjustEntryPlacement.entries[i]? = some p →
        p.widget.isVisible = true →
        p.y = visibleHeights (l.AdjustEntryPlacement.entries.take i) := by
  refine ⟨by decide, by decide, by decide, fun h => ?_⟩
  have h1 := h hugeStack (by decide) 2
  revert h1
  decide

/-- C6, amended: after `AdjustEntryPlacement` on a Vertical layout, the y of every
visible entry is the 64-bit reduction (`wrap`) of the sum of the placed heights
of the visible entries inserted before it, and is that sum itself (0 for the
first visible entry) whenever the sum is within the 64-bit `int`; in a
Horizontal layout the same holds of the x and the placed widths.  Invisible
entries add nothing to the sum, and the placement leaves the visibility of every
entry as it was. -/
theorem running_offset (l : Layout) :
    (l.AdjustEntryPlacement.entries.map fun e => e.widget.isVisible) =
      (l.entries.map fun e => e.widget.isVisible) ∧
    (l.positionType = PositionTypeVertical →
      ∀ (i : Nat) (p : layoutEntry), l.AdjustEntryPlacement.entries[i]? = some p →
        p.widget.isVisible = true →
        p.y = wrap (visibleHeights (l.AdjustEntryPlacement.entries.take i)) ∧
        (inRange (visibleHeights (l.AdjustEntryPlacement.entries.take i)) →
          p.y = visibleHeights (l.AdjustEntryPlacement.entries.take i))) ∧
    (l.positionType = PositionTypeHorizontal →
      ∀ (i : Nat) (p : layoutEntry), l.AdjustEntryPlacement.entries[i]? = some p →
        p.widget.isVisible = true →
        p.x = wrap (visibleWidths (l.AdjustEntryPlacement.entries.take i)) ∧
        (inRange (visibleWidths (l.AdjustEntryPlacement.entries.take i)) →
          p.x = visibleWidths (l.AdjustEntryPlacement.entries.take i))) := by
  refine ⟨placeEntries_map_isVisible l _ _ _ _ _, fun hpt i p hp hv => ?_,
    fun hpt i p hp hv => ?_⟩
  · have h := placeEntries_vertical_y l hpt _ _ _ _ _ inRange_zero i p hp hv
    rw [zero_add] at h
    exact ⟨h, fun hr => h.trans (wrap_of_inRange _ hr)⟩
  · have h := placeEntries_horizontal_x l hpt _ _ _ _ _ inRange_zero i p hp hv
    rw [zero_add] at h
    exact ⟨h, fun hr => h.trans (wrap_of_inRange _ hr)⟩

/-- Witness of the amended C6 on the label / spacer / label layout: the third
entry is visible, the heights placed before it add up to 20 + 60 = 80, within
the 64-bit range, and its y is that sum. -/
theorem running_offset_witness :
    labelSpacerLabel.positionType = PositionTypeVertical ∧
    labelSpacerLabel.AdjustEntryPlacement.entries[2]? = some secondLabelPlaced ∧
    secondLabelPlaced.widget.isVisible = true ∧
    visibleHeights (labelSpacerLabel.AdjustEntryPlacement.entries.take 2) = 80 ∧
    inRange (visibleHeights (labelSpacerLabel.AdjustEntryPlacement.entries.take 2)) ∧
    secondLabelPlaced.y =
      wrap (visibleHeights (labelSpacerLabel.AdjustEntryPlacement.entries.take 2)) ∧
    secondLabelPlaced.y = visibleHeights (labelSpacerLabel.AdjustEntryPlacement.entries.take 2) :=
  ⟨by decide, by decide, by decide, by decide, by decide,
    ((running_offset labelSpacerLabel).2.1 (by decide) 2 secondLabelPlaced (by decide)
      (by decide)).1,
    ((running_offset labelSpacerLabel).2.1 (by decide) 2 secondLabelPlaced (by decide)
      (by decide)).2 (by decide)⟩

/-! ## Idempotence of the placement -/

theorem layoutKey_placeEntry (l : Layout) (size expander : Int × Int) (ox oy : Int)
    (e : layoutEntry) : layoutKey (l.placeEntry size expander ox oy e).1 = layoutKey e := by
  simp [layoutKey, placeEntry_widget_getSize, placeEntry_widget_getPosition,
    placeEntry_widget_isVisible, placeEntry_widget_isExpanding]

theorem placeEntries_map_layoutKey (l : Layout) (size expander : Int × Int)
    (es : List layoutEntry) (ox oy : Int) :
    (l.placeEntries size expander ox oy es).map layoutKey = es.map layoutKey := by
  induction es generalizing ox oy with
  | nil => simp [Layout.placeEntries]
  | cons e rest ih =>
    unfold Layout.placeEntries
    by_cases hev : e.widget.isVisible = true
    · rw [if_pos hev]
      simp [layoutKey_placeEntry, ih]
    · rw [if_neg hev]
      simp [ih]

theorem contentStep_congr (pt : PositionType) (acc : Int × Int) (a b : layoutEntry)
    (h : layoutKey a = layoutKey b) : contentStep pt acc a = contentStep pt acc b := by
  simp only [layoutKey, Prod.mk.injEq] at h
  obtain ⟨h1, h2, _, _⟩ := h
  unfold contentStep
  rw [h1, h2]

theorem foldl_contentStep_congr (pt : PositionType) (es es2 : List layoutEntry)
    (acc : Int × Int) (h : es.map layoutKey = es2.map layoutKey) :
    es.foldl (contentStep pt) acc = es2.foldl (contentStep pt) acc := by
  induction es generalizing es2 acc with
  | nil =>
    cases es2 with
    | nil => rfl
    | cons b rest2 => simp at h
  | cons a rest ih =>
    cases es2 with
    | nil => simp at h
    | cons b rest2 =>
      simp only [List.map_cons, List.cons.injEq] at h
      rw [List.foldl_cons, List.foldl_cons, contentStep_congr pt acc a b h.1]
      exact ih _ _ h.2

theorem expanderCount_congr (es es2 : List layoutEntry)
    (h : es.map layoutKey = es2.map layoutKey) : expanderCount es = expanderCount es2 := by
  have key : ∀ (xs : List layoutEntry),
      (xs.filter fun e => e.widget.isVisible && e.widget.isExpanding).length =
        ((xs.map layoutKey).filter fun k => k.2.2.1 && k.2.2.2).length := by
    intro xs
    rw [List.filter_map, List.length_map]
    rfl
  unfold expanderCount
  rw [foldl_expanderCount, foldl_expanderCount, key es, key es2, h]

/-- The size negotiation reads only the layout settings and the keys of the
entries. -/
theorem getSize_congr (l l2 : Layout) (hpt : l.positionType = l2.positionType)
    (hw : l.width = l2.width) (hh : l.height = l2.height)
    (h : l.entries.map layoutKey = l2.entries.map layoutKey) :
    l.getContentSize = l2.getContentSize ∧ l.getSize = l2.getSize ∧
      l.expanderSize = l2.expanderSize := by
  have hc : l.getContentSize = l2.getContentSize := by
    unfold Layout.getContentSize
    rw [hpt]
    exact foldl_contentStep_congr _ _ _ _ h
  have hs : l.getSize = l2.getSize := by
    unfold Layout.getSize
    rw [hc, hw, hh]
  refine ⟨hc, hs, ?_⟩
  unfold Layout.expanderSize
  rw [hc, hs, hpt, expanderCount_congr _ _ h]

theorem placeEntry_idem (l : Layout) (size expander : Int × Int) (ox oy : Int)
    (e : layoutEntry) :
    l.placeEntry size expander ox oy (l.placeEntry size expander ox oy e).1 =
      l.placeEntry size expander ox oy e := by
  have hps := placedSize_placeEntry l size expander expander ox oy e
  unfold Layout.placeEntry at hps ⊢
  cases hpt : l.positionType <;> simp only [hpt] at hps ⊢ <;> rw [hps] <;> rfl

theorem placeEntries_idem (l : Layout) (size expander : Int × Int) (es : List layoutEntry)
    (ox oy : Int) :
    l.placeEntries size expander ox oy (l.placeEntries size expander ox oy es) =
      l.placeEntries size expander ox oy es := by
  induction es generalizing ox oy with
  | nil => simp [Layout.placeEntries]
  | cons e rest ih =>
    by_cases hev : e.widget.isVisible = true
    · have hev2 : (l.placeEntry size expander ox oy e).1.widget.isVisible = true := by
        rw [placeEntry_widget_isVisible]; exact hev
      rw [Layout.placeEntries, if_pos hev, Layout.placeEntries, if_pos hev2, placeEntry_idem, ih]
    · rw [Layout.placeEntries, if_neg hev, Layout.placeEntries, if_neg hev, ih]

/-- The placement loop reads of the layout only its mode, alignments and screen
position. -/
theorem placeEntries_congr (l l2 : Layout) (hpt : l.positionType = l2.positionType)
    (hha : l.horizontalAlign = l2.horizontalAlign) (hva : l.verticalAlign = l2.verticalAlign)
    (hsp : l.ScreenPos = l2.ScreenPos) (size expander : Int × Int) (es : List layoutEntry)
    (ox oy : Int) :
    l.placeEntries size expander ox oy es = l2.placeEntries size expander ox oy es := by
  have hone : ∀ (ox oy : Int) (e : layoutEntry),
      l.placeEntry size expander ox oy e = l2.placeEntry size expander ox oy e := by
    intro ox oy e
    unfold Layout.placeEntry
    rw [hpt, hha, hva, hsp]
  induction es generalizing ox oy with
  | nil => simp [Layout.placeEntries]
  | cons e rest ih =>
    unfold Layout.placeEntries
    rw [hone, ih, ih]

theorem Layout.with_entries_self (a : Layout) (es : List layoutEntry) (h : es = a.entries) :
    ({ a with entries := es } : Layout) = a := by
  subst h
  rfl

theorem AdjustEntryPlacement_idem (l : Layout) :
    l.AdjustEntryPlacement.AdjustEntryPlacement = l.AdjustEntryPlacement := by
  obtain ⟨_, hs, hx⟩ := getSize_congr l.AdjustEntryPlacement l rfl rfl rfl
    (placeEntries_map_layoutKey l _ _ _ _ _)
  apply Layout.with_entries_self
  rw [hs, hx, placeEntries_congr l.AdjustEntryPlacement l rfl rfl rfl rfl]
  exact placeEntries_idem l _ _ _ _ _

/-- C7: `AdjustEntryPlacement` is idempotent: for every layout (any mode,
alignment, fixed size and children), a second call in a row leaves the whole
layout state, hence every entry's x, y, width and height and every child's
screen position, exactly as the first call left it. -/
theorem AdjustEntryPlacement_idempotent (l : Layout) :
    l.AdjustEntryPlacement.AdjustEntryPlacement = l.AdjustEntryPlacement ∧
    (l.AdjustEntryPlacement.AdjustEntryPlacement.entries.map fun e =>
        (e.x, e.y, e.width, e.height, e.widget.ScreenPos)) =
      (l.AdjustEntryPlacement.entries.map fun e =>
        (e.x, e.y, e.width, e.height, e.widget.ScreenPos)) := by
  have h := AdjustEntryPlacement_idem l
  exact ⟨h, by rw [h]⟩

/-! ## Invisible children -/

theorem foldl_contentStep_filter_visible (pt : PositionType) (es : List layoutEntry)
    (acc : Int × Int) (h1 : pt ≠ PositionTypeHorizontal → 0 ≤ acc.1)
    (h2 : pt ≠ PositionTypeVertical → 0 ≤ acc.2)
    (h3 : pt = PositionTypeHorizontal → inRange acc.1)
    (h4 : pt = PositionTypeVertical → inRange acc.2)
    (h0 : ∀ e ∈ es, e.widget.isVisible = false →
      e.widget.getSize = (0, 0) ∧
        (pt = PositionTypeAbsolute → e.widget.getPosition = (0, 0))) :
    es.foldl (contentStep pt) acc =
      (es.filter fun e => e.widget.isVisible).foldl (contentStep pt) acc := by
  induction es generalizing acc with
  | nil => rfl
  | cons e rest ih =>
    have hrest := fun x hx => h0 x (List.mem_cons_of_mem _ hx)
    rw [List.filter_cons]
    by_cases hev : e.widget.isVisible = true
    · rw [if_pos hev, List.foldl_cons, List.foldl_cons]
      apply ih _ _ _ _ _ hrest
      · intro hne
        cases pt
        · simp [contentStep, MaxInt, h1 hne]
        · simp [contentStep, MaxInt, h1 hne]
        · exact absurd rfl hne
      · intro hne
        cases pt
        · simp [contentStep, MaxInt, h2 hne]
        · exact absurd rfl hne
        · simp [contentStep, MaxInt, h2 hne]
      · intro hpt
        subst hpt
        exact wrap_inRange _
      · intro hpt
        subst hpt
        exact wrap_inRange _
    · rw [if_neg hev, List.foldl_cons]
      have hinv : e.widget.isVisible = false := by simpa using hev
      obtain ⟨hs, hp⟩ := h0 e (List.mem_cons_self _ _) hinv
      have hstep : contentStep pt acc e = acc := by
        cases pt with
        | PositionTypeVertical =>
          simp [contentStep, MaxInt, hs, h1 (by decide), wrap_of_inRange _ (h4 rfl)]
        | PositionTypeHorizontal =>
          simp [contentStep, MaxInt, hs, h2 (by decide), wrap_of_inRange _ (h3 rfl)]
        | PositionTypeAbsolute =>
          simp [contentStep, MaxInt, hs, hp rfl, h1 (by decide), h2 (by decide), wrap_zero]
      rw [hstep]
      exact ih _ h1 h2 h3 h4 hrest

theorem expanderCount_filter_visible (es : List layoutEntry) :
    expanderCount (es.filter fun e => e.widget.isVisible) = expanderCount es := by
  have hf : ∀ a : layoutEntry,
      ((a.widget.isVisible && a.widget.isExpanding) && a.widget.isVisible) =
        (a.widget.isVisible && a.widget.isExpanding) := by
    intro a
    cases a.widget.isVisible <;> cases a.widget.isExpanding <;> rfl
  unfold expanderCount
  rw [foldl_expanderCount, foldl_expanderCount, List.filter_filter]
  simp only [hf]

/-- The placement loop places the visible entries as if the invisible ones were
not in the list. -/
theorem placeEntries_filter_visible (l : Layout) (size expander : Int × Int)
    (es : List layoutEntry) (ox oy : Int) :
    (l.placeEntries size expander ox oy es).filter (fun e => e.widget.isVisible) =
      l.placeEntries size expander ox oy (es.filter fun e => e.widget.isVisible) := by
  induction es generalizing ox oy with
  | nil => simp [Layout.placeEntries]
  | cons e rest ih =>
    rw [List.filter_cons, Layout.placeEntries]
    by_cases hev : e.widget.isVisible = true
    · have hev2 : (l.placeEntry size expander ox oy e).1.widget.isVisible = true := by
        rw [placeEntry_widget_isVisible]; exact hev
      rw [if_pos hev, if_pos hev, Layout.placeEntries, if_pos hev, List.filter_cons,
        if_pos hev2, ih]
    · rw [if_neg hev, if_neg hev, List.filter_cons, if_neg hev, ih]

/-- C8, as stated, fails: in `hiddenWide` the hidden 200x30 child is counted by
`getContentSize`, so the effective size, the expander size and the rectangles of
the two visible children all differ from those of the layout without it. -/
theorem invisible_no_space_counterexample :
    hiddenWide.getSize = (200, 100) ∧ hiddenWide.removeInvisible.getSize = (100, 100) ∧
    hiddenWide.expanderSize = (0, 50) ∧ hiddenWide.removeInvisible.expanderSize = (0, 80) ∧
    ((hiddenWide.AdjustEntryPlacement.entries.filter fun e => e.widget.isVisible).map
      layoutEntry.rect) = [(100, 0, 0, 50), (75, 50, 50, 20)] ∧
    (hiddenWide.removeInvisible.AdjustEntryPlacement.entries.map layoutEntry.rect) =
      [(50, 0, 0, 80), (25, 80, 50, 20)] ∧
    ¬ ∀ l : Layout, l.getSize = l.removeInvisible.getSize ∧
      l.expanderSize = l.removeInvisible.expanderSize ∧
      ((l.AdjustEntryPlacement.entries.filter fun e => e.widget.isVisible).map
        layoutEntry.rect) =
        (l.removeInvisible.AdjustEntryPlacement.entries.map layoutEntry.rect) := by
  refine ⟨by decide, by decide, by decide, by decide, by decide, by decide, fun h => ?_⟩
  have h1 := (h hiddenWide).1
  revert h1
  decide

/-- C8, amended: the placement loop and the expander count pass over invisible
children; when every invisible child has natural size 0x0 (and, in Absolute
mode, position (0, 0)), the effective size returned by `getSize`, the size given
to the expanding children and the entry that `AdjustEntryPlacement` produces for
each visible child are the same as for the layout obtained by removing all
invisible children from the entry list. -/
theorem invisible_no_space (l : Layout)
    (h0 : ∀ e ∈ l.entries, e.widget.isVisible = false →
      e.widget.getSize = (0, 0) ∧
        (l.positionType = PositionTypeAbsolute → e.widget.getPosition = (0, 0))) :
    l.getSize = l.removeInvisible.getSize ∧
    l.expanderSize = l.removeInvisible.expanderSize ∧
    (l.AdjustEntryPlacement.entries.filter fun e => e.widget.isVisible) =
      l.removeInvisible.AdjustEntryPlacement.entries := by
  have hc : l.getContentSize = l.removeInvisible.getContentSize := by
    unfold Layout.getContentSize Layout.removeInvisible
    exact foldl_contentStep_filter_visible _ _ _ (fun _ => le_rfl) (fun _ => le_rfl)
      (fun _ => inRange_zero) (fun _ => inRange_zero) h0
  have hs : l.getSize = l.removeInvisible.getSize := by
    unfold Layout.getSize
    rw [hc]
    rfl
  have hx : l.expanderSize = l.removeInvisible.expanderSize := by
    unfold Layout.expanderSize
    rw [← hs, ← hc]
    have hn : expanderCount l.removeInvisible.entries = expanderCount l.entries :=
      expanderCount_filter_visible l.entries
    rw [hn]
    rfl
  refine ⟨hs, hx, ?_⟩
  show (l.placeEntries l.getSize l.expanderSize 0 0 l.entries).filter
      (fun e => e.widget.isVisible) =
    l.removeInvisible.placeEntries l.removeInvisible.getSize l.removeInvisible.expanderSize 0 0
      (l.entries.filter fun e => e.widget.isVisible)
  rw [placeEntries_filter_visible, ← hs, ← hx,
    placeEntries_congr l.removeInvisible l rfl rfl rfl rfl]

/-- Witness of the amended C8 on `hiddenEmpty`, whose hidden child has natural
size 0x0: the two visible children get the rectangles they get without it. -/
theorem invisible_no_space_witness :
    (∀ e ∈ hiddenEmpty.entries, e.widget.isVisible = false →
      e.widget.getSize = (0, 0) ∧
        (hiddenEmpty.positionType = PositionTypeAbsolute → e.widget.getPosition = (0, 0))) ∧
    (hiddenEmpty.removeInvisible.AdjustEntryPlacement.entries.map layoutEntry.rect) =
      [(50, 0, 0, 80), (25, 80, 50, 20)] ∧
    (hiddenEmpty.getSize = hiddenEmpty.removeInvisible.getSize ∧
      hiddenEmpty.expanderSize = hiddenEmpty.removeInvisible.expanderSize ∧
      (hiddenEmpty.AdjustEntryPlacement.entries.filter fun e => e.widget.isVisible) =
        hiddenEmpty.removeInvisible.AdjustEntryPlacement.entries) :=
  ⟨by decide, by decide, invisible_no_space hiddenEmpty (by decide)⟩

/-! ## Pointer dispatch: lemmas on the loop -/

theorem dispatchEntries_fst (body : layoutEntry → layoutEntry × List Handler) (i0 : Nat)
    (es : List layoutEntry) :
    (dispatchEntries body i0 es).1 = es.map fun e => (body e).1 := by
  induction es generalizing i0 with
  | nil => rfl
  | cons e rest ih => simp [dispatchEntries, ih]

/-- A call in the log of the dispatch loop was made by the loop body on the entry
the call names. -/
theorem dispatchEntries_call (body : layoutEntry → layoutEntry × List Handler) (i0 : Nat)
    (es : List layoutEntry) (c : Call) (hc : c ∈ (dispatchEntries body i0 es).2) :
    ∃ j e, es[j]? = some e ∧ c.entry = i0 + j ∧ c.handler ∈ (body e).2 := by
  induction es generalizing i0 with
  | nil => simp [dispatchEntries] at hc
  | cons e rest ih =>
    simp only [dispatchEntries, List.mem_append, List.mem_map] at hc
    rcases hc with ⟨h, hh, rfl⟩ | hc
    · exact ⟨0, e, by simp, by simp, hh⟩
    · obtain ⟨j, e0, hj, hidx, hh⟩ := ih _ hc
      exact ⟨j + 1, e0, by simpa using hj, by omega, hh⟩

/-- Every call the loop body makes on an entry appears in the log under the index
of that entry. -/
theorem dispatchEntries_call_of (body : layoutEntry → layoutEntry × List Handler) (i0 : Nat)
    (es : List layoutEntry) (j : Nat) (e : layoutEntry) (hj : es[j]? = some e) (h : Handler)
    (hh : h ∈ (body e).2) : Call.mk (i0 + j) h ∈ (dispatchEntries body i0 es).2 := by
  induction es generalizing i0 j with
  | nil => simp at hj
  | cons e0 rest ih =>
    simp only [dispatchEntries, List.mem_append, List.mem_map]
    cases j with
    | zero =>
      simp only [List.getElem?_cons_zero, Option.some.injEq] at hj
      subst hj
      exact Or.inl ⟨h, hh, rfl⟩
    | succ k =>
      simp only [List.getElem?_cons_succ] at hj
      have := ih (i0 + 1) k hj
      rw [show i0 + 1 + k = i0 + (k + 1) by omega] at this
      exact Or.inr this

/-- An entry with an empty rectangle contains no point. -/
theorem IsIn_eq_false_of_empty (e : layoutEntry) (ev : HandlerEvent)
    (h : e.width ≤ 0 ∨ e.height ≤ 0) : e.IsIn ev = false := by
  unfold layoutEntry.IsIn Rectangle.IsInRect
  rw [Bool.eq_false_iff]
  intro hin
  simp only [Bool.and_eq_true, decide_eq_true_eq] at hin
  omega

/-- The placement loop leaves an invisible entry exactly as it was. -/
theorem placeEntries_invisible (l : Layout) (size expander : Int × Int) (es : List layoutEntry)
    (ox oy : Int) (i : Nat) (e : layoutEntry) (hi : es[i]? = some e)
    (hv : e.widget.isVisible = false) :
    (l.placeEntries size expander ox oy es)[i]? = some e := by
  induction es generalizing ox oy i with
  | nil => simp at hi
  | cons e0 rest ih =>
    unfold Layout.placeEntries
    cases i with
    | zero =>
      simp only [List.getElem?_cons_zero, Option.some.injEq] at hi
      subst hi
      simp [hv]
    | succ k =>
      simp only [List.getElem?_cons_succ] at hi
      by_cases hev : e0.widget.isVisible = true
      · rw [if_pos hev]
        simpa using ih _ _ k hi
      · rw [if_neg hev]
        simpa using ih _ _ k hi

/-! ## Invisible children and pointer events -/

/-- C9, as stated, fails: the child of `shownThenHidden` was placed while visible
(rectangle 50x50 at the origin) and hidden afterwards; a further placement passes
it over, and a move, a button-down and a button-up at (10, 10) all reach its
handlers although `isVisible` is false. -/
theorem invisible_no_events_counterexample :
    shownThenHidden.entries = [hiddenPlaced] ∧ hiddenPlaced.widget.isVisible = false ∧
    (shownThenHidden.onMouseMove moveTo10).calls =
      [⟨0, Handler.onMouseMove⟩, ⟨0, Handler.onMouseEnter⟩] ∧
    (shownThenHidden.onMouseButtonDown leftAt10).calls = [⟨0, Handler.onMouseButtonDown⟩] ∧
    ((shownThenHidden.onMouseButtonDown leftAt10).layout.onMouseButtonUp leftAt10).calls =
      [⟨0, Handler.onMouseButtonClick⟩, ⟨0, Handler.onMouseButtonUp⟩] ∧
    ¬ ∀ (l : Layout) (i : Nat) (e : layoutEntry), l.entries[i]? = some e →
      e.widget.isVisible = false →
      (∀ ev, ∀ c ∈ (l.onMouseMove ev).calls, c.entry ≠ i) ∧
      (∀ ev, ∀ c ∈ (l.onMouseButtonDown ev).calls, c.entry ≠ i) ∧
      (∀ ev, ∀ c ∈ (l.onMouseButtonUp ev).calls, c.entry ≠ i) := by
  refine ⟨by decide, by decide, by decide, by decide, by decide, fun h => ?_⟩
  have h1 := (h shownThenHidden 0 hiddenPlaced (by decide) (by decide)).2.1 leftAt10
    ⟨0, Handler.onMouseButtonDown⟩ (by decide)
  exact h1 rfl

theorem buttonDown_of_not_IsIn (ev : MouseEvent) (e : layoutEntry)
    (h : e.IsIn ev.toHandlerEvent = false) : e.buttonDown ev = (e, []) := by
  simp [layoutEntry.buttonDown, h]

theorem buttonUp_of_not_IsIn (ev : MouseEvent) (e : layoutEntry)
    (h : e.IsIn ev.toHandlerEvent = false) :
    e.buttonUp ev = ({ e with mouseDown := e.mouseDown.set ev.Button false }, []) := by
  simp [layoutEntry.buttonUp, h]

theorem mouseMove_of_not_IsIn (ev : MouseMoveEvent) (e : layoutEntry)
    (h : e.IsIn ev.toHandlerEvent = false) (hover : e.mouseOver = false) :
    e.mouseMove ev = (e, []) := by
  simp [layoutEntry.mouseMove, h, hover]

/-- C9, amended: the pointer handlers hit-test the rectangle stored in the entry;
an invisible child whose entry rectangle is empty (width <= 0 or height <= 0, as
for a child that has never been placed while visible) and whose hover flag is
clear receives no pointer events: `onMouseMove`, `onMouseButtonDown` and
`onMouseButtonUp` invoke none of its handlers for any event, and
`AdjustEntryPlacement` and the three handlers leave its widget, its rectangle and
its hover flag as they are. -/
theorem unplaced_invisible_no_events (l : Layout) (i : Nat) (e : layoutEntry)
    (hi : l.entries[i]? = some e) (hv : e.widget.isVisible = false)
    (hrect : e.width ≤ 0 ∨ e.height ≤ 0) (hover : e.mouseOver = false) :
    (∀ ev, ∀ c ∈ (l.onMouseMove ev).calls, c.entry ≠ i) ∧
    (∀ ev, ∀ c ∈ (l.onMouseButtonDown ev).calls, c.entry ≠ i) ∧
    (∀ ev, ∀ c ∈ (l.onMouseButtonUp ev).calls, c.entry ≠ i) ∧
    l.AdjustEntryPlacement.entries[i]? = some e ∧
    (∀ ev, (l.onMouseMove ev).layout.entries[i]? = some e) ∧
    (∀ ev, (l.onMouseButtonDown ev).layout.entries[i]? = some e) ∧
    (∀ ev, (l.onMouseButtonUp ev).layout.entries[i]? =
      some { e with mouseDown := e.mouseDown.set ev.Button false }) := by
  have hin : ∀ ev : HandlerEvent, e.IsIn ev = false :=
    fun ev => IsIn_eq_false_of_empty e ev hrect
  have hnone : ∀ (body : layoutEntry → layoutEntry × List Handler), (body e).2 = [] →
      ∀ c ∈ (dispatchEntries body 0 l.entries).2, c.entry ≠ i := by
    intro body hb c hc hci
    obtain ⟨j, e0, hj, hidx, hh⟩ := dispatchEntries_call body 0 l.entries c hc
    have hji : j = i := by omega
    subst hji
    rw [hi] at hj
    cases hj
    rw [hb] at hh
    simp at hh
  have hentry : ∀ (body : layoutEntry → layoutEntry × List Handler),
      (dispatchEntries body 0 l.entries).1[i]? = some (body e).1 := by
    intro body
    rw [dispatchEntries_fst, List.getElem?_map, hi]
    rfl
  refine ⟨fun ev => hnone _ ?_, fun ev => hnone _ ?_, fun ev => hnone _ ?_, ?_,
    fun ev => ?_, fun ev => ?_, fun ev => ?_⟩
  · rw [mouseMove_of_not_IsIn ev e (hin _) hover]
  · rw [buttonDown_of_not_IsIn ev e (hin _)]
  · rw [buttonUp_of_not_IsIn ev e (hin _)]
  · exact placeEntries_invisible l _ _ _ _ _ i e hi hv
  · have h := hentry (layoutEntry.mouseMove ev)
    rw [mouseMove_of_not_IsIn ev e (hin _) hover] at h
    exact h
  · have h := hentry (layoutEntry.buttonDown ev)
    rw [buttonDown_of_not_IsIn ev e (hin _)] at h
    exact h
  · have h := hentry (layoutEntry.buttonUp ev)
    rw [buttonUp_of_not_IsIn ev e (hin _)] at h
    exact h

/-- Witness of the amended C9 on `neverShown`: its child was hidden before any
placement, its entry is the fresh one, and no event reaches it. -/
theorem unplaced_invisible_no_events_witness :
    neverShown.entries[0]? = some (newEntry ((fixedWidget 50 50).SetVisible false)) ∧
    (newEntry ((fixedWidget 50 50).SetVisible false)).widget.isVisible = false ∧
    (newEntry ((fixedWidget 50 50).SetVisible false)).width ≤ 0 ∧
    (newEntry ((fixedWidget 50 50).SetVisible false)).mouseOver = false ∧
    (∀ ev, ∀ c ∈ (neverShown.onMouseButtonDown ev).calls, c.entry ≠ 0) ∧
    neverShown.AdjustEntryPlacement.entries[0]? =
      some (newEntry ((fixedWidget 50 50).SetVisible false)) :=
  ⟨by decide, by decide, by decide, by decide,
    (unplaced_invisible_no_events neverShown 0
      (newEntry ((fixedWidget 50 50).SetVisible false)) (by decide) (by decide)
      (Or.inl (by decide)) (by decide)).2.1,
    (unplaced_invisible_no_events neverShown 0
      (newEntry ((fixedWidget 50 50).SetVisible false)) (by decide) (by decide)
      (Or.inl (by decide)) (by decide)).2.2.2.1⟩

/-! ## Pointer dispatch and placement -/

theorem buttonDown_withFlags (ev : MouseEvent) (e : layoutEntry) :
    ∃ o d, (e.buttonDown ev).1 = e.withFlags o d := by
  unfold layoutEntry.buttonDown
  by_cases h : e.IsIn ev.toHandlerEvent = true
  · rw [if_pos h]; exact ⟨e.mouseOver, _, rfl⟩
  · rw [if_neg h]; exact ⟨e.mouseOver, e.mouseDown, rfl⟩

theorem buttonUp_withFlags (ev : MouseEvent) (e : layoutEntry) :
    ∃ o d, (e.buttonUp ev).1 = e.withFlags o d :=
  ⟨e.mouseOver, _, rfl⟩

theorem mouseMove_withFlags (ev : MouseMoveEvent) (e : layoutEntry) :
    ∃ o d, (e.mouseMove ev).1 = e.withFlags o d := by
  unfold layoutEntry.mouseMove
  by_cases h : e.IsIn ev.toHandlerEvent = true
  · rw [if_pos h]; exact ⟨true, e.mouseDown, rfl⟩
  · rw [if_neg h]
    by_cases h2 : e.mouseOver = true
    · rw [if_pos h2]; exact ⟨false, e.mouseDown, rfl⟩
    · rw [if_neg h2]; exact ⟨e.mouseOver, e.mouseDown, rfl⟩

/-- Placing an entry commutes with rewriting its hover and press flags. -/
theorem placeEntry_withFlags (l : Layout) (size expander : Int × Int) (ox oy : Int)
    (e : layoutEntry) (o : Bool) (d : PressFlags) :
    l.placeEntry size expander ox oy (e.withFlags o d) =
      ((l.placeEntry size expander ox oy e).1.withFlags o d,
        (l.placeEntry size expander ox oy e).2) := by
  unfold Layout.placeEntry
  cases l.positionType <;> rfl

/-- If the placement loop leaves a list of entries as it is, it also leaves it as
it is after the hover and press flags of its entries have been rewritten. -/
theorem placeEntries_fixed_map (l : Layout) (size expander : Int × Int)
    (f : layoutEntry → layoutEntry) (hf : ∀ e, ∃ o d, f e = e.withFlags o d)
    (es : List layoutEntry) (ox oy : Int)
    (hfix : l.placeEntries size expander ox oy es = es) :
    l.placeEntries size expander ox oy (es.map f) = es.map f := by
  induction es generalizing ox oy with
  | nil => simp [Layout.placeEntries]
  | cons e rest ih =>
    obtain ⟨o, d, hfe⟩ := hf e
    rw [Layout.placeEntries] at hfix
    rw [List.map_cons, Layout.placeEntries, hfe]
    by_cases hev : e.widget.isVisible = true
    · have hev2 : (e.withFlags o d).widget.isVisible = true := hev
      rw [if_pos hev] at hfix
      rw [if_pos hev2, placeEntry_withFlags]
      simp only [List.cons.injEq] at hfix
      simp only
      rw [hfix.1, ih _ _ hfix.2]
    · have hev2 : ¬ (e.withFlags o d).widget.isVisible = true := hev
      rw [if_neg hev] at hfix
      rw [if_neg hev2]
      simp only [List.cons.injEq, true_and] at hfix
      rw [ih _ _ hfix]

theorem map_layoutKey_map (f : layoutEntry → layoutEntry)
    (hf : ∀ e, ∃ o d, f e = e.withFlags o d) (es : List layoutEntry) :
    (es.map f).map layoutKey = es.map layoutKey := by
  rw [List.map_map]
  apply List.map_congr_left
  intro e _
  obtain ⟨o, d, hfe⟩ := hf e
  simp only [Function.comp, hfe]
  rfl

/-- A layout whose placement is current stays so when the hover and press flags
of its entries are rewritten. -/
theorem placed_of_map (l : Layout) (f : layoutEntry → layoutEntry)
    (hf : ∀ e, ∃ o d, f e = e.withFlags o d) (hl : l.AdjustEntryPlacement = l) :
    ({ l with entries := l.entries.map f } : Layout).AdjustEntryPlacement =
      { l with entries := l.entries.map f } := by
  obtain ⟨_, hs, hx⟩ := getSize_congr { l with entries := l.entries.map f } l rfl rfl rfl
    (map_layoutKey_map f hf l.entries)
  have hfix : l.placeEntries l.getSize l.expanderSize 0 0 l.entries = l.entries :=
    congrArg Layout.entries hl
  apply Layout.with_entries_self
  rw [hs, hx, placeEntries_congr { l with entries := l.entries.map f } l rfl rfl rfl rfl]
  exact placeEntries_fixed_map l _ _ f hf _ _ _ hfix

theorem onMouseMove_layout (l : Layout) (ev : MouseMoveEvent) :
    (l.onMouseMove ev).layout =
      { l with entries := l.entries.map fun e => (e.mouseMove ev).1 } := by
  unfold Layout.onMouseMove
  rw [dispatchEntries_fst]

theorem onMouseButtonDown_layout (l : Layout) (ev : MouseEvent) :
    (l.onMouseButtonDown ev).layout =
      { l with entries := l.entries.map fun e => (e.buttonDown ev).1 } := by
  unfold Layout.onMouseButtonDown
  rw [dispatchEntries_fst]

theorem onMouseButtonUp_layout (l : Layout) (ev : MouseEvent) :
    (l.onMouseButtonUp ev).layout =
      { l with entries := l.entries.map fun e => (e.buttonUp ev).1 } := by
  unfold Layout.onMouseButtonUp
  rw [dispatchEntries_fst]

/-- C10, as stated, fails: the handlers do not recompute the placement.  The
visible 50x50 child of `freshChild` has never been placed, its stored rectangle
is empty, and a button-down at (10, 10) reaches no handler, while after
`AdjustEntryPlacement` the same event reaches the child. -/
theorem handlers_recompute_placement_counterexample :
    (freshChild.entries.map layoutEntry.rect) = [(0, 0, 0, 0)] ∧
    (freshChild.AdjustEntryPlacement.entries.map layoutEntry.rect) = [(0, 0, 50, 50)] ∧
    (freshChild.onMouseButtonDown leftAt10).calls = [] ∧
    (freshChild.AdjustEntryPlacement.onMouseButtonDown leftAt10).calls =
      [⟨0, Handler.onMouseButtonDown⟩] ∧
    ¬ ∀ (l : Layout),
      (∀ ev, l.onMouseMove ev = l.AdjustEntryPlacement.onMouseMove ev) ∧
      (∀ ev, l.onMouseButtonDown ev = l.AdjustEntryPlacement.onMouseButtonDown ev) ∧
      (∀ ev, l.onMouseButtonUp ev = l.AdjustEntryPlacement.onMouseButtonUp ev) := by
  refine ⟨by decide, by decide, by decide, by decide, fun h => ?_⟩
  have h1 := (h freshChild).2.1 leftAt10
  revert h1
  decide

/-- C10, amended: the pointer handlers hit-test the rectangle that the most
recent `AdjustEntryPlacement` (the one `render` runs) stored in each entry.  A
layout that has just been placed is a fixed point of `AdjustEntryPlacement`; on
such a layout `onMouseMove`, `onMouseButtonDown` and `onMouseButtonUp` produce
the same calls and the same state as they would with a placement run immediately
before them, and they leave the layout such a fixed point; an entry that has
never been placed has the empty rectangle and is hit by no event. -/
theorem handlers_use_stored_placement (l : Layout) :
    l.AdjustEntryPlacement.AdjustEntryPlacement = l.AdjustEntryPlacement ∧
    (l.AdjustEntryPlacement = l →
      (∀ ev, l.onMouseMove ev = l.AdjustEntryPlacement.onMouseMove ev ∧
        (l.onMouseMove ev).layout.AdjustEntryPlacement = (l.onMouseMove ev).layout) ∧
      (∀ ev, l.onMouseButtonDown ev = l.AdjustEntryPlacement.onMouseButtonDown ev ∧
        (l.onMouseButtonDown ev).layout.AdjustEntryPlacement =
          (l.onMouseButtonDown ev).layout) ∧
      (∀ ev, l.onMouseButtonUp ev = l.AdjustEntryPlacement.onMouseButtonUp ev ∧
        (l.onMouseButtonUp ev).layout.AdjustEntryPlacement =
          (l.onMouseButtonUp ev).layout)) ∧
    (∀ (w : widget) (ev : HandlerEvent), (newEntry w).IsIn ev = false) := by
  refine ⟨AdjustEntryPlacement_idem l, fun hl => ⟨fun ev => ⟨by rw [hl], ?_⟩,
    fun ev => ⟨by rw [hl], ?_⟩, fun ev => ⟨by rw [hl], ?_⟩⟩,
    fun w ev => IsIn_eq_false_of_empty _ ev (Or.inl le_rfl)⟩
  · rw [onMouseMove_layout]
    exact placed_of_map l _ (mouseMove_withFlags ev) hl
  · rw [onMouseButtonDown_layout]
    exact placed_of_map l _ (buttonDown_withFlags ev) hl
  · rw [onMouseButtonUp_layout]
    exact placed_of_map l _ (buttonUp_withFlags ev) hl

/-- Witness of the amended C10 on the placed `freshChild`: it is a fixed point of
the placement, and a button-down at (10, 10) reaches its child with or without a
further placement. -/
theorem handlers_use_stored_placement_witness :
    freshChild.AdjustEntryPlacement.AdjustEntryPlacement = freshChild.AdjustEntryPlacement ∧
    (freshChild.AdjustEntryPlacement.onMouseButtonDown leftAt10).calls =
      [⟨0, Handler.onMouseButtonDown⟩] ∧
    (freshChild.AdjustEntryPlacement.onMouseButtonDown leftAt10 =
        freshChild.AdjustEntryPlacement.AdjustEntryPlacement.onMouseButtonDown leftAt10 ∧
      (freshChild.AdjustEntryPlacement.onMouseButtonDown leftAt10).layout.AdjustEntryPlacement =
        (freshChild.AdjustEntryPlacement.onMouseButtonDown leftAt10).layout) :=
  ⟨by decide, by decide,
    ((handlers_use_stored_placement freshChild.AdjustEntryPlacement).2.1 (by decide)).2.1
      leftAt10⟩

/-! ## Pointer dispatch: per-entry view of the call log -/

theorem callsOn_append (i : Nat) (a b : List Call) :
    callsOn i (a ++ b) = callsOn i a ++ callsOn i b := by
  simp [callsOn]

theorem callsOn_eq_nil_of_lt (i : Nat) (cs : List Call) (h : ∀ c ∈ cs, i < c.entry) :
    callsOn i cs = [] := by
  unfold callsOn
  rw [List.map_eq_nil_iff, List.filter_eq_nil_iff]
  intro c hc
  have := h c hc
  simp only [decide_eq_true_eq]
  omega

theorem callsOn_map_mk_self (i : Nat) (hs : List Handler) :
    callsOn i (hs.map (Call.mk i)) = hs := by
  induction hs with
  | nil => rfl
  | cons h rest ih =>
    simp only [callsOn, List.map_cons] at ih ⊢
    rw [List.filter_cons_of_pos (by simp), List.map_cons, ih]

theorem callsOn_map_mk_ne (i j : Nat) (hij : j ≠ i) (hs : List Handler) :
    callsOn i (hs.map (Call.mk j)) = [] := by
  unfold callsOn
  rw [List.map_eq_nil_iff, List.filter_eq_nil_iff]
  intro c hc
  obtain ⟨h, _, rfl⟩ := List.mem_map.1 hc
  simpa using hij

/-- The calls the dispatch loop makes on the entry at position `j` are exactly the
calls of the loop body on that entry. -/
theorem callsOn_dispatchEntries (body : layoutEntry → layoutEntry × List Handler) (i0 : Nat)
    (es : List layoutEntry) (j : Nat) (e : layoutEntry) (hj : es[j]? = some e) :
    callsOn (i0 + j) (dispatchEntries body i0 es).2 = (body e).2 := by
  induction es generalizing i0 j with
  | nil => simp at hj
  | cons e0 rest ih =>
    simp only [dispatchEntries]
    rw [callsOn_append]
    cases j with
    | zero =>
      simp only [List.getElem?_cons_zero, Option.some.injEq] at hj
      subst hj
      rw [Nat.add_zero, callsOn_map_mk_self, callsOn_eq_nil_of_lt, List.append_nil]
      intro c hc
      obtain ⟨k, _, _, hidx, _⟩ := dispatchEntries_call body (i0 + 1) rest c hc
      omega
    | succ k =>
      simp only [List.getElem?_cons_succ] at hj
      rw [callsOn_map_mk_ne _ _ (by omega), List.nil_append]
      have := ih (i0 + 1) k hj
      rw [show i0 + 1 + k = i0 + (k + 1) by omega] at this
      exact this

theorem onMouseMove_entry (l : Layout) (ev : MouseMoveEvent) (i : Nat) (e : layoutEntry)
    (hi : l.entries[i]? = some e) :
    (l.onMouseMove ev).layout.entries[i]? = some (e.mouseMove ev).1 ∧
      callsOn i (l.onMouseMove ev).calls = (e.mouseMove ev).2 := by
  constructor
  · rw [onMouseMove_layout]
    simp [hi]
  · have := callsOn_dispatchEntries (layoutEntry.mouseMove ev) 0 l.entries i e hi
    rw [Nat.zero_add] at this
    exact this

theorem onMouseButtonDown_entry (l : Layout) (ev : MouseEvent) (i : Nat) (e : layoutEntry)
    (hi : l.entries[i]? = some e) :
    (l.onMouseButtonDown ev).layout.entries[i]? = some (e.buttonDown ev).1 ∧
      callsOn i (l.onMouseButtonDown ev).calls = (e.buttonDown ev).2 := by
  constructor
  · rw [onMouseButtonDown_layout]
    simp [hi]
  · have := callsOn_dispatchEntries (layoutEntry.buttonDown ev) 0 l.entries i e hi
    rw [Nat.zero_add] at this
    exact this

theorem onMouseButtonUp_entry (l : Layout) (ev : MouseEvent) (i : Nat) (e : layoutEntry)
    (hi : l.entries[i]? = some e) :
    (l.onMouseButtonUp ev).layout.entries[i]? = some (e.buttonUp ev).1 ∧
      callsOn i (l.onMouseButtonUp ev).calls = (e.buttonUp ev).2 := by
  constructor
  · rw [onMouseButtonUp_layout]
    simp [hi]
  · have := callsOn_dispatchEntries (layoutEntry.buttonUp ev) 0 l.entries i e hi
    rw [Nat.zero_add] at this
    exact this

theorem onMouseMoves_entry (evs : List MouseMoveEvent) (l : Layout) (i : Nat) (e : layoutEntry)
    (hi : l.entries[i]? = some e) :
    (onMouseMoves evs l).1.entries[i]? = some (mouseMoves evs e).1 ∧
      callsOn i (onMouseMoves evs l).2 = (mouseMoves evs e).2 := by
  induction evs generalizing l e with
  | nil => exact ⟨hi, rfl⟩
  | cons ev rest ih =>
    obtain ⟨h1, h2⟩ := onMouseMove_entry l ev i e hi
    obtain ⟨h3, h4⟩ := ih _ _ h1
    simp only [onMouseMoves, mouseMoves]
    exact ⟨h3, by rw [callsOn_append, h2, h4]⟩

/-! ## The hover state machine of one entry -/

theorem mouseMove_IsIn (ev : MouseMoveEvent) (e : layoutEntry) (p : HandlerEvent) :
    (e.mouseMove ev).1.IsIn p = e.IsIn p := by
  unfold layoutEntry.mouseMove
  split
  · rfl
  · split <;> rfl

theorem mouseMove_mouseOver (ev : MouseMoveEvent) (e : layoutEntry) :
    (e.mouseMove ev).1.mouseOver = e.IsIn ev.toHandlerEvent := by
  unfold layoutEntry.mouseMove
  by_cases h : e.IsIn ev.toHandlerEvent = true
  · rw [if_pos h, h]
  · rw [if_neg h]
    have hf : e.IsIn ev.toHandlerEvent = false := by simpa using h
    by_cases h2 : e.mouseOver = true
    · rw [if_pos h2, hf]
    · rw [if_neg h2, hf]
      simpa using h2

theorem mouseMove_calls (ev : MouseMoveEvent) (e : layoutEntry) :
    (e.mouseMove ev).2 =
      if e.IsIn ev.toHandlerEvent then
        if e.mouseOver then [Handler.onMouseMove, Handler.onMouseOver]
        else [Handler.onMouseMove, Handler.onMouseEnter]
      else if e.mouseOver then [Handler.onMouseLeave] else [] := by
  unfold layoutEntry.mouseMove
  split
  · rfl
  · split <;> rfl

theorem mouseMoves_IsIn (evs : List MouseMoveEvent) (e : layoutEntry) (p : HandlerEvent) :
    (mouseMoves evs e).1.IsIn p = e.IsIn p := by
  induction evs generalizing e with
  | nil => rfl
  | cons ev rest ih =>
    simp only [mouseMoves]
    rw [ih, mouseMove_IsIn]

theorem mouseMoves_mouseOver (evs : List MouseMoveEvent) (e : layoutEntry) :
    (mouseMoves evs e).1.mouseOver =
      match evs.getLast? with
      | none => e.mouseOver
      | some ev => e.IsIn ev.toHandlerEvent := by
  induction evs generalizing e with
  | nil => rfl
  | cons ev rest ih =>
    simp only [mouseMoves]
    rw [ih]
    cases rest with
    | nil => simp [mouseMove_mouseOver]
    | cons ev2 rest2 =>
      rw [List.getLast?_cons_cons]
      cases hlast : (ev2 :: rest2).getLast? with
      | none => simp at hlast
      | some q => simp [mouseMove_IsIn]

/-- Over any sequence of moves the enter and leave calls on an entry alternate,
beginning with a leave if the entry starts hovered and with an enter if not. -/
theorem mouseMoves_alternating (evs : List MouseMoveEvent) (e : layoutEntry) :
    alternating e.mouseOver ((mouseMoves evs e).2.filter isEnterOrLeave) = true := by
  induction evs generalizing e with
  | nil => cases e.mouseOver <;> rfl
  | cons ev rest ih =>
    have hrest := ih (e.mouseMove ev).1
    rw [mouseMove_mouseOver] at hrest
    simp only [mouseMoves, List.filter_append]
    rw [mouseMove_calls]
    cases hin : e.IsIn ev.toHandlerEvent <;> cases hov : e.mouseOver <;>
      rw [hin] at hrest <;> simp [isEnterOrLeave, alternating, hrest]

/-- C11: the hover state machine.  For an entry that starts not hovered, the
`onMouseMove` sequence outside, inside, inside, outside invokes on its widget
nothing, then move and enter, then move and over, then leave: exactly one enter,
one over and one leave, and the hover flag ends false.  Over any sequence of
moves the enter and leave calls on the entry alternate starting with an enter;
before each move the hover flag tells whether the previous move was inside, and
the move invokes enter exactly when the flag is clear and the move is inside
(outside to inside), leave exactly when the flag is set and the move is outside
(inside to outside). -/
theorem hover_state_machine (l : Layout) (i : Nat) (e : layoutEntry)
    (hi : l.entries[i]? = some e) (hover : e.mouseOver = false) :
    (∀ out1 in1 in2 out2 : MouseMoveEvent,
      e.IsIn out1.toHandlerEvent = false → e.IsIn in1.toHandlerEvent = true →
      e.IsIn in2.toHandlerEvent = true → e.IsIn out2.toHandlerEvent = false →
      callsOn i (l.onMouseMove out1).calls = [] ∧
      callsOn i ((onMouseMoves [out1] l).1.onMouseMove in1).calls =
        [Handler.onMouseMove, Handler.onMouseEnter] ∧
      callsOn i ((onMouseMoves [out1, in1] l).1.onMouseMove in2).calls =
        [Handler.onMouseMove, Handler.onMouseOver] ∧
      callsOn i ((onMouseMoves [out1, in1, in2] l).1.onMouseMove out2).calls =
        [Handler.onMouseLeave] ∧
      callsOn i (onMouseMoves [out1, in1, in2, out2] l).2 =
        [Handler.onMouseMove, Handler.onMouseEnter, Handler.onMouseMove, Handler.onMouseOver,
          Handler.onMouseLeave] ∧
      ∃ e4, (onMouseMoves [out1, in1, in2, out2] l).1.entries[i]? = some e4 ∧
        e4.mouseOver = false) ∧
    (∀ evs : List MouseMoveEvent,
      alternating false ((callsOn i (onMouseMoves evs l).2).filter isEnterOrLeave) = true ∧
      ∃ e1, (onMouseMoves evs l).1.entries[i]? = some e1 ∧
        e1.mouseOver = lastInside e evs ∧
        ∀ ev : MouseMoveEvent,
          (Handler.onMouseEnter ∈ callsOn i ((onMouseMoves evs l).1.onMouseMove ev).calls ↔
            lastInside e evs = false ∧ e.IsIn ev.toHandlerEvent = true) ∧
          (Handler.onMouseLeave ∈ callsOn i ((onMouseMoves evs l).1.onMouseMove ev).calls ↔
            lastInside e evs = true ∧ e.IsIn ev.toHandlerEvent = false)) := by
  have hlast : ∀ evs : List MouseMoveEvent, (mouseMoves evs e).1.mouseOver = lastInside e evs := by
    intro evs
    rw [mouseMoves_mouseOver]
    unfold lastInside
    cases evs.getLast? with
    | none => exact hover
    | some q => rfl
  have hstep : ∀ (evs : List MouseMoveEvent) (ev : MouseMoveEvent),
      callsOn i ((onMouseMoves evs l).1.onMouseMove ev).calls =
        if e.IsIn ev.toHandlerEvent then
          if lastInside e evs then [Handler.onMouseMove, Handler.onMouseOver]
          else [Handler.onMouseMove, Handler.onMouseEnter]
        else if lastInside e evs then [Handler.onMouseLeave] else [] := by
    intro evs ev
    rw [(onMouseMove_entry _ ev i _ (onMouseMoves_entry evs l i e hi).1).2, mouseMove_calls,
      mouseMoves_IsIn, hlast]
  refine ⟨fun out1 in1 in2 out2 ho1 hi1 hi2 ho2 => ⟨?_, ?_, ?_, ?_, ?_, ?_⟩, fun evs => ⟨?_, ?_⟩⟩
  · have h := hstep [] out1
    simpa [onMouseMoves, lastInside, ho1] using h
  · rw [hstep]
    simp [lastInside, ho1, hi1]
  · rw [hstep]
    simp [lastInside, hi1, hi2]
  · rw [hstep]
    simp [lastInside, hi2, ho2]
  · rw [(onMouseMoves_entry _ l i e hi).2]
    simp [mouseMoves, mouseMove_calls, mouseMove_IsIn, mouseMove_mouseOver, hover, ho1, hi1,
      hi2, ho2]
  · refine ⟨_, (onMouseMoves_entry _ l i e hi).1, ?_⟩
    rw [hlast]
    simp [lastInside, ho2]
  · rw [(onMouseMoves_entry evs l i e hi).2]
    have h := mouseMoves_alternating evs e
    rw [hover] at h
    exact h
  · refine ⟨_, (onMouseMoves_entry evs l i e hi).1, hlast evs, fun ev => ?_⟩
    rw [hstep]
    cases e.IsIn ev.toHandlerEvent <;> cases lastInside e evs <;> simp

/-- Witness of C11 on `placedChild`: the moves (70, 70), (10, 10), (20, 20),
(70, 70) are outside, inside, inside, outside its 50x50 child. -/
theorem hover_state_machine_witness :
    placedChild.entries[0]? = some placedChildEntry ∧ placedChildEntry.mouseOver = false ∧
    placedChildEntry.IsIn moveTo70.toHandlerEvent = false ∧
    placedChildEntry.IsIn moveTo10.toHandlerEvent = true ∧
    placedChildEntry.IsIn moveTo20.toHandlerEvent = true ∧
    callsOn 0 (onMouseMoves [moveTo70, moveTo10, moveTo20, moveTo70] placedChild).2 =
      [Handler.onMouseMove, Handler.onMouseEnter, Handler.onMouseMove, Handler.onMouseOver,
        Handler.onMouseLeave] :=
  ⟨by decide, by decide, by decide, by decide, by decide,
    ((hover_state_machine placedChild 0 placedChildEntry (by decide) (by decide)).1
      moveTo70 moveTo10 moveTo20 moveTo70 (by decide) (by decide) (by decide)
      (by decide)).2.2.2.2.1⟩

/-! ## Press flags and clicks -/

theorem PressFlags.get_set_self (p : PressFlags) (b : MouseButton) (v : Bool) :
    (p.set b v).get b = v := by
  cases b <;> rfl

theorem buttonDown_IsIn (ev : MouseEvent) (e : layoutEntry) (p : HandlerEvent) :
    (e.buttonDown ev).1.IsIn p = e.IsIn p := by
  unfold layoutEntry.buttonDown
  split <;> rfl

theorem buttonDown_of_IsIn (ev : MouseEvent) (e : layoutEntry)
    (h : e.IsIn ev.toHandlerEvent = true) :
    e.buttonDown ev =
      ({ e with mouseDown := e.mouseDown.set ev.Button true }, [Handler.onMouseButtonDown]) := by
  simp [layoutEntry.buttonDown, h]

theorem buttonUp_calls (ev : MouseEvent) (e : layoutEntry) :
    (e.buttonUp ev).2 =
      if e.IsIn ev.toHandlerEvent then
        if e.mouseDown.get ev.Button then [Handler.onMouseButtonClick, Handler.onMouseButtonUp]
        else []
      else [] := rfl

theorem buttonUp_mouseDown (ev : MouseEvent) (e : layoutEntry) :
    (e.buttonUp ev).1.mouseDown.get ev.Button = false :=
  PressFlags.get_set_self _ _ _

theorem click_mem_buttonUp_iff (ev : MouseEvent) (e : layoutEntry) :
    Handler.onMouseButtonClick ∈ (e.buttonUp ev).2 ↔
      e.IsIn ev.toHandlerEvent = true ∧ e.mouseDown.get ev.Button = true := by
  rw [buttonUp_calls]
  cases e.IsIn ev.toHandlerEvent <;> cases e.mouseDown.get ev.Button <;> simp

/-- C12: click correctness.  For every entry A and button b, an
`onMouseButtonDown` for b at a point inside A's rectangle followed by an
`onMouseButtonUp` for b at a point inside A's rectangle invokes on A's widget,
during the up, exactly one `onMouseButtonClick` followed by exactly one
`onMouseButtonUp`, and leaves A's pressed flag for b false. -/
theorem click_after_down_up_inside (l : Layout) (i : Nat) (A : layoutEntry)
    (hi : l.entries[i]? = some A) (down up : MouseEvent) (hb : down.Button = up.Button)
    (hd : A.IsIn down.toHandlerEvent = true) (hu : A.IsIn up.toHandlerEvent = true) :
    callsOn i (l.onMouseButtonDown down).calls = [Handler.onMouseButtonDown] ∧
    callsOn i ((l.onMouseButtonDown down).layout.onMouseButtonUp up).calls =
      [Handler.onMouseButtonClick, Handler.onMouseButtonUp] ∧
    ∃ A2, ((l.onMouseButtonDown down).layout.onMouseButtonUp up).layout.entries[i]? = some A2 ∧
      A2.mouseDown.get up.Button = false := by
  obtain ⟨h1, h2⟩ := onMouseButtonDown_entry l down i A hi
  obtain ⟨h3, h4⟩ := onMouseButtonUp_entry _ up i _ h1
  refine ⟨?_, ?_, _, h3, buttonUp_mouseDown _ _⟩
  · rw [h2, buttonDown_of_IsIn down A hd]
  · rw [h4, buttonUp_calls, buttonDown_IsIn, hu, buttonDown_of_IsIn down A hd, hb]
    simp [PressFlags.get_set_self]

/-- Witness of C12 on `placedChild`: a left button-down and a left button-up at
(10, 10), inside its 50x50 child. -/
theorem click_after_down_up_inside_witness :
    placedChild.entries[0]? = some placedChildEntry ∧
    placedChildEntry.IsIn leftAt10.toHandlerEvent = true ∧
    callsOn 0 ((placedChild.onMouseButtonDown leftAt10).layout.onMouseButtonUp leftAt10).calls =
      [Handler.onMouseButtonClick, Handler.onMouseButtonUp] :=
  ⟨by decide, by decide,
    (click_after_down_up_inside placedChild 0 placedChildEntry (by decide) leftAt10 leftAt10 rfl
      (by decide) (by decide)).2.1⟩

/-- C13, as stated, fails in its last part: in `secondPressed` the second child B
already carries the pressed flag of the left button (a button-down over B that
no button-up followed); a button-down over the first child A, outside B, and then
a button-up over B, outside A, invokes `onMouseButtonClick` on B. -/
theorem down_A_up_B_no_click_counterexample :
    secondPressed.entries = [firstStacked false, secondStacked true] ∧
    (secondPressed.onMouseButtonDown leftAt10).calls = [⟨0, Handler.onMouseButtonDown⟩] ∧
    ((secondPressed.onMouseButtonDown leftAt10).layout.onMouseButtonUp leftAt60).calls =
      [⟨1, Handler.onMouseButtonClick⟩, ⟨1, Handler.onMouseButtonUp⟩] ∧
    ¬ ∀ (l : Layout) (iA iB : Nat) (A B : layoutEntry) (down up : MouseEvent),
      l.entries[iA]? = some A → l.entries[iB]? = some B → down.Button = up.Button →
      A.IsIn down.toHandlerEvent = true → B.IsIn down.toHandlerEvent = false →
      B.IsIn up.toHandlerEvent = true → A.IsIn up.toHandlerEvent = false →
      Handler.onMouseButtonClick ∉
        callsOn iA ((l.onMouseButtonDown down).layout.onMouseButtonUp up).calls ∧
      Handler.onMouseButtonClick ∉
        callsOn iB ((l.onMouseButtonDown down).layout.onMouseButtonUp up).calls := by
  refine ⟨by decide, by decide, by decide, fun h => ?_⟩
  have h1 := (h secondPressed 0 1 (firstStacked false) (secondStacked true) leftAt10 leftAt60
    (by decide) (by decide) rfl (by decide) (by decide) (by decide) (by decide)).2
  revert h1
  decide

/-- C13, amended: after a button-up for button b the pressed flag for b is false
on every entry of the layout, inside the event or not, and an entry receives
`onMouseButtonClick` exactly when the event is inside its rectangle and its
pressed flag for b was set.  A down over entry A (outside B) followed by an up
over entry B (outside A) invokes `onMouseButtonClick` on A in no case and on B
exactly when B's pressed flag for b was set before the down; so with that flag
clear it invokes it on neither, and both are left with the pressed flag
cleared. -/
theorem button_up_clears_and_clicks (l : Layout) :
    (∀ up : MouseEvent,
      (∀ e2 ∈ (l.onMouseButtonUp up).layout.entries, e2.mouseDown.get up.Button = false) ∧
      ∀ (i : Nat) (e : layoutEntry), l.entries[i]? = some e →
        (Handler.onMouseButtonClick ∈ callsOn i (l.onMouseButtonUp up).calls ↔
          e.IsIn up.toHandlerEvent = true ∧ e.mouseDown.get up.Button = true)) ∧
    (∀ (iA iB : Nat) (A B : layoutEntry) (down up : MouseEvent),
      l.entries[iA]? = some A → l.entries[iB]? = some B → down.Button = up.Button →
      A.IsIn down.toHandlerEvent = true → B.IsIn down.toHandlerEvent = false →
      B.IsIn up.toHandlerEvent = true → A.IsIn up.toHandlerEvent = false →
      Handler.onMouseButtonClick ∉ callsOn iA (l.onMouseButtonDown down).calls ∧
      Handler.onMouseButtonClick ∉ callsOn iB (l.onMouseButtonDown down).calls ∧
      Handler.onMouseButtonClick ∉
        callsOn iA ((l.onMouseButtonDown down).layout.onMouseButtonUp up).calls ∧
      (Handler.onMouseButtonClick ∈
          callsOn iB ((l.onMouseButtonDown down).layout.onMouseButtonUp up).calls ↔
        B.mouseDown.get up.Button = true) ∧
      (B.mouseDown.get up.Button = false →
        Handler.onMouseButtonClick ∉
          callsOn iB ((l.onMouseButtonDown down).layout.onMouseButtonUp up).calls) ∧
      ∃ A2 B2,
        ((l.onMouseButtonDown down).layout.onMouseButtonUp up).layout.entries[iA]? = some A2 ∧
        ((l.onMouseButtonDown down).layout.onMouseButtonUp up).layout.entries[iB]? = some B2 ∧
        A2.mouseDown.get up.Button = false ∧ B2.mouseDown.get up.Button = false) := by
  refine ⟨fun up => ⟨fun e2 he2 => ?_, fun i e hi => ?_⟩,
    fun iA iB A B down up hA hB hb hAd hBd hBu hAu => ?_⟩
  · rw [onMouseButtonUp_layout] at he2
    obtain ⟨e0, _, rfl⟩ := List.mem_map.1 he2
    exact buttonUp_mouseDown _ _
  · rw [(onMouseButtonUp_entry l up i e hi).2]
    exact click_mem_buttonUp_iff up e
  · obtain ⟨hA1, hA2⟩ := onMouseButtonDown_entry l down iA A hA
    obtain ⟨hB1, hB2⟩ := onMouseButtonDown_entry l down iB B hB
    obtain ⟨hA3, hA4⟩ := onMouseButtonUp_entry _ up iA _ hA1
    obtain ⟨hB3, hB4⟩ := onMouseButtonUp_entry _ up iB _ hB1
    have hBsame : (B.buttonDown down).1 = B := by
      rw [buttonDown_of_not_IsIn down B hBd]
    have hBiff : Handler.onMouseButtonClick ∈
        callsOn iB ((l.onMouseButtonDown down).layout.onMouseButtonUp up).calls ↔
        B.mouseDown.get up.Button = true := by
      rw [hB4, click_mem_buttonUp_iff, hBsame, hBu]
      simp
    refine ⟨?_, ?_, ?_, hBiff, fun hclear => ?_, _, _, hA3, hB3, buttonUp_mouseDown _ _,
      buttonUp_mouseDown _ _⟩
    · rw [hA2, buttonDown_of_IsIn down A hAd]
      simp
    · rw [hB2, buttonDown_of_not_IsIn down B hBd]
      simp
    · rw [hA4, click_mem_buttonUp_iff, buttonDown_IsIn, hAu]
      simp
    · rw [hBiff, hclear]
      simp

/-- Witness of the amended C13 on `twoStacked`, where no press flag is set: a left
button-down over the first child and a left button-up over the second invoke
`onMouseButtonClick` on neither. -/
theorem button_up_clears_and_clicks_witness :
    twoStacked.entries[0]? = some (firstStacked false) ∧
    twoStacked.entries[1]? = some (secondStacked false) ∧
    (firstStacked false).IsIn leftAt10.toHandlerEvent = true ∧
    (secondStacked false).IsIn leftAt10.toHandlerEvent = false ∧
    (secondStacked false).IsIn leftAt60.toHandlerEvent = true ∧
    (firstStacked false).IsIn leftAt60.toHandlerEvent = false ∧
    (secondStacked false).mouseDown.get leftAt60.Button = false ∧
    Handler.onMouseButtonClick ∉
      callsOn 0 ((twoStacked.onMouseButtonDown leftAt10).layout.onMouseButtonUp leftAt60).calls ∧
    Handler.onMouseButtonClick ∉
      callsOn 1 ((twoStacked.onMouseButtonDown leftAt10).layout.onMouseButtonUp leftAt60).calls :=
  ⟨by decide, by decide, by decide, by decide, by decide, by decide, by decide,
    ((button_up_clears_and_clicks twoStacked).2 0 1 (firstStacked false) (secondStacked false)
      leftAt10 leftAt60 (by decide) (by decide) rfl (by decide) (by decide) (by decide)
      (by decide)).2.2.1,
    ((button_up_clears_and_clicks twoStacked).2 0 1 (firstStacked false) (secondStacked false)
      leftAt10 leftAt60 (by decide) (by decide) rfl (by decide) (by decide) (by decide)
      (by decide)).2.2.2.2.1 (by decide)⟩

/-! ## Overlapping entries -/

theorem placeEntry_absolute (l : Layout) (hpt : l.positionType = PositionTypeAbsolute)
    (size expander : Int × Int) (ox oy : Int) (e : layoutEntry) :
    (l.placeEntry size expander ox oy e).2 = (ox, oy) ∧
      (l.placeEntry size expander ox oy e).1.widget.ScreenPos =
        (wrap (e.widget.getPosition.1 + l.ScreenPos.1),
          wrap (e.widget.getPosition.2 + l.ScreenPos.2)) := by
  unfold Layout.placeEntry
  rw [hpt]
  exact ⟨rfl, rfl⟩

/-- C14, as stated, fails: in `overlapping` the move, button-down and button-up at
(10, 10) reach both children; the button-up invokes `onMouseButtonClick` on the
earlier-inserted child as well, before the later-inserted one. -/
theorem overlap_click_counterexample :
    (overlapping.entries.map fun e => (e.widget.ScreenPos, e.rect)) =
      [((0, 0), (0, 0, 50, 50)), ((0, 0), (0, 0, 50, 50))] ∧
    ((((overlapping.onMouseMove moveTo10).layout.onMouseButtonDown leftAt10).layout.onMouseButtonUp
      leftAt10).calls) =
      [⟨0, Handler.onMouseButtonClick⟩, ⟨0, Handler.onMouseButtonUp⟩,
        ⟨1, Handler.onMouseButtonClick⟩, ⟨1, Handler.onMouseButtonUp⟩] ∧
    ¬ (Handler.onMouseButtonClick ∈ callsOn 1
        ((((overlapping.onMouseMove moveTo10).layout.onMouseButtonDown
          leftAt10).layout.onMouseButtonUp leftAt10).calls) ∧
      Handler.onMouseButtonClick ∉ callsOn 0
        ((((overlapping.onMouseMove moveTo10).layout.onMouseButtonDown
          leftAt10).layout.onMouseButtonUp leftAt10).calls)) := by
  refine ⟨by decide, by decide, ?_⟩
  decide

/-- C14, amended: in an Absolute-mode layout at screen position (0, 0) holding two
visible 50x50 children both positioned at (0, 0), after placement the event
sequence move (to (10, 10) or anywhere else), button-down at (10, 10), button-up
at (10, 10) (same button) makes the button-up invoke exactly four child handlers,
in this order: `onMouseButtonClick` then `onMouseButtonUp` on the
earlier-inserted child, then `onMouseButtonClick` then `onMouseButtonUp` on the
later-inserted child.  Each of the two children so receives exactly one click
followed by one up: no hit is absorbed by the other child. -/
theorem overlap_click_both (l : Layout) (e1 e2 : layoutEntry)
    (hpt : l.positionType = PositionTypeAbsolute) (hsp : l.ScreenPos = (0, 0))
    (hes : l.entries = [e1, e2])
    (h1 : e1.widget.isVisible = true ∧ e1.widget.isExpanding = false ∧
      e1.widget.getSize = (50, 50) ∧ e1.widget.getPosition = (0, 0))
    (h2 : e2.widget.isVisible = true ∧ e2.widget.isExpanding = false ∧
      e2.widget.getSize = (50, 50) ∧ e2.widget.getPosition = (0, 0))
    (mv : MouseMoveEvent) (down up : MouseEvent) (hb : down.Button = up.Button)
    (hdn : down.x = 10 ∧ down.y = 10) (hup : up.x = 10 ∧ up.y = 10) :
    (((l.AdjustEntryPlacement.onMouseMove mv).layout.onMouseButtonDown
        down).layout.onMouseButtonUp up).calls =
      [⟨0, Handler.onMouseButtonClick⟩, ⟨0, Handler.onMouseButtonUp⟩,
        ⟨1, Handler.onMouseButtonClick⟩, ⟨1, Handler.onMouseButtonUp⟩] ∧
    callsOn 0 ((((l.AdjustEntryPlacement.onMouseMove mv).layout.onMouseButtonDown
        down).layout.onMouseButtonUp up).calls) =
      [Handler.onMouseButtonClick, Handler.onMouseButtonUp] ∧
    callsOn 1 ((((l.AdjustEntryPlacement.onMouseMove mv).layout.onMouseButtonDown
        down).layout.onMouseButtonUp up).calls) =
      [Handler.onMouseButtonClick, Handler.onMouseButtonUp] := by
  obtain ⟨v1, x1, s1, p1⟩ := h1
  obtain ⟨v2, x2, s2, p2⟩ := h2
  have hent : l.AdjustEntryPlacement.entries =
      [(l.placeEntry l.getSize l.expanderSize 0 0 e1).1,
        (l.placeEntry l.getSize l.expanderSize 0 0 e2).1] := by
    simp [Layout.AdjustEntryPlacement, hes, Layout.placeEntries, v1, v2,
      (placeEntry_absolute l hpt _ _ _ _ _).1]
  have hin : ∀ (e : layoutEntry), e.widget.isExpanding = false → e.widget.getSize = (50, 50) →
      e.widget.getPosition = (0, 0) → ∀ p : HandlerEvent, p.x = 10 ∧ p.y = 10 →
      (l.placeEntry l.getSize l.expanderSize 0 0 e).1.IsIn p = true := by
    intro e hx hs hp p hxy
    unfold layoutEntry.IsIn Rectangle.IsInRect
    rw [(placeEntry_absolute l hpt _ _ _ _ _).2, placeEntry_width, placeEntry_height, hsp, hp]
    simp [placedSize, hx, hs, HandlerEvent.X, HandlerEvent.Y, hxy.1, hxy.2, wrap]
  have hbody : ∀ q : layoutEntry, (∀ p : HandlerEvent, p.x = 10 ∧ p.y = 10 → q.IsIn p = true) →
      (((q.mouseMove mv).1.buttonDown down).1.buttonUp up).2 =
        [Handler.onMouseButtonClick, Handler.onMouseButtonUp] := by
    intro q hqin
    have hd : (q.mouseMove mv).1.IsIn down.toHandlerEvent = true := by
      rw [mouseMove_IsIn]; exact hqin _ hdn
    rw [buttonUp_calls, buttonDown_IsIn, mouseMove_IsIn, hqin _ hup,
      buttonDown_of_IsIn down _ hd, hb]
    simp [PressFlags.get_set_self]
  have hone : ∀ (i : Nat) (q : layoutEntry), l.AdjustEntryPlacement.entries[i]? = some q →
      (∀ p : HandlerEvent, p.x = 10 ∧ p.y = 10 → q.IsIn p = true) →
      callsOn i ((((l.AdjustEntryPlacement.onMouseMove mv).layout.onMouseButtonDown
          down).layout.onMouseButtonUp up).calls) =
        [Handler.onMouseButtonClick, Handler.onMouseButtonUp] := by
    intro i q hq hqin
    obtain ⟨a1, _⟩ := onMouseMove_entry _ mv i q hq
    obtain ⟨a2, _⟩ := onMouseButtonDown_entry _ down i _ a1
    obtain ⟨_, a4⟩ := onMouseButtonUp_entry _ up i _ a2
    rw [a4]
    exact hbody q hqin
  have hes2 : ((l.AdjustEntryPlacement.onMouseMove mv).layout.onMouseButtonDown
      down).layout.entries =
      [(((l.placeEntry l.getSize l.expanderSize 0 0 e1).1.mouseMove mv).1.buttonDown down).1,
        (((l.placeEntry l.getSize l.expanderSize 0 0 e2).1.mouseMove mv).1.buttonDown down).1] := by
    rw [onMouseButtonDown_layout, onMouseMove_layout]
    simp [hent]
  refine ⟨?_, ?_, ?_⟩
  · show (dispatchEntries (layoutEntry.buttonUp up) 0
        ((l.AdjustEntryPlacement.onMouseMove mv).layout.onMouseButtonDown
          down).layout.entries).2 = _
    rw [hes2]
    simp [dispatchEntries, hbody _ (hin e1 x1 s1 p1), hbody _ (hin e2 x2 s2 p2)]
  · exact hone 0 _ (by rw [hent]; rfl) (hin e1 x1 s1 p1)
  · exact hone 1 _ (by rw [hent]; rfl) (hin e2 x2 s2 p2)

/-- Witness of the amended C14 on `overlapping`, built with `createLayout` and two
appends of 50x50 widgets: the button-up reaches the earlier-inserted child
first, then the later-inserted one. -/
theorem overlap_click_both_witness :
    ((createLayout PositionTypeAbsolute).addEntry (fixedWidget 50 50)).addEntry
        (fixedWidget 50 50) =
      { createLayout PositionTypeAbsolute with
        entries := [newEntry (fixedWidget 50 50), newEntry (fixedWidget 50 50)] } ∧
    (((overlapping.onMouseMove moveTo10).layout.onMouseButtonDown
        leftAt10).layout.onMouseButtonUp leftAt10).calls =
      [⟨0, Handler.onMouseButtonClick⟩, ⟨0, Handler.onMouseButtonUp⟩,
        ⟨1, Handler.onMouseButtonClick⟩, ⟨1, Handler.onMouseButtonUp⟩] ∧
    callsOn 0 ((((overlapping.onMouseMove moveTo10).layout.onMouseButtonDown
        leftAt10).layout.onMouseButtonUp leftAt10).calls) =
      [Handler.onMouseButtonClick, Handler.onMouseButtonUp] ∧
    callsOn 1 ((((overlapping.onMouseMove moveTo10).layout.onMouseButtonDown
        leftAt10).layout.onMouseButtonUp leftAt10).calls) =
      [Handler.onMouseButtonClick, Handler.onMouseButtonUp] :=
  ⟨by decide,
    overlap_click_both
      (((createLayout PositionTypeAbsolute).addEntry (fixedWidget 50 50)).addEntry
        (fixedWidget 50 50))
      (newEntry (fixedWidget 50 50)) (newEntry (fixedWidget 50 50)) (by decide) (by decide)
      (by decide) (by decide) (by decide) moveTo10 leftAt10 leftAt10 rfl (by decide)
      (by decide)⟩

/-! ## Content size and the order of the children -/

theorem foldl_max_max (xs : List Int) (a b : Int) :
    xs.foldl max (max a b) = max a (xs.foldl max b) := by
  induction xs generalizing b with
  | nil => rfl
  | cons c rest ih => rw [List.foldl_cons, List.foldl_cons, max_assoc, ih]

theorem specMax_cons_eq_foldl (a : Int) (xs : List Int) :
    specMax (a :: xs) = xs.foldl max a := by
  induction xs generalizing a with
  | nil => rfl
  | cons b rest ih =>
    rw [List.foldl_cons, foldl_max_max, ← ih b]
    rfl

theorem foldl_contentStep_vertical_fst (es : List layoutEntry) (acc : Int × Int) :
    (es.foldl (contentStep PositionTypeVertical) acc).1 =
      (es.map fun e => e.widget.getSize.1).foldl max acc.1 := by
  induction es generalizing acc with
  | nil => rfl
  | cons e rest ih =>
    rw [List.foldl_cons, ih]
    rfl

theorem foldl_contentStep_horizontal_snd (es : List layoutEntry) (acc : Int × Int) :
    (es.foldl (contentStep PositionTypeHorizontal) acc).2 =
      (es.map fun e => e.widget.getSize.2).foldl max acc.2 := by
  induction es generalizing acc with
  | nil => rfl
  | cons e rest ih =>
    rw [List.foldl_cons, ih]
    rfl

theorem foldl_max_perm (xs ys : List Int) (h : xs.Perm ys) (a : Int) :
    xs.foldl max a = ys.foldl max a :=
  h.foldl_eq' (fun x _ y _ z => by rw [max_assoc, max_comm x y, ← max_assoc]) a

theorem getContentSize_vertical (l : Layout) (hpt : l.positionType = PositionTypeVertical) :
    l.getContentSize =
      ((l.entries.map fun e => e.widget.getSize.1).foldl max 0,
        wrap (naturalHeights l.entries)) := by
  have h1 := foldl_contentStep_vertical_fst l.entries (0, 0)
  refine Prod.ext ?_ (getContentSize_snd_vertical l hpt)
  unfold Layout.getContentSize
  rw [hpt]
  exact h1

theorem getContentSize_horizontal (l : Layout)
    (hpt : l.positionType = PositionTypeHorizontal) :
    l.getContentSize =
      (wrap (naturalWidths l.entries),
        (l.entries.map fun e => e.widget.getSize.2).foldl max 0) := by
  have h2 := foldl_contentStep_horizontal_snd l.entries (0, 0)
  refine Prod.ext (getContentSize_fst_horizontal l hpt) ?_
  unfold Layout.getContentSize
  rw [hpt]
  exact h2

theorem map_fst_perm (es es2 : List layoutEntry)
    (h : (es2.map fun e => e.widget.getSize).Perm (es.map fun e => e.widget.getSize)) :
    (es2.map fun e => e.widget.getSize.1).Perm (es.map fun e => e.widget.getSize.1) := by
  have := h.map Prod.fst
  simpa [List.map_map, Function.comp] using this

theorem map_snd_perm (es es2 : List layoutEntry)
    (h : (es2.map fun e => e.widget.getSize).Perm (es.map fun e => e.widget.getSize)) :
    (es2.map fun e => e.widget.getSize.2).Perm (es.map fun e => e.widget.getSize.2) := by
  have := h.map Prod.snd
  simpa [List.map_map, Function.comp] using this

/-- C15, as stated, fails, in two ways.  The content width is a maximum that
starts from 0: the Vertical layout `narrowSpacer` holds one static spacer of
natural width -5 and its content width is 0, not -5.  The content height is a
64-bit sum: the Vertical layout `hugeStack` holds static spacers of natural
heights `MaxInt64`, 1 and 1 and its content height is `MinInt64 + 1`, not
`MaxInt64 + 2`. -/
theorem content_width_max_counterexample :
    (narrowSpacer.entries.map fun e => e.widget.getSize) = [(-5, 10)] ∧
    narrowSpacer.getContentSize = (0, 10) ∧
    specMax (narrowSpacer.entries.map fun e => e.widget.getSize.1) = -5 ∧
    (hugeStack.entries.map fun e => e.widget.getSize) =
      [(1, 9223372036854775807), (1, 1), (1, 1)] ∧
    hugeStack.getContentSize = (1, -9223372036854775807) ∧
    naturalHeights hugeStack.entries = 9223372036854775809 ∧
    (¬ ∀ l : Layout, l.positionType = PositionTypeVertical →
      l.getContentSize.1 = specMax (l.entries.map fun e => e.widget.getSize.1)) ∧
    ¬ ∀ l : Layout, l.positionType = PositionTypeVertical →
      l.getContentSize.2 = naturalHeights l.entries := by
  refine ⟨by decide, by decide, by decide, by decide, by decide, by decide, fun h => ?_,
    fun h => ?_⟩
  · have h1 := h narrowSpacer (by decide)
    revert h1
    decide
  · have h1 := h hugeStack (by decide)
    revert h1
    decide

/-- C15, amended: for every Vertical layout the content height is the 64-bit
reduction (`wrap`) of the sum of the children's natural heights, and is that sum
itself whenever the sum is within the 64-bit `int`; the content width is the
maximum of 0 and the children's natural widths, which is the maximum of the
widths when none of them is negative; both are the same for every Vertical
layout whose children have the same multiset of natural sizes, in particular for
every permutation of the children.  The mirrored statement holds for Horizontal
layouts. -/
theorem content_size_order_independent (l : Layout) :
    (l.positionType = PositionTypeVertical →
      l.getContentSize.2 = wrap (naturalHeights l.entries) ∧
      (inRange (naturalHeights l.entries) →
        l.getContentSize.2 = naturalHeights l.entries) ∧
      l.getContentSize.1 = specMax (0 :: l.entries.map fun e => e.widget.getSize.1) ∧
      ((∀ e ∈ l.entries, 0 ≤ e.widget.getSize.1) →
        l.getContentSize.1 = specMax (l.entries.map fun e => e.widget.getSize.1)) ∧
      ∀ l2 : Layout, l2.positionType = PositionTypeVertical →
        (l2.entries.map fun e => e.widget.getSize).Perm
          (l.entries.map fun e => e.widget.getSize) →
        l2.getContentSize = l.getContentSize) ∧
    (l.positionType = PositionTypeHorizontal →
      l.getContentSize.1 = wrap (naturalWidths l.entries) ∧
      (inRange (naturalWidths l.entries) →
        l.getContentSize.1 = naturalWidths l.entries) ∧
      l.getContentSize.2 = specMax (0 :: l.entries.map fun e => e.widget.getSize.2) ∧
      ((∀ e ∈ l.entries, 0 ≤ e.widget.getSize.2) →
        l.getContentSize.2 = specMax (l.entries.map fun e => e.widget.getSize.2)) ∧
      ∀ l2 : Layout, l2.positionType = PositionTypeHorizontal →
        (l2.entries.map fun e => e.widget.getSize).Perm
          (l.entries.map fun e => e.widget.getSize) →
        l2.getContentSize = l.getContentSize) := by
  refine ⟨fun hpt => ?_, fun hpt => ?_⟩
  · have hc := getContentSize_vertical l hpt
    refine ⟨by rw [hc], fun hr => by rw [hc]; exact wrap_of_inRange _ hr,
      by rw [hc, specMax_cons_eq_foldl], fun hnn => ?_, fun l2 hpt2 hperm => ?_⟩
    · have h := specMax_cons_of_nonneg 0 (l.entries.map fun e => e.widget.getSize.1) le_rfl (by
        intro x hx
        obtain ⟨e0, he0, rfl⟩ := List.mem_map.1 hx
        exact hnn e0 he0)
      rw [hc, ← specMax_cons_eq_foldl, h.1, max_eq_right h.2]
    · rw [hc, getContentSize_vertical l2 hpt2]
      unfold naturalHeights
      rw [foldl_max_perm _ _ (map_fst_perm _ _ hperm), (map_snd_perm _ _ hperm).sum_eq]
  · have hc := getContentSize_horizontal l hpt
    refine ⟨by rw [hc], fun hr => by rw [hc]; exact wrap_of_inRange _ hr,
      by rw [hc, specMax_cons_eq_foldl], fun hnn => ?_, fun l2 hpt2 hperm => ?_⟩
    · have h := specMax_cons_of_nonneg 0 (l.entries.map fun e => e.widget.getSize.2) le_rfl (by
        intro x hx
        obtain ⟨e0, he0, rfl⟩ := List.mem_map.1 hx
        exact hnn e0 he0)
      rw [hc, ← specMax_cons_eq_foldl, h.1, max_eq_right h.2]
    · rw [hc, getContentSize_horizontal l2 hpt2]
      unfold naturalWidths
      rw [foldl_max_perm _ _ (map_snd_perm _ _ hperm), (map_fst_perm _ _ hperm).sum_eq]

/-- Witness of the amended C15 on `threeSpacers` and a reordering of it: the
heights add up to 35, within the 64-bit range, no width is negative, and both
layouts have the content size (50, 35). -/
theorem content_size_order_independent_witness :
    threeSpacers.positionType = PositionTypeVertical ∧
    threeSpacersShuffled.positionType = PositionTypeVertical ∧
    (∀ e ∈ threeSpacers.entries, 0 ≤ e.widget.getSize.1) ∧
    specMax (threeSpacers.entries.map fun e => e.widget.getSize.1) = 50 ∧
    naturalHeights threeSpacers.entries = 35 ∧
    inRange (naturalHeights threeSpacers.entries) ∧
    threeSpacers.getContentSize.2 = naturalHeights threeSpacers.entries ∧
    threeSpacers.getContentSize.1 =
      specMax (threeSpacers.entries.map fun e => e.widget.getSize.1) ∧
    threeSpacersShuffled.getContentSize = threeSpacers.getContentSize :=
  ⟨by decide, by decide, by decide, by decide, by decide, by decide,
    ((content_size_order_independent threeSpacers).1 (by decide)).2.1 (by decide),
    ((content_size_order_independent threeSpacers).1 (by decide)).2.2.2.1 (by decide),
    ((content_size_order_independent threeSpacers).1 (by decide)).2.2.2.2 threeSpacersShuffled
      (by decide) (by decide)⟩

/-! ## Adding widgets -/

theorem getElem?_append_singleton_of_some (es : List layoutEntry) (x : layoutEntry) (i : Nat)
    (e : layoutEntry) (h : es[i]? = some e) : (es ++ [x])[i]? = some e := by
  have hlt : i < es.length := by
    rcases Nat.lt_or_ge i es.length with h1 | h1
    · exact h1
    · rw [List.getElem?_eq_none h1] at h
      exact absurd h (by simp)
  rw [List.getElem?_append_left hlt]
  exact h

theorem addedAtomically_error {ε : Type} (l : Layout) (err : ε) :
    addedAtomically l (Except.error err) { layout := l, widget := none, err := some err } :=
  ⟨rfl, rfl, rfl⟩

theorem addedAtomically_ok {ε : Type} (l : Layout) (w : widget) :
    @addedAtomically ε l (Except.ok w)
      { layout := { l with entries := l.entries ++ [newEntry w] },
        widget := some w, err := none } :=
  ⟨rfl, rfl, rfl, by simp, fun i e h => getElem?_append_singleton_of_some _ _ i e h⟩

/-- C16: add-widget atomicity.  For `AddSprite`, `AddAnimatedSprite`, `AddLabel`
and `AddButton`: when widget construction fails the error is returned, no widget
is returned and the layout is unchanged; when it succeeds the widget is returned
without error and exactly one entry wrapping it, with zero rectangle and cleared
hover and pressed flags, is appended after the existing entries, which keep
their order and state. -/
theorem add_widget_atomic {ε δ σ σ2 : Type} (l : Layout)
    (createSprite : String → String → Except ε widget)
    (createAnimatedSprite : String → String → δ → Except ε widget)
    (createLabel : String → σ → Except ε widget)
    (createButton : String → σ2 → Except ε widget)
    (imagePath palettePath text : String) (direction : δ) (fontStyle : σ) (buttonStyle : σ2) :
    addedAtomically l (createSprite imagePath palettePath)
      (l.AddSprite createSprite imagePath palettePath) ∧
    addedAtomically l (createAnimatedSprite imagePath palettePath direction)
      (l.AddAnimatedSprite createAnimatedSprite imagePath palettePath direction) ∧
    addedAtomically l (createLabel text fontStyle) (l.AddLabel createLabel text fontStyle) ∧
    addedAtomically l (createButton text buttonStyle)
      (l.AddButton createButton text buttonStyle) := by
  refine ⟨?_, ?_, ?_, ?_⟩
  · unfold Layout.AddSprite
    cases createSprite imagePath palettePath with
    | error err => exact addedAtomically_error l err
    | ok w => exact addedAtomically_ok l w
  · unfold Layout.AddAnimatedSprite
    cases createAnimatedSprite imagePath palettePath direction with
    | error err => exact addedAtomically_error l err
    | ok w => exact addedAtomically_ok l w
  · unfold Layout.AddLabel
    cases createLabel text fontStyle with
    | error err => exact addedAtomically_error l err
    | ok w => exact addedAtomically_ok l w
  · unfold Layout.AddButton
    cases createButton text buttonStyle with
    | error err => exact addedAtomically_error l err
    | ok w => exact addedAtomically_ok l w

/-! ## Rendering and advancing -/

theorem advanceEntries_ok {ε : Type} (advance : Nat → widget → Option ε) (i0 : Nat)
    (es : List layoutEntry)
    (hok : ∀ (j : Nat) (e : layoutEntry), es[j]? = some e → advance (i0 + j) e.widget = none) :
    advanceEntries advance i0 es = (List.range' i0 es.length, none) := by
  induction es generalizing i0 with
  | nil => rfl
  | cons e rest ih =>
    have h0 : advance i0 e.widget = none := by
      have := hok 0 e (by simp)
      simpa using this
    have hrest := ih (i0 + 1) (fun j ej hj => by
      have := hok (j + 1) ej (by simpa using hj)
      rw [show i0 + (j + 1) = i0 + 1 + j by omega] at this
      exact this)
    simp only [advanceEntries, h0, hrest, List.length_cons, List.range'_succ]

theorem advanceEntries_fail {ε : Type} (advance : Nat → widget → Option ε) (i0 : Nat)
    (es : List layoutEntry) (k : Nat) (e : layoutEntry) (err : ε) (hk : es[k]? = some e)
    (hfail : advance (i0 + k) e.widget = some err)
    (hok : ∀ (j : Nat) (ej : layoutEntry), j < k → es[j]? = some ej →
      advance (i0 + j) ej.widget = none) :
    advanceEntries advance i0 es = (List.range' i0 (k + 1), some err) := by
  induction es generalizing i0 k with
  | nil => simp at hk
  | cons e0 rest ih =>
    cases k with
    | zero =>
      simp only [List.getElem?_cons_zero, Option.some.injEq] at hk
      subst hk
      rw [Nat.add_zero] at hfail
      simp [advanceEntries, hfail]
    | succ k1 =>
      simp only [List.getElem?_cons_succ] at hk
      have h0 : advance i0 e0.widget = none := by
        have := hok 0 e0 (by omega) (by simp)
        simpa using this
      have hrest := ih (i0 + 1) k1 hk (by
        rw [show i0 + 1 + k1 = i0 + (k1 + 1) by omega]; exact hfail)
        (fun j ej hj hjj => by
          have := hok (j + 1) ej (by omega) (by simpa using hjj)
          rw [show i0 + (j + 1) = i0 + 1 + j by omega] at this
          exact this)
      simp only [advanceEntries, h0, hrest]
      rw [List.range'_succ i0 (k1 + 1)]

theorem renderEntries_ok {ε : Type} (render : Nat → widget → Option ε) (i0 : Nat)
    (es : List layoutEntry)
    (hok : ∀ (j : Nat) (e : layoutEntry), es[j]? = some e → e.widget.isVisible = true →
      render (i0 + j) e.widget = none) :
    renderedChildren (renderEntries render i0 es).1 = visibleIndices i0 es ∧
      (renderEntries render i0 es).2 = none := by
  induction es generalizing i0 with
  | nil => exact ⟨rfl, rfl⟩
  | cons e rest ih =>
    have hrest := ih (i0 + 1) (fun j ej hj hv => by
      have := hok (j + 1) ej (by simpa using hj) hv
      rw [show i0 + (j + 1) = i0 + 1 + j by omega] at this
      exact this)
    by_cases hev : e.widget.isVisible = true
    · have h0 : render i0 e.widget = none := by
        have := hok 0 e (by simp) hev
        simpa using this
      simp only [renderEntries, visibleIndices, hev, if_true, h0]
      exact ⟨by simp [renderedChildren, hrest.1], hrest.2⟩
    · simp only [renderEntries, visibleIndices, hev, if_false]
      exact hrest

theorem renderEntries_fail {ε : Type} (render : Nat → widget → Option ε) (i0 : Nat)
    (es : List layoutEntry) (k : Nat) (e : layoutEntry) (err : ε) (hk : es[k]? = some e)
    (hv : e.widget.isVisible = true) (hfail : render (i0 + k) e.widget = some err)
    (hok : ∀ (j : Nat) (ej : layoutEntry), j < k → es[j]? = some ej →
      ej.widget.isVisible = true → render (i0 + j) ej.widget = none) :
    renderedChildren (renderEntries render i0 es).1 = visibleIndices i0 (es.take (k + 1)) ∧
      (renderEntries render i0 es).2 = some err := by
  induction es generalizing i0 k with
  | nil => simp at hk
  | cons e0 rest ih =>
    cases k with
    | zero =>
      simp only [List.getElem?_cons_zero, Option.some.injEq] at hk
      subst hk
      rw [Nat.add_zero] at hfail
      simp [renderEntries, visibleIndices, hv, hfail, renderedChildren]
    | succ k1 =>
      simp only [List.getElem?_cons_succ] at hk
      have hrest := ih (i0 + 1) k1 hk (by
        rw [show i0 + 1 + k1 = i0 + (k1 + 1) by omega]; exact hfail)
        (fun j ej hj hjj hvj => by
          have := hok (j + 1) ej (by omega) (by simpa using hjj) hvj
          rw [show i0 + (j + 1) = i0 + 1 + j by omega] at this
          exact this)
      by_cases hev : e0.widget.isVisible = true
      · have h0 : render i0 e0.widget = none := by
          have := hok 0 e0 (by omega) (by simp) hev
          simpa using this
        simp only [renderEntries, List.take_succ_cons, visibleIndices, hev, if_true, h0]
        exact ⟨by simp [renderedChildren, hrest.1], hrest.2⟩
      · simp only [renderEntries, List.take_succ_cons, visibleIndices, hev, if_false]
        exact hrest

/-- The indices `visibleIndices` lists are those of visible entries. -/
theorem visibleIndices_visible (i0 : Nat) (es : List layoutEntry) (i : Nat)
    (hi : i ∈ visibleIndices i0 es) :
    ∃ j e, i = i0 + j ∧ es[j]? = some e ∧ e.widget.isVisible = true := by
  induction es generalizing i0 with
  | nil => simp [visibleIndices] at hi
  | cons e0 rest ih =>
    unfold visibleIndices at hi
    by_cases hev : e0.widget.isVisible = true
    · rw [if_pos hev] at hi
      rcases List.mem_cons.1 hi with h | h
      · exact ⟨0, e0, by omega, by simp, hev⟩
      · obtain ⟨j, e, h1, h2, h3⟩ := ih _ h
        exact ⟨j + 1, e, by omega, by simpa using h2, h3⟩
    · rw [if_neg hev] at hi
      obtain ⟨j, e, h1, h2, h3⟩ := ih _ hi
      exact ⟨j + 1, e, by omega, by simpa using h2, h3⟩

theorem mem_visibleIndices_iff (i0 : Nat) (es : List layoutEntry) (i : Nat) :
    i ∈ visibleIndices i0 es ↔
      ∃ j e, i = i0 + j ∧ es[j]? = some e ∧ e.widget.isVisible = true := by
  constructor
  · exact visibleIndices_visible i0 es i
  · rintro ⟨j, e, rfl, hj, hv⟩
    induction es generalizing i0 j with
    | nil => simp at hj
    | cons e0 rest ih =>
      unfold visibleIndices
      cases j with
      | zero =>
        simp only [List.getElem?_cons_zero, Option.some.injEq] at hj
        subst hj
        rw [if_pos hv]
        exact List.mem_cons_self _ _
      | succ j1 =>
        simp only [List.getElem?_cons_succ] at hj
        have h := ih (i0 + 1) j1 hj
        rw [show i0 + 1 + j1 = i0 + (j1 + 1) by omega] at h
        by_cases hev : e0.widget.isVisible = true
        · rw [if_pos hev]; exact List.mem_cons_of_mem _ h
        · rw [if_neg hev]; exact h

theorem visibleIndices_pairwise_lt (i0 : Nat) (es : List layoutEntry) :
    (visibleIndices i0 es).Pairwise (fun a b => a < b) := by
  induction es generalizing i0 with
  | nil => simp [visibleIndices]
  | cons e0 rest ih =>
    unfold visibleIndices
    by_cases hev : e0.widget.isVisible = true
    · rw [if_pos hev, List.pairwise_cons]
      refine ⟨fun b hb => ?_, ih _⟩
      obtain ⟨j, _, h1, _, _⟩ := visibleIndices_visible _ _ _ hb
      omega
    · rw [if_neg hev]
      exact ih _

/-- Whatever the children return, the loop of `render` renders visible entries
only. -/
theorem renderEntries_rendered_visible {ε : Type} (render : Nat → widget → Option ε) (i0 : Nat)
    (es : List layoutEntry) (i : Nat) (hi : i ∈ renderedChildren (renderEntries render i0 es).1) :
    i ∈ visibleIndices i0 es := by
  induction es generalizing i0 with
  | nil => simp [renderEntries, renderedChildren] at hi
  | cons e0 rest ih =>
    unfold renderEntries at hi
    unfold visibleIndices
    by_cases hev : e0.widget.isVisible = true
    · rw [if_pos hev] at hi
      rw [if_pos hev]
      cases hr : render i0 e0.widget with
      | some err =>
        rw [hr] at hi
        simp only [renderedChildren, List.mem_singleton] at hi
        rw [hi]
        exact List.mem_cons_self _ _
      | none =>
        rw [hr] at hi
        simp only [List.cons_append, List.nil_append, renderedChildren, List.mem_cons] at hi
        rcases hi with h | h
        · rw [h]; exact List.mem_cons_self _ _
        · exact List.mem_cons_of_mem _ (ih _ h)
    · rw [if_neg hev] at hi
      rw [if_neg hev]
      exact ih _ hi

/-- C17: `render` and `advance` are fail-fast.  `advance` calls `advance` on the
children in insertion order, visible or not, returns the error of the first child
whose `advance` fails and calls it on no later sibling.  `render` places the
layout, renders only visible children, in insertion order, returns the error of
the first visible child whose `render` fails and renders no later sibling.  Each
returns no error when no child fails, having processed every child (every
visible child, for `render`) exactly once in insertion order. -/
theorem render_advance_fail_fast {ε τ : Type} (l : Layout) :
    (∀ (advance : τ → Nat → widget → Option ε) (elapsed : τ),
      ((∀ (j : Nat) (e : layoutEntry), l.entries[j]? = some e →
          advance elapsed j e.widget = none) →
        l.advance advance elapsed = (List.range l.entries.length, none)) ∧
      (∀ (k : Nat) (e : layoutEntry) (err : ε), l.entries[k]? = some e →
        advance elapsed k e.widget = some err →
        (∀ (j : Nat) (ej : layoutEntry), j < k → l.entries[j]? = some ej →
          advance elapsed j ej.widget = none) →
        l.advance advance elapsed = (List.range (k + 1), some err))) ∧
    (∀ (render : Nat → widget → Option ε),
      (l.render render).layout = l.AdjustEntryPlacement ∧
      (∀ i ∈ renderedChildren (l.render render).ops,
        ∃ e, l.AdjustEntryPlacement.entries[i]? = some e ∧ e.widget.isVisible = true) ∧
      ((∀ (j : Nat) (e : layoutEntry), l.AdjustEntryPlacement.entries[j]? = some e →
          e.widget.isVisible = true → render j e.widget = none) →
        renderedChildren (l.render render).ops =
          visibleIndices 0 l.AdjustEntryPlacement.entries ∧
        (l.render render).err = none) ∧
      (∀ (k : Nat) (e : layoutEntry) (err : ε), l.AdjustEntryPlacement.entries[k]? = some e →
        e.widget.isVisible = true → render k e.widget = some err →
        (∀ (j : Nat) (ej : layoutEntry), j < k → l.AdjustEntryPlacement.entries[j]? = some ej →
          ej.widget.isVisible = true → render j ej.widget = none) →
        renderedChildren (l.render render).ops =
          visibleIndices 0 (l.AdjustEntryPlacement.entries.take (k + 1)) ∧
        (l.render render).err = some err)) ∧
    (∀ es : List layoutEntry,
      (∀ i, i ∈ visibleIndices 0 es ↔ ∃ e, es[i]? = some e ∧ e.widget.isVisible = true) ∧
      (visibleIndices 0 es).Pairwise (fun a b => a < b)) := by
  refine ⟨fun advance elapsed => ⟨fun hok => ?_, fun k e err hk hfail hok => ?_⟩,
    fun render => ⟨rfl, fun i hi => ?_, fun hok => ?_, fun k e err hk hv hfail hok => ?_⟩,
    fun es => ⟨fun i => ?_, visibleIndices_pairwise_lt 0 es⟩⟩
  · unfold Layout.advance
    rw [advanceEntries_ok _ 0 _ (fun j e hj => by rw [Nat.zero_add]; exact hok j e hj),
      List.range_eq_range']
  · unfold Layout.advance
    rw [advanceEntries_fail _ 0 _ k e err hk (by rw [Nat.zero_add]; exact hfail)
      (fun j ej hj hjj => by rw [Nat.zero_add]; exact hok j ej hj hjj), List.range_eq_range']
  · obtain ⟨j, e, h1, h2, h3⟩ :=
      visibleIndices_visible 0 _ i (renderEntries_rendered_visible render 0 _ i hi)
    rw [Nat.zero_add] at h1
    subst h1
    exact ⟨e, h2, h3⟩
  · exact renderEntries_ok render 0 _
      (fun j e hj hv => by rw [Nat.zero_add]; exact hok j e hj hv)
  · exact renderEntries_fail render 0 _ k e err hk hv (by rw [Nat.zero_add]; exact hfail)
      (fun j ej hj hjj hvj => by rw [Nat.zero_add]; exact hok j ej hj hjj hvj)
  · rw [mem_visibleIndices_iff]
    constructor
    · rintro ⟨j, e, h1, h2, h3⟩
      rw [Nat.zero_add] at h1
      subst h1
      exact ⟨e, h2, h3⟩
    · rintro ⟨e, h2, h3⟩
      exact ⟨i, e, by omega, h2, h3⟩

/-- Witness of C17 on `visibleHiddenVisible`: when the hidden child at index 1
fails, `advance` has advanced the children 0 and 1 and returns its error; when
the visible child at index 2 fails, `render` has rendered the children 0 and 2
and returns its error. -/
theorem render_advance_fail_fast_witness :
    visibleHiddenVisible.advance (fun (_ : Unit) => failsAt 1) () = ([0, 1], some 7) ∧
    renderedChildren (visibleHiddenVisible.render (failsAt 2)).ops = [0, 2] ∧
    (visibleHiddenVisible.render (failsAt 2)).err = some 7 ∧
    visibleHiddenVisible.advance (fun (_ : Unit) => failsAt 1) () =
      (List.range (1 + 1), some 7) ∧
    (renderedChildren (visibleHiddenVisible.render (failsAt 2)).ops =
        visibleIndices 0 (visibleHiddenVisible.AdjustEntryPlacement.entries.take (2 + 1)) ∧
      (visibleHiddenVisible.render (failsAt 2)).err = some 7) :=
  ⟨by decide, by decide, by decide,
    ((render_advance_fail_fast visibleHiddenVisible).1 (fun (_ : Unit) => failsAt 1) ()).2 1
      (newEntry ((fixedWidget 10 10).SetVisible false)) 7 (by decide) (by decide)
      (fun j ej hj _ => by
        have h0 : j = 0 := by omega
        subst h0
        rfl),
    ((@render_advance_fail_fast Nat Unit visibleHiddenVisible).2.1 (failsAt 2)).2.2.2 2
      (visibleHiddenVisible.placeEntry visibleHiddenVisible.getSize
        visibleHiddenVisible.expanderSize 0 10 (newEntry (fixedWidget 10 10))).1 7
      (by decide) (by decide) (by decide)
      (fun j ej hj _ _ => by
        have h0 : j = 0 ∨ j = 1 := by omega
        rcases h0 with h0 | h0 <;> subst h0 <;> rfl)⟩

/-! ## Signs of the placed sizes and of the leftover space -/

theorem expanderSize_nonneg (l : Layout) : 0 ≤ l.expanderSize.1 ∧ 0 ≤ l.expanderSize.2 := by
  unfold Layout.expanderSize
  split
  · cases l.positionType <;> simp [MaxInt]
  · simp

/-- An invisible entry that leaves the placement loop is an entry that went in. -/
theorem placeEntries_invisible_mem (l : Layout) (size expander : Int × Int)
    (es : List layoutEntry) (ox oy : Int) (p : layoutEntry)
    (hp : p ∈ l.placeEntries size expander ox oy es) (hv : p.widget.isVisible = false) :
    p ∈ es := by
  induction es generalizing ox oy with
  | nil => simp [Layout.placeEntries] at hp
  | cons e rest ih =>
    unfold Layout.placeEntries at hp
    by_cases hev : e.widget.isVisible = true
    · rw [if_pos hev] at hp
      rcases List.mem_cons.1 hp with h | h
      · rw [h, placeEntry_widget_isVisible, hev] at hv
        exact absurd hv (by simp)
      · exact List.mem_cons_of_mem _ (ih _ _ h)
    · rw [if_neg hev] at hp
      rcases List.mem_cons.1 hp with h | h
      · rw [h]; exact List.mem_cons_self _ _
      · exact List.mem_cons_of_mem _ (ih _ _ h)

/-- C18, as stated, fails: a visible non-expanding entry takes the natural size of
its widget unclamped.  The static spacer of natural size -5 x 10 in `narrowSpacer`
is placed with width -5. -/
theorem placed_size_nonneg_counterexample :
    (narrowSpacer.AdjustEntryPlacement.entries.map layoutEntry.rect) = [(0, 0, -5, 10)] ∧
    ¬ ∀ l : Layout, ∀ p ∈ l.AdjustEntryPlacement.entries, 0 ≤ p.width ∧ 0 ≤ p.height := by
  refine ⟨by decide, fun h => ?_⟩
  have h1 := h narrowSpacer
  revert h1
  decide

/-- C18, amended: after `AdjustEntryPlacement` every visible expanding entry has
width >= 0 and height >= 0, the expander size being clamped at 0; a visible
non-expanding entry has the natural size of its widget, and an invisible entry is
left as it was.  Hence every entry has width >= 0 and height >= 0 when the
children report non-negative natural sizes and the stored sizes were
non-negative before the call, as they are for fresh entries. -/
theorem placed_size_nonneg (l : Layout) :
    (∀ p ∈ l.AdjustEntryPlacement.entries, p.widget.isVisible = true →
      (p.widget.isExpanding = true → 0 ≤ p.width ∧ 0 ≤ p.height) ∧
      (p.widget.isExpanding = false →
        p.width = p.widget.getSize.1 ∧ p.height = p.widget.getSize.2)) ∧
    (∀ p ∈ l.AdjustEntryPlacement.entries, p.widget.isVisible = false → p ∈ l.entries) ∧
    ((∀ e ∈ l.entries, 0 ≤ e.widget.getSize.1 ∧ 0 ≤ e.widget.getSize.2 ∧
        0 ≤ e.width ∧ 0 ≤ e.height) →
      ∀ p ∈ l.AdjustEntryPlacement.entries, 0 ≤ p.width ∧ 0 ≤ p.height) := by
  have hvis : ∀ p ∈ l.AdjustEntryPlacement.entries, p.widget.isVisible = true →
      (p.widget.isExpanding = true → 0 ≤ p.width ∧ 0 ≤ p.height) ∧
      (p.widget.isExpanding = false →
        p.width = p.widget.getSize.1 ∧ p.height = p.widget.getSize.2) := by
    intro p hp hv
    obtain ⟨hw, hh⟩ := placeEntries_visible_size l _ _ _ _ _ p hp hv
    refine ⟨fun hx => ?_, fun hx => ?_⟩
    · rw [hw, hh, placedSize, if_pos hx]
      exact expanderSize_nonneg l
    · rw [hw, hh, placedSize, hx]
      exact ⟨rfl, rfl⟩
  have hinv : ∀ p ∈ l.AdjustEntryPlacement.entries, p.widget.isVisible = false →
      p ∈ l.entries :=
    fun p hp hv => placeEntries_invisible_mem l _ _ _ _ _ p hp hv
  refine ⟨hvis, hinv, fun hnn p hp => ?_⟩
  cases hv : p.widget.isVisible with
  | false =>
    have := hnn p (hinv p hp hv)
    exact ⟨this.2.2.1, this.2.2.2⟩
  | true =>
    cases hx : p.widget.isExpanding with
    | true => exact (hvis p hp hv).1 hx
    | false =>
      obtain ⟨hw, hh⟩ := (hvis p hp hv).2 hx
      obtain ⟨e, he, ox, oy, rfl⟩ := placeEntries_visible_mem l _ _ _ _ _ p hp hv
      rw [placeEntry_widget_getSize] at hw hh
      rw [hw, hh]
      exact ⟨(hnn e he).1, (hnn e he).2.1⟩

/-- Witness of the amended C18 on the label / spacer / label layout: natural and
stored sizes are non-negative, and so are all placed sizes. -/
theorem placed_size_nonneg_witness :
    (∀ e ∈ labelSpacerLabel.entries, 0 ≤ e.widget.getSize.1 ∧ 0 ≤ e.widget.getSize.2 ∧
      0 ≤ e.width ∧ 0 ≤ e.height) ∧
    (labelSpacerLabel.AdjustEntryPlacement.entries.map fun p => (p.width, p.height)) =
      [(100, 20), (0, 60), (100, 20)] ∧
    ∀ p ∈ labelSpacerLabel.AdjustEntryPlacement.entries, 0 ≤ p.width ∧ 0 ≤ p.height :=
  ⟨by decide, by decide, (placed_size_nonneg labelSpacerLabel).2.2 (by decide)⟩

/-- C19, as stated, fails: the leftover space is a 64-bit difference of a 64-bit
sum.  The Horizontal layout `hugeRowSpacer` holds static spacers of natural
widths `MaxInt64` and 1 and a dynamic spacer, its one visible expander.  The
content width is `MinInt64`, the effective width is 0, the leftover `0 - MinInt64`
is `MinInt64` again, which is negative; `MaxInt(0, .)` changes the quotient
`MinInt64` to 0, and the expander is placed with width 0. -/
theorem leftover_negative_counterexample :
    hugeRowSpacer.positionType = PositionTypeHorizontal ∧
    (hugeRowSpacer.entries.map fun e =>
        (e.widget.isVisible, e.widget.isExpanding, e.widget.getSize.1)) =
      [(true, false, 9223372036854775807), (true, false, 1), (true, true, 0)] ∧
    expanderCount hugeRowSpacer.entries = 1 ∧
    hugeRowSpacer.getContentSize.1 = -9223372036854775808 ∧
    hugeRowSpacer.getSize.1 = 0 ∧
    wrap (hugeRowSpacer.getSize.1 - hugeRowSpacer.getContentSize.1) = -9223372036854775808 ∧
    (wrap (hugeRowSpacer.getSize.1 - hugeRowSpacer.getContentSize.1)).tdiv
      (expanderCount hugeRowSpacer.entries) = -9223372036854775808 ∧
    MaxInt 0 ((wrap (hugeRowSpacer.getSize.1 - hugeRowSpacer.getContentSize.1)).tdiv
      (expanderCount hugeRowSpacer.entries)) = 0 ∧
    (hugeRowSpacer.AdjustEntryPlacement.entries.map fun p => p.width) =
      [9223372036854775807, 1, 0] ∧
    (¬ ∀ l : Layout, 0 ≤ wrap (l.getSize.1 - l.getContentSize.1)) ∧
    ¬ ∀ l : Layout, 0 < expanderCount l.entries →
      l.positionType = PositionTypeHorizontal →
      MaxInt 0 ((wrap (l.getSize.1 - l.getContentSize.1)).tdiv (expanderCount l.entries)) =
        (wrap (l.getSize.1 - l.getContentSize.1)).tdiv (expanderCount l.entries) := by
  refine ⟨by decide, by decide, by decide, by decide, by decide, by decide, by decide,
    by decide, by decide, fun h => ?_, fun h => ?_⟩
  · have h1 := h hugeRowSpacer
    revert h1
    decide
  · have h1 := h hugeRowSpacer (by decide) (by decide)
    revert h1
    decide

/-- C19, amended: `getSize` is the componentwise maximum of `getContentSize` and
the fixed size, so the content size never exceeds the effective size, and the
content size on the growth axis is the 64-bit reduction of the total of the
natural sizes of all children, the expanders themselves and the invisible
children included.  Whenever the difference `getSize - getContentSize` on the
growth axis is within the 64-bit `int`, the leftover space that
`AdjustEntryPlacement` computes is that difference and is not negative; with at
least one visible expander the clamp `MaxInt(0, .)` then changes nothing, and
every visible expander's size on the growth axis is exactly
`(getSize - getContentSize) / expanderCount`. -/
theorem leftover_nonneg_clamp_noop (l : Layout) :
    l.getSize = (max l.getContentSize.1 l.width, max l.getContentSize.2 l.height) ∧
    l.getContentSize.1 ≤ l.getSize.1 ∧ l.getContentSize.2 ≤ l.getSize.2 ∧
    (l.positionType = PositionTypeVertical →
      l.getContentSize.2 = wrap (naturalHeights l.entries) ∧
      (l.getSize.2 - l.getContentSize.2 ≤ MaxInt64 →
        wrap (l.getSize.2 - l.getContentSize.2) = l.getSize.2 - l.getContentSize.2 ∧
        0 ≤ wrap (l.getSize.2 - l.getContentSize.2) ∧
        (0 < expanderCount l.entries →
          MaxInt 0 ((wrap (l.getSize.2 - l.getContentSize.2)).tdiv (expanderCount l.entries)) =
            (wrap (l.getSize.2 - l.getContentSize.2)).tdiv (expanderCount l.entries) ∧
          l.expanderSize =
            (0, (l.getSize.2 - l.getContentSize.2).tdiv (expanderCount l.entries)) ∧
          ∀ p ∈ l.AdjustEntryPlacement.entries,
            p.widget.isVisible = true → p.widget.isExpanding = true →
            p.height = (l.getSize.2 - l.getContentSize.2).tdiv (expanderCount l.entries)))) ∧
    (l.positionType = PositionTypeHorizontal →
      l.getContentSize.1 = wrap (naturalWidths l.entries) ∧
      (l.getSize.1 - l.getContentSize.1 ≤ MaxInt64 →
        wrap (l.getSize.1 - l.getContentSize.1) = l.getSize.1 - l.getContentSize.1 ∧
        0 ≤ wrap (l.getSize.1 - l.getContentSize.1) ∧
        (0 < expanderCount l.entries →
          MaxInt 0 ((wrap (l.getSize.1 - l.getContentSize.1)).tdiv (expanderCount l.entries)) =
            (wrap (l.getSize.1 - l.getContentSize.1)).tdiv (expanderCount l.entries) ∧
          l.expanderSize =
            ((l.getSize.1 - l.getContentSize.1).tdiv (expanderCount l.entries), 0) ∧
          ∀ p ∈ l.AdjustEntryPlacement.entries,
            p.widget.isVisible = true → p.widget.isExpanding = true →
            p.width = (l.getSize.1 - l.getContentSize.1).tdiv (expanderCount l.entries)))) := by
  have h1 := (getContentSize_le_getSize l).1
  have h2 := (getContentSize_le_getSize l).2
  refine ⟨rfl, h1, h2, fun hpt => ⟨getContentSize_snd_vertical l hpt, fun hfit => ?_⟩,
    fun hpt => ⟨getContentSize_fst_horizontal l hpt, fun hfit => ?_⟩⟩
  · have hr : wrap (l.getSize.2 - l.getContentSize.2) = l.getSize.2 - l.getContentSize.2 :=
      wrap_of_inRange _ (inRange_of_nonneg_le _ (by omega) hfit)
    refine ⟨hr, by rw [hr]; omega, fun hcnt => ?_⟩
    have hc := clamp_tdiv_eq l.getSize.2 l.getContentSize.2 (expanderCount l.entries) h2 hfit hcnt
    have hx : l.expanderSize =
        (0, (l.getSize.2 - l.getContentSize.2).tdiv (expanderCount l.entries)) := by
      unfold Layout.expanderSize
      rw [if_pos hcnt, hpt]
      simp only [hc.2.1]
      rfl
    refine ⟨by rw [hc.2.1, hr], hx, fun p hp hv hxp => ?_⟩
    have hsz := (placeEntries_visible_size l _ _ _ _ _ p hp hv).2
    rw [placedSize, if_pos hxp, hx] at hsz
    exact hsz
  · have hr : wrap (l.getSize.1 - l.getContentSize.1) = l.getSize.1 - l.getContentSize.1 :=
      wrap_of_inRange _ (inRange_of_nonneg_le _ (by omega) hfit)
    refine ⟨hr, by rw [hr]; omega, fun hcnt => ?_⟩
    have hc := clamp_tdiv_eq l.getSize.1 l.getContentSize.1 (expanderCount l.entries) h1 hfit hcnt
    have hx : l.expanderSize =
        ((l.getSize.1 - l.getContentSize.1).tdiv (expanderCount l.entries), 0) := by
      unfold Layout.expanderSize
      rw [if_pos hcnt, hpt]
      simp only [hc.2.1]
      rfl
    refine ⟨by rw [hc.2.1, hr], hx, fun p hp hv hxp => ?_⟩
    have hsz := (placeEntries_visible_size l _ _ _ _ _ p hp hv).1
    rw [placedSize, if_pos hxp, hx] at hsz
    exact hsz

/-- Witness of the amended C19 on `tallExpander`, whose visible expander has
natural height 30: the difference 100 - 30 = 70 is within the 64-bit range, the
leftover is 70 and the expander is placed with height 70. -/
theorem leftover_nonneg_clamp_noop_witness :
    tallExpander.positionType = PositionTypeVertical ∧
    tallExpander.getSize.2 - tallExpander.getContentSize.2 ≤ MaxInt64 ∧
    0 < expanderCount tallExpander.entries ∧
    (tallExpander.getSize.2 - tallExpander.getContentSize.2).tdiv
      (expanderCount tallExpander.entries) = 70 ∧
    ∀ p ∈ tallExpander.AdjustEntryPlacement.entries,
      p.widget.isVisible = true → p.widget.isExpanding = true →
      p.height = (tallExpander.getSize.2 - tallExpander.getContentSize.2).tdiv
        (expanderCount tallExpander.entries) :=
  ⟨by decide, by decide, by decide, by decide,
    (((((leftover_nonneg_clamp_noop tallExpander).2.2.2.1 (by decide)).2
      (by decide)).2.2) (by decide)).2.2⟩

/-! ## Containment in the effective size: Vertical layouts -/

theorem visibleHeights_append (a b : List layoutEntry) :
    visibleHeights (a ++ b) = visibleHeights a + visibleHeights b := by
  simp [visibleHeights]

theorem visibleHeights_nonneg (es : List layoutEntry)
    (h : ∀ q ∈ es, q.widget.isVisible = true → 0 ≤ q.height) : 0 ≤ visibleHeights es := by
  unfold visibleHeights
  apply List.sum_nonneg
  intro x hx
  obtain ⟨q, hq, rfl⟩ := List.mem_map.1 hx
  rw [List.mem_filter] at hq
  exact h q hq.1 hq.2

/-- In a list whose visible entries have non-negative heights, the heights of the
visible entries before position `i` and of the entry at `i` together are at most
the total. -/
theorem visibleHeights_take_add_le (es : List layoutEntry) (i : Nat) (p : layoutEntry)
    (hi : es[i]? = some p) (hv : p.widget.isVisible = true)
    (h : ∀ q ∈ es, q.widget.isVisible = true → 0 ≤ q.height) :
    visibleHeights (es.take i) + p.height ≤ visibleHeights es := by
  induction es generalizing i with
  | nil => simp at hi
  | cons e rest ih =>
    have hrest : ∀ q ∈ rest, q.widget.isVisible = true → 0 ≤ q.height :=
      fun q hq => h q (List.mem_cons_of_mem _ hq)
    cases i with
    | zero =>
      simp only [List.getElem?_cons_zero, Option.some.injEq] at hi
      subst hi
      have := visibleHeights_nonneg rest hrest
      simp only [visibleHeights, List.take_zero, List.filter_nil, List.map_nil, List.sum_nil,
        List.filter_cons, hv, if_true, List.map_cons, List.sum_cons] at this ⊢
      omega
    | succ j =>
      simp only [List.getElem?_cons_succ] at hi
      have := ih j hi hrest
      by_cases hev : e.widget.isVisible = true
      · simp only [visibleHeights, List.take_succ_cons, List.filter_cons, hev, if_true,
          List.map_cons, List.sum_cons] at this ⊢
        omega
      · have hev2 : e.widget.isVisible = false := by simpa using hev
        simp only [visibleHeights, List.take_succ_cons, List.filter_cons, hev2,
          Bool.false_eq_true, if_false] at this ⊢
        omega

theorem visibleHeights_placeEntries (l : Layout) (size expander : Int × Int)
    (es : List layoutEntry) (ox oy : Int) :
    visibleHeights (l.placeEntries size expander ox oy es) = placedHeights expander es := by
  induction es generalizing ox oy with
  | nil => rfl
  | cons e rest ih =>
    unfold Layout.placeEntries
    by_cases hev : e.widget.isVisible = true
    · have hev2 : (l.placeEntry size expander ox oy e).1.widget.isVisible = true := by
        rw [placeEntry_widget_isVisible]; exact hev
      have := ih (l.placeEntry size expander ox oy e).2.1 (l.placeEntry size expander ox oy e).2.2
      rw [if_pos hev]
      simp only [visibleHeights, placedHeights, List.filter_cons, hev, hev2, if_true,
        List.map_cons, List.sum_cons, placeEntry_height] at this ⊢
      rw [this]
    · have := ih ox oy
      rw [if_neg hev]
      simp only [visibleHeights, placedHeights, List.filter_cons, hev, if_false] at this ⊢
      exact this

theorem placedHeights_le (expander : Int × Int) (es : List layoutEntry)
    (hnn : ∀ e ∈ es, 0 ≤ e.widget.getSize.2) :
    placedHeights expander es ≤
      naturalHeights es +
        ((es.filter fun e => e.widget.isVisible && e.widget.isExpanding).length : Int) *
          expander.2 := by
  induction es with
  | nil => simp [placedHeights, naturalHeights]
  | cons e rest ih =>
    have hrest := ih (fun x hx => hnn x (List.mem_cons_of_mem _ hx))
    have he := hnn e (List.mem_cons_self _ _)
    cases hv : e.widget.isVisible <;> cases hxp : e.widget.isExpanding <;>
      simp only [placedHeights, naturalHeights, List.filter_cons, hv, hxp, Bool.and_self,
        Bool.and_true, Bool.and_false, Bool.false_and, if_true, if_false, List.map_cons,
        List.sum_cons, placedSize, List.length_cons, Nat.cast_add, Nat.cast_one,
        Bool.false_eq_true] at hrest ⊢ <;>
      nlinarith

theorem expanderSize_fst_vertical (l : Layout) (hpt : l.positionType = PositionTypeVertical) :
    l.expanderSize.1 = 0 := by
  unfold Layout.expanderSize
  split
  · rw [hpt]; rfl
  · rfl

theorem foldl_max_le (xs : List Int) (a b : Int) (ha : a ≤ b) (hxs : ∀ x ∈ xs, x ≤ b) :
    xs.foldl max a ≤ b := by
  induction xs generalizing a with
  | nil => exact ha
  | cons c rest ih =>
    rw [List.foldl_cons]
    exact ih _ (max_le ha (hxs c (List.mem_cons_self _ _)))
      (fun x hx => hxs x (List.mem_cons_of_mem _ hx))

/-- The expanders together take at most the leftover height, when the leftover
is within the 64-bit range. -/
theorem expanders_le_leftover_vertical (l : Layout)
    (hpt : l.positionType = PositionTypeVertical)
    (hfit : l.getSize.2 - l.getContentSize.2 ≤ MaxInt64) :
    expanderCount l.entries * l.expanderSize.2 ≤ l.getSize.2 - l.getContentSize.2 := by
  have h2 := (getContentSize_le_getSize l).2
  have hc0 : 0 ≤ expanderCount l.entries := by
    rw [expanderCount_eq_length]; exact Int.natCast_nonneg _
  by_cases hcnt : 0 < expanderCount l.entries
  · have hc := clamp_tdiv_eq l.getSize.2 l.getContentSize.2 (expanderCount l.entries) h2 hfit hcnt
    have hx : l.expanderSize.2 =
        (l.getSize.2 - l.getContentSize.2).tdiv (expanderCount l.entries) := by
      unfold Layout.expanderSize
      rw [if_pos hcnt, hpt]
      exact hc.2.1
    rw [hx, Int.tdiv_eq_ediv (by omega) (by omega)]
    exact Int.mul_ediv_self_le (by omega)
  · have h0 : expanderCount l.entries = 0 := by omega
    rw [h0]
    omega

theorem natural_width_le_content (l : Layout) (hpt : l.positionType = PositionTypeVertical)
    (e : layoutEntry) (he : e ∈ l.entries) : e.widget.getSize.1 ≤ l.getContentSize.1 := by
  rw [getContentSize_vertical l hpt, ← specMax_cons_eq_foldl]
  exact le_specMax _ _ (List.mem_cons_of_mem _ (List.mem_map.2 ⟨e, he, rfl⟩))

theorem placeEntry_x_vertical (l : Layout) (hpt : l.positionType = PositionTypeVertical)
    (size expander : Int × Int) (ox oy : Int) (e : layoutEntry) :
    (l.placeEntry size expander ox oy e).1.x =
      match l.horizontalAlign with
      | HorizontalAlignLeft => 0
      | HorizontalAlignCenter =>
        size.1.tdiv 2 - (l.placeEntry size expander ox oy e).1.width.tdiv 2
      | HorizontalAlignRight =>
        wrap (size.1 - (l.placeEntry size expander ox oy e).1.width) := by
  unfold Layout.placeEntry
  rw [hpt]

/-- A cross-axis coordinate computed by any of the three alignments places an
extent between 0 and the cross extent inside the cross extent. -/
theorem aligned_inside (W w x : Int) (hw : 0 ≤ w) (hle : w ≤ W)
    (hx : x = 0 ∨ x = W.tdiv 2 - w.tdiv 2 ∨ x = W - w) : 0 ≤ x ∧ x + w ≤ W := by
  rcases hx with h | h | h
  · omega
  · rw [Int.tdiv_eq_ediv (by omega) (by decide), Int.tdiv_eq_ediv hw (by decide)] at h
    omega
  · omega

theorem contained_vertical (l : Layout) (hpt : l.positionType = PositionTypeVertical)
    (hnn : ∀ e ∈ l.entries, 0 ≤ e.widget.getSize.1 ∧ 0 ≤ e.widget.getSize.2)
    (hint : ∀ e ∈ l.entries, e.widget.getSize.1 ≤ MaxInt64 ∧ e.widget.getSize.2 ≤ MaxInt64)
    (hfix : l.width ≤ MaxInt64 ∧ l.height ≤ MaxInt64)
    (hfit : naturalHeights l.entries ≤ MaxInt64) :
    visibleHeights l.AdjustEntryPlacement.entries ≤ l.getSize.2 ∧
    ∀ (i : Nat) (p : layoutEntry), l.AdjustEntryPlacement.entries[i]? = some p →
      p.widget.isVisible = true →
      0 ≤ p.x ∧ 0 ≤ p.y ∧ 0 ≤ p.width ∧ 0 ≤ p.height ∧
        p.x + p.width ≤ l.getSize.1 ∧ p.y + p.height ≤ l.getSize.2 := by
  have hX := expanderSize_nonneg l
  have hs0 : 0 ≤ naturalHeights l.entries :=
    sum_nonneg_of_forall _ _ (fun e he => (hnn e he).2)
  have h4 : l.getContentSize.2 = naturalHeights l.entries := by
    rw [getContentSize_snd_vertical l hpt, wrap_of_inRange _ (inRange_of_nonneg_le _ hs0 hfit)]
  have hH : l.getSize.2 ≤ MaxInt64 := by
    have : l.getSize.2 = max l.getContentSize.2 l.height := rfl
    rw [this, h4]
    exact max_le hfit hfix.2
  have hW : l.getSize.1 ≤ MaxInt64 := by
    have h1 : l.getSize.1 = max l.getContentSize.1 l.width := rfl
    have h5 : l.getContentSize.1 ≤ MaxInt64 := by
      rw [getContentSize_vertical l hpt]
      apply foldl_max_le _ _ _ (by decide)
      intro x hx
      obtain ⟨e0, he0, rfl⟩ := List.mem_map.1 hx
      exact (hint e0 he0).1
    rw [h1]
    exact max_le h5 hfix.1
  have hleft : l.getSize.2 - l.getContentSize.2 ≤ MaxInt64 := by omega
  have hsize : ∀ q ∈ l.AdjustEntryPlacement.entries, q.widget.isVisible = true →
      0 ≤ q.width ∧ q.width ≤ l.getSize.1 ∧ 0 ≤ q.height := by
    intro q hq hv
    obtain ⟨hw, hh⟩ := placeEntries_visible_size l _ _ _ _ _ q hq hv
    obtain ⟨e, he, ox, oy, rfl⟩ := placeEntries_visible_mem l _ _ _ _ _ q hq hv
    rw [placedSize_placeEntry] at hw hh
    rw [hw, hh]
    unfold placedSize
    cases e.widget.isExpanding with
    | true =>
      simp only [if_true]
      rw [expanderSize_fst_vertical l hpt]
      exact ⟨le_rfl, getSize_fst_nonneg_vertical l hpt, hX.2⟩
    | false =>
      simp only [Bool.false_eq_true, if_false]
      exact ⟨(hnn e he).1,
        le_trans (natural_width_le_content l hpt e he) (getContentSize_le_getSize l).1,
        (hnn e he).2⟩
  have htotal : visibleHeights l.AdjustEntryPlacement.entries ≤ l.getSize.2 := by
    have h1 : visibleHeights l.AdjustEntryPlacement.entries = placedHeights l.expanderSize l.entries :=
      visibleHeights_placeEntries l _ _ _ _ _
    have h2 := placedHeights_le l.expanderSize l.entries (fun e he => (hnn e he).2)
    have h3 := expanders_le_leftover_vertical l hpt hleft
    rw [expanderCount_eq_length] at h3
    unfold visibleExpanders at h3
    rw [h1]
    omega
  refine ⟨htotal, fun i p hi hv => ?_⟩
  have hp : p ∈ l.AdjustEntryPlacement.entries := List.mem_iff_getElem?.2 ⟨i, hi⟩
  obtain ⟨hw0, hwle, hh0⟩ := hsize p hp hv
  have hy := placeEntries_vertical_y l hpt _ _ _ _ _ inRange_zero i p hi hv
  rw [zero_add] at hy
  have hy0 : 0 ≤ visibleHeights (l.AdjustEntryPlacement.entries.take i) :=
    visibleHeights_nonneg _ (fun q hq hqv => (hsize q (List.mem_of_mem_take hq) hqv).2.2)
  have hyle := visibleHeights_take_add_le l.AdjustEntryPlacement.entries i p hi hv
    (fun q hq hqv => (hsize q hq hqv).2.2)
  have hyM : visibleHeights (List.take i l.AdjustEntryPlacement.entries) ≤ MaxInt64 := by
    omega
  have hy2 : p.y = visibleHeights (List.take i l.AdjustEntryPlacement.entries) :=
    hy.trans (wrap_of_inRange _ (inRange_of_nonneg_le _ hy0 hyM))
  have hxin : 0 ≤ p.x ∧ p.x + p.width ≤ l.getSize.1 := by
    obtain ⟨e, _, ox, oy, rfl⟩ := placeEntries_visible_mem l _ _ _ _ _ p hp hv
    apply aligned_inside _ _ _ hw0 hwle
    rw [placeEntry_x_vertical l hpt]
    cases l.horizontalAlign
    · exact Or.inl rfl
    · exact Or.inr (Or.inl rfl)
    · exact Or.inr (Or.inr (wrap_of_inRange _ (inRange_of_nonneg_le _ (by omega) (by omega))))
  refine ⟨hxin.1, by omega, hw0, hh0, hxin.2, by omega⟩

/-! ## Containment in the effective size: Horizontal layouts -/

theorem visibleWidths_append (a b : List layoutEntry) :
    visibleWidths (a ++ b) = visibleWidths a + visibleWidths b := by
  simp [visibleWidths]

theorem visibleWidths_nonneg (es : List layoutEntry)
    (h : ∀ q ∈ es, q.widget.isVisible = true → 0 ≤ q.width) : 0 ≤ visibleWidths es := by
  unfold visibleWidths
  apply List.sum_nonneg
  intro x hx
  obtain ⟨q, hq, rfl⟩ := List.mem_map.1 hx
  rw [List.mem_filter] at hq
  exact h q hq.1 hq.2

/-- In a list whose visible entries have non-negative widths, the widths of the
visible entries before position `i` and of the entry at `i` together are at most
the total. -/
theorem visibleWidths_take_add_le (es : List layoutEntry) (i : Nat) (p : layoutEntry)
    (hi : es[i]? = some p) (hv : p.widget.isVisible = true)
    (h : ∀ q ∈ es, q.widget.isVisible = true → 0 ≤ q.width) :
    visibleWidths (es.take i) + p.width ≤ visibleWidths es := by
  induction es generalizing i with
  | nil => simp at hi
  | cons e rest ih =>
    have hrest : ∀ q ∈ rest, q.widget.isVisible = true → 0 ≤ q.width :=
      fun q hq => h q (List.mem_cons_of_mem _ hq)
    cases i with
    | zero =>
      simp only [List.getElem?_cons_zero, Option.some.injEq] at hi
      subst hi
      have := visibleWidths_nonneg rest hrest
      simp only [visibleWidths, List.take_zero, List.filter_nil, List.map_nil, List.sum_nil,
        List.filter_cons, hv, if_true, List.map_cons, List.sum_cons] at this ⊢
      omega
    | succ j =>
      simp only [List.getElem?_cons_succ] at hi
      have := ih j hi hrest
      by_cases hev : e.widget.isVisible = true
      · simp only [visibleWidths, List.take_succ_cons, List.filter_cons, hev, if_true,
          List.map_cons, List.sum_cons] at this ⊢
        omega
      · have hev2 : e.widget.isVisible = false := by simpa using hev
        simp only [visibleWidths, List.take_succ_cons, List.filter_cons, hev2,
          Bool.false_eq_true, if_false] at this ⊢
        omega

theorem visibleWidths_placeEntries (l : Layout) (size expander : Int × Int)
    (es : List layoutEntry) (ox oy : Int) :
    visibleWidths (l.placeEntries size expander ox oy es) = placedWidths expander es := by
  induction es generalizing ox oy with
  | nil => rfl
  | cons e rest ih =>
    unfold Layout.placeEntries
    by_cases hev : e.widget.isVisible = true
    · have hev2 : (l.placeEntry size expander ox oy e).1.widget.isVisible = true := by
        rw [placeEntry_widget_isVisible]; exact hev
      have := ih (l.placeEntry size expander ox oy e).2.1 (l.placeEntry size expander ox oy e).2.2
      rw [if_pos hev]
      simp only [visibleWidths, placedWidths, List.filter_cons, hev, hev2, if_true,
        List.map_cons, List.sum_cons, placeEntry_width] at this ⊢
      rw [this]
    · have := ih ox oy
      rw [if_neg hev]
      simp only [visibleWidths, placedWidths, List.filter_cons, hev, if_false] at this ⊢
      exact this

theorem placedWidths_le (expander : Int × Int) (es : List layoutEntry)
    (hnn : ∀ e ∈ es, 0 ≤ e.widget.getSize.1) :
    placedWidths expander es ≤
      naturalWidths es +
        ((es.filter fun e => e.widget.isVisible && e.widget.isExpanding).length : Int) *
          expander.1 := by
  induction es with
  | nil => simp [placedWidths, naturalWidths]
  | cons e rest ih =>
    have hrest := ih (fun x hx => hnn x (List.mem_cons_of_mem _ hx))
    have he := hnn e (List.mem_cons_self _ _)
    cases hv : e.widget.isVisible <;> cases hxp : e.widget.isExpanding <;>
      simp only [placedWidths, naturalWidths, List.filter_cons, hv, hxp, Bool.and_self,
        Bool.and_true, Bool.and_false, Bool.false_and, if_true, if_false, List.map_cons,
        List.sum_cons, placedSize, List.length_cons, Nat.cast_add, Nat.cast_one,
        Bool.false_eq_true] at hrest ⊢ <;>
      nlinarith

theorem expanderSize_snd_horizontal (l : Layout) (hpt : l.positionType = PositionTypeHorizontal) :
    l.expanderSize.2 = 0 := by
  unfold Layout.expanderSize
  split
  · rw [hpt]; rfl
  · rfl

/-- The expanders together take at most the leftover width, when the leftover is
within the 64-bit range. -/
theorem expanders_le_leftover_horizontal (l : Layout)
    (hpt : l.positionType = PositionTypeHorizontal)
    (hfit : l.getSize.1 - l.getContentSize.1 ≤ MaxInt64) :
    expanderCount l.entries * l.expanderSize.1 ≤ l.getSize.1 - l.getContentSize.1 := by
  have h2 := (getContentSize_le_getSize l).1
  have hc0 : 0 ≤ expanderCount l.entries := by
    rw [expanderCount_eq_length]; exact Int.natCast_nonneg _
  by_cases hcnt : 0 < expanderCount l.entries
  · have hc := clamp_tdiv_eq l.getSize.1 l.getContentSize.1 (expanderCount l.entries) h2 hfit hcnt
    have hx : l.expanderSize.1 =
        (l.getSize.1 - l.getContentSize.1).tdiv (expanderCount l.entries) := by
      unfold Layout.expanderSize
      rw [if_pos hcnt, hpt]
      exact hc.2.1
    rw [hx, Int.tdiv_eq_ediv (by omega) (by omega)]
    exact Int.mul_ediv_self_le (by omega)
  · have h0 : expanderCount l.entries = 0 := by omega
    rw [h0]
    omega

theorem natural_height_le_content (l : Layout) (hpt : l.positionType = PositionTypeHorizontal)
    (e : layoutEntry) (he : e ∈ l.entries) : e.widget.getSize.2 ≤ l.getContentSize.2 := by
  rw [getContentSize_horizontal l hpt, ← specMax_cons_eq_foldl]
  exact le_specMax _ _ (List.mem_cons_of_mem _ (List.mem_map.2 ⟨e, he, rfl⟩))

theorem placeEntry_y_horizontal (l : Layout) (hpt : l.positionType = PositionTypeHorizontal)
    (size expander : Int × Int) (ox oy : Int) (e : layoutEntry) :
    (l.placeEntry size expander ox oy e).1.y =
      match l.verticalAlign with
      | VerticalAlignTop => 0
      | VerticalAlignMiddle =>
        size.2.tdiv 2 - (l.placeEntry size expander ox oy e).1.height.tdiv 2
      | VerticalAlignBottom =>
        wrap (size.2 - (l.placeEntry size expander ox oy e).1.height) := by
  unfold Layout.placeEntry
  rw [hpt]

theorem contained_horizontal (l : Layout) (hpt : l.positionType = PositionTypeHorizontal)
    (hnn : ∀ e ∈ l.entries, 0 ≤ e.widget.getSize.1 ∧ 0 ≤ e.widget.getSize.2)
    (hint : ∀ e ∈ l.entries, e.widget.getSize.1 ≤ MaxInt64 ∧ e.widget.getSize.2 ≤ MaxInt64)
    (hfix : l.width ≤ MaxInt64 ∧ l.height ≤ MaxInt64)
    (hfit : naturalWidths l.entries ≤ MaxInt64) :
    visibleWidths l.AdjustEntryPlacement.entries ≤ l.getSize.1 ∧
    ∀ (i : Nat) (p : layoutEntry), l.AdjustEntryPlacement.entries[i]? = some p →
      p.widget.isVisible = true →
      0 ≤ p.x ∧ 0 ≤ p.y ∧ 0 ≤ p.width ∧ 0 ≤ p.height ∧
        p.x + p.width ≤ l.getSize.1 ∧ p.y + p.height ≤ l.getSize.2 := by
  have hX := expanderSize_nonneg l
  have hs0 : 0 ≤ naturalWidths l.entries :=
    sum_nonneg_of_forall _ _ (fun e he => (hnn e he).1)
  have h4 : l.getContentSize.1 = naturalWidths l.entries := by
    rw [getContentSize_fst_horizontal l hpt, wrap_of_inRange _ (inRange_of_nonneg_le _ hs0 hfit)]
  have hW : l.getSize.1 ≤ MaxInt64 := by
    have : l.getSize.1 = max l.getContentSize.1 l.width := rfl
    rw [this, h4]
    exact max_le hfit hfix.1
  have hH : l.getSize.2 ≤ MaxInt64 := by
    have h1 : l.getSize.2 = max l.getContentSize.2 l.height := rfl
    have h5 : l.getContentSize.2 ≤ MaxInt64 := by
      rw [getContentSize_horizontal l hpt]
      apply foldl_max_le _ _ _ (by decide)
      intro x hx
      obtain ⟨e0, he0, rfl⟩ := List.mem_map.1 hx
      exact (hint e0 he0).2
    rw [h1]
    exact max_le h5 hfix.2
  have hleft : l.getSize.1 - l.getContentSize.1 ≤ MaxInt64 := by omega
  have hsize : ∀ q ∈ l.AdjustEntryPlacement.entries, q.widget.isVisible = true →
      0 ≤ q.height ∧ q.height ≤ l.getSize.2 ∧ 0 ≤ q.width := by
    intro q hq hv
    obtain ⟨hw, hh⟩ := placeEntries_visible_size l _ _ _ _ _ q hq hv
    obtain ⟨e, he, ox, oy, rfl⟩ := placeEntries_visible_mem l _ _ _ _ _ q hq hv
    rw [placedSize_placeEntry] at hw hh
    rw [hw, hh]
    unfold placedSize
    cases e.widget.isExpanding with
    | true =>
      simp only [if_true]
      rw [expanderSize_snd_horizontal l hpt]
      exact ⟨le_rfl, getSize_snd_nonneg_horizontal l hpt, hX.1⟩
    | false =>
      simp only [Bool.false_eq_true, if_false]
      exact ⟨(hnn e he).2,
        le_trans (natural_height_le_content l hpt e he) (getContentSize_le_getSize l).2,
        (hnn e he).1⟩
  have htotal : visibleWidths l.AdjustEntryPlacement.entries ≤ l.getSize.1 := by
    have h1 : visibleWidths l.AdjustEntryPlacement.entries = placedWidths l.expanderSize l.entries :=
      visibleWidths_placeEntries l _ _ _ _ _
    have h2 := placedWidths_le l.expanderSize l.entries (fun e he => (hnn e he).1)
    have h3 := expanders_le_leftover_horizontal l hpt hleft
    rw [expanderCount_eq_length] at h3
    unfold visibleExpanders at h3
    rw [h1]
    omega
  refine ⟨htotal, fun i p hi hv => ?_⟩
  have hp : p ∈ l.AdjustEntryPlacement.entries := List.mem_iff_getElem?.2 ⟨i, hi⟩
  obtain ⟨hw0, hwle, hh0⟩ := hsize p hp hv
  have hy := placeEntries_horizontal_x l hpt _ _ _ _ _ inRange_zero i p hi hv
  rw [zero_add] at hy
  have hy0 : 0 ≤ visibleWidths (l.AdjustEntryPlacement.entries.take i) :=
    visibleWidths_nonneg _ (fun q hq hqv => (hsize q (List.mem_of_mem_take hq) hqv).2.2)
  have hyle := visibleWidths_take_add_le l.AdjustEntryPlacement.entries i p hi hv
    (fun q hq hqv => (hsize q hq hqv).2.2)
  have hyM : visibleWidths (List.take i l.AdjustEntryPlacement.entries) ≤ MaxInt64 := by
    omega
  have hx2 : p.x = visibleWidths (List.take i l.AdjustEntryPlacement.entries) :=
    hy.trans (wrap_of_inRange _ (inRange_of_nonneg_le _ hy0 hyM))
  have hyin : 0 ≤ p.y ∧ p.y + p.height ≤ l.getSize.2 := by
    obtain ⟨e, _, ox, oy, rfl⟩ := placeEntries_visible_mem l _ _ _ _ _ p hp hv
    apply aligned_inside _ _ _ hw0 hwle
    rw [placeEntry_y_horizontal l hpt]
    cases l.verticalAlign
    · exact Or.inl rfl
    · exact Or.inr (Or.inl rfl)
    · exact Or.inr (Or.inr (wrap_of_inRange _ (inRange_of_nonneg_le _ (by omega) (by omega))))
  refine ⟨by omega, hyin.1, hh0, hw0, by omega, hyin.2⟩

/-! ## Containment in the effective size -/

/-- C20, as stated, fails: the content size is a 64-bit sum and can fall below
the extent of a child.  The children of the Horizontal layout `hugeRow` have the
non-negative natural sizes `MaxInt64` x 1 and 1 x 1; its effective size is
(0, 1), and its first child is placed at x = 0 with width `MaxInt64`, far beyond
the effective width 0. -/
theorem placed_entries_contained_counterexample :
    hugeRow.positionType = PositionTypeHorizontal ∧
    (∀ e ∈ hugeRow.entries, 0 ≤ e.widget.getSize.1 ∧ 0 ≤ e.widget.getSize.2) ∧
    (hugeRow.entries.map fun e => e.widget.getSize) = [(9223372036854775807, 1), (1, 1)] ∧
    hugeRow.getSize = (0, 1) ∧
    (hugeRow.AdjustEntryPlacement.entries.map fun p => (p.widget.isVisible, p.rect)) =
      [(true, (0, 0, 9223372036854775807, 1)), (true, (9223372036854775807, 0, 1, 1))] ∧
    visibleWidths hugeRow.AdjustEntryPlacement.entries = 9223372036854775808 ∧
    (¬ ∀ l : Layout,
      (∀ e ∈ l.entries, 0 ≤ e.widget.getSize.1 ∧ 0 ≤ e.widget.getSize.2) →
      l.positionType = PositionTypeHorizontal →
      ∀ p ∈ l.AdjustEntryPlacement.entries, p.widget.isVisible = true →
        p.x + p.width ≤ l.getSize.1) ∧
    ¬ ∀ l : Layout,
      (∀ e ∈ l.entries, 0 ≤ e.widget.getSize.1 ∧ 0 ≤ e.widget.getSize.2) →
      l.positionType = PositionTypeHorizontal →
      visibleWidths l.AdjustEntryPlacement.entries ≤ l.getSize.1 := by
  refine ⟨by decide, by decide, by decide, by decide, by decide, by decide, fun h => ?_,
    fun h => ?_⟩
  · have h1 := h hugeRow (by decide) (by decide)
    revert h1
    decide
  · have h1 := h hugeRow (by decide) (by decide)
    revert h1
    decide

/-- C20, amended: containment.  For every Vertical or Horizontal layout whose
children all report non-negative natural sizes, whose sizes (the children's
natural sizes and the fixed size of the layout) are values of the 64-bit `int`,
and whose total natural size on the growth axis is within the 64-bit `int`
(`contentFits`), whatever its alignment settings, after `AdjustEntryPlacement`
every visible entry lies inside the effective size `(W, H) = getSize`: `0 <= x`,
`0 <= y`, `x + width <= W` and `y + height <= H` (with `width >= 0` and
`height >= 0`); and the placed extents of the visible entries along the growth
axis sum to at most the effective size on that axis. -/
theorem placed_entries_contained (l : Layout)
    (hnn : ∀ e ∈ l.entries, 0 ≤ e.widget.getSize.1 ∧ 0 ≤ e.widget.getSize.2)
    (hint : ∀ e ∈ l.entries, e.widget.getSize.1 ≤ MaxInt64 ∧ e.widget.getSize.2 ≤ MaxInt64)
    (hfix : l.width ≤ MaxInt64 ∧ l.height ≤ MaxInt64)
    (hfit : contentFits l) :
    (l.positionType = PositionTypeVertical →
      visibleHeights l.AdjustEntryPlacement.entries ≤ l.getSize.2 ∧
      ∀ p ∈ l.AdjustEntryPlacement.entries, p.widget.isVisible = true →
        0 ≤ p.x ∧ 0 ≤ p.y ∧ 0 ≤ p.width ∧ 0 ≤ p.height ∧
          p.x + p.width ≤ l.getSize.1 ∧ p.y + p.height ≤ l.getSize.2) ∧
    (l.positionType = PositionTypeHorizontal →
      visibleWidths l.AdjustEntryPlacement.entries ≤ l.getSize.1 ∧
      ∀ p ∈ l.AdjustEntryPlacement.entries, p.widget.isVisible = true →
        0 ≤ p.x ∧ 0 ≤ p.y ∧ 0 ≤ p.width ∧ 0 ≤ p.height ∧
          p.x + p.width ≤ l.getSize.1 ∧ p.y + p.height ≤ l.getSize.2) := by
  refine ⟨fun hpt => ?_, fun hpt => ?_⟩
  · unfold contentFits at hfit
    rw [hpt] at hfit
    obtain ⟨h1, h2⟩ := contained_vertical l hpt hnn hint hfix hfit
    refine ⟨h1, fun p hp hv => ?_⟩
    obtain ⟨i, hi⟩ := List.mem_iff_getElem?.1 hp
    exact h2 i p hi hv
  · unfold contentFits at hfit
    rw [hpt] at hfit
    obtain ⟨h1, h2⟩ := contained_horizontal l hpt hnn hint hfix hfit
    refine ⟨h1, fun p hp hv => ?_⟩
    obtain ⟨i, hi⟩ := List.mem_iff_getElem?.1 hp
    exact h2 i p hi hv

/-- Witness of the amended C20 on `toolbar` (Horizontal, Middle, effective size
100 x 30): its sizes are small non-negative numbers, its three entries are
placed at (0, 5), (40, 15) and (70, 10) with sizes 40x20, 30x0 and 30x10, all
inside 100 x 30, and their widths sum to 100. -/
theorem placed_entries_contained_witness :
    (∀ e ∈ toolbar.entries, 0 ≤ e.widget.getSize.1 ∧ 0 ≤ e.widget.getSize.2) ∧
    (∀ e ∈ toolbar.entries, e.widget.getSize.1 ≤ MaxInt64 ∧ e.widget.getSize.2 ≤ MaxInt64) ∧
    (toolbar.width ≤ MaxInt64 ∧ toolbar.height ≤ MaxInt64) ∧
    naturalWidths toolbar.entries = 70 ∧
    toolbar.positionType = PositionTypeHorizontal ∧ toolbar.getSize = (100, 30) ∧
    (toolbar.AdjustEntryPlacement.entries.map layoutEntry.rect) =
      [(0, 5, 40, 20), (40, 15, 30, 0), (70, 10, 30, 10)] ∧
    visibleWidths toolbar.AdjustEntryPlacement.entries ≤ toolbar.getSize.1 ∧
    ∀ p ∈ toolbar.AdjustEntryPlacement.entries, p.widget.isVisible = true →
      0 ≤ p.x ∧ 0 ≤ p.y ∧ 0 ≤ p.width ∧ 0 ≤ p.height ∧
        p.x + p.width ≤ toolbar.getSize.1 ∧ p.y + p.height ≤ toolbar.getSize.2 :=
  ⟨by decide, by decide, by decide, by decide, by decide, by decide, by decide,
    ((placed_entries_contained toolbar (by decide) (by decide) (by decide)
      (show naturalWidths toolbar.entries ≤ MaxInt64 by decide)).2 (by decide)).1,
    ((placed_entries_contained toolbar (by decide) (by decide) (by decide)
      (show naturalWidths toolbar.entries ≤ MaxInt64 by decide)).2 (by decide)).2⟩

end d2gui
